import Mathlib

/-!
# Semantic analysis of Cool programs (`assignments/PA4/semant.cc`)

A shallow embedding of the class-hierarchy construction, the subtype and join
algebra and the driver of the semantic analyser, followed by theorems about
them.

Conventions of the embedding.

* A `Symbol` of the source is an interned string (pointer equality is string
  equality), so it is a `String` here.
* The global `class_map` (a `std::map<Symbol, Class_>`) is an association list
  with first-match lookup; `insert` keeps an existing binding, as
  `std::map::insert` does.
* Code that can fail to produce a result returns `Except Fault`: a
  dereference of the null `Class_` that `class_map[k]` yields for an absent
  key is `Fault.null_deref`, a loop that runs out of its iteration budget is
  `Fault.nontermination`.
-/

set_option linter.dupNamespace false

namespace Semant

/-- A symbol of the identifier table. -/
abbrev Symbol := String

/-! ## Predefined symbols (`initialize_constants`) -/

def Sym.arg : Symbol := "arg"
def Sym.arg2 : Symbol := "arg2"
def Sym.Bool : Symbol := "Bool"
def Sym.concat : Symbol := "concat"
def Sym.cool_abort : Symbol := "abort"
def Sym.copy : Symbol := "copy"
def Sym.Int : Symbol := "Int"
def Sym.in_int : Symbol := "in_int"
def Sym.in_string : Symbol := "in_string"
def Sym.IO : Symbol := "IO"
def Sym.length : Symbol := "length"
def Sym.Main : Symbol := "Main"
def Sym.main_meth : Symbol := "main"
def Sym.No_class : Symbol := "_no_class"
def Sym.No_type : Symbol := "_no_type"
def Sym.Object : Symbol := "Object"
def Sym.out_int : Symbol := "out_int"
def Sym.out_string : Symbol := "out_string"
def Sym.prim_slot : Symbol := "_prim_slot"
def Sym.self : Symbol := "self"
def Sym.SELF_TYPE : Symbol := "SELF_TYPE"
def Sym.Str : Symbol := "String"
def Sym.str_field : Symbol := "_str_field"
def Sym.substr : Symbol := "substr"
def Sym.type_name : Symbol := "type_name"
def Sym.val : Symbol := "_val"

/-! ## Syntax tree

The tree classes are declared in `cool-tree.h`; the constructors below are the
ones `semant.cc` uses, each node carrying its line number and, for
expressions, the `type` slot (null until a visit writes it). -/

/-- An expression node. A block holds at least one expression (the grammar has
no empty block), given as its first expression and the rest. -/
inductive Expression where
  | assign (line_number : Nat) (type : Option Symbol) (name : Symbol) (expr : Expression)
  | static_dispatch (line_number : Nat) (type : Option Symbol) (expr : Expression)
      (type_name : Symbol) (name : Symbol) (actual : List Expression)
  | dispatch (line_number : Nat) (type : Option Symbol) (expr : Expression)
      (name : Symbol) (actual : List Expression)
  | cond (line_number : Nat) (type : Option Symbol) (pred then_exp else_exp : Expression)
  | loop (line_number : Nat) (type : Option Symbol) (pred body : Expression)
  | typcase (line_number : Nat) (type : Option Symbol) (expr : Expression)
      (cases : List (Nat × Symbol × Symbol × Expression))
  | block (line_number : Nat) (type : Option Symbol) (first : Expression)
      (rest : List Expression)
  | let_ (line_number : Nat) (type : Option Symbol) (identifier type_decl : Symbol)
      (init body : Expression)
  | plus (line_number : Nat) (type : Option Symbol) (e1 e2 : Expression)
  | sub (line_number : Nat) (type : Option Symbol) (e1 e2 : Expression)
  | mul (line_number : Nat) (type : Option Symbol) (e1 e2 : Expression)
  | divide (line_number : Nat) (type : Option Symbol) (e1 e2 : Expression)
  | neg (line_number : Nat) (type : Option Symbol) (e1 : Expression)
  | lt (line_number : Nat) (type : Option Symbol) (e1 e2 : Expression)
  | eq (line_number : Nat) (type : Option Symbol) (e1 e2 : Expression)
  | leq (line_number : Nat) (type : Option Symbol) (e1 e2 : Expression)
  | comp (line_number : Nat) (type : Option Symbol) (e1 : Expression)
  | int_const (line_number : Nat) (type : Option Symbol) (token : Symbol)
  | bool_const (line_number : Nat) (type : Option Symbol) (val : Bool)
  | string_const (line_number : Nat) (type : Option Symbol) (token : Symbol)
  | new_ (line_number : Nat) (type : Option Symbol) (type_name : Symbol)
  | isvoid (line_number : Nat) (type : Option Symbol) (e1 : Expression)
  | no_expr (line_number : Nat) (type : Option Symbol)
  | object (line_number : Nat) (type : Option Symbol) (name : Symbol)

/-- A formal parameter `formal(name, type_decl)`. -/
structure Formal where
  line_number : Nat
  name : Symbol
  type_decl : Symbol

/-- A method `method(name, formals, return_type, expr)`. -/
structure method_class where
  line_number : Nat
  name : Symbol
  formals : List Formal
  return_type : Symbol
  expr : Expression

/-- An attribute `attr(name, type_decl, init)`. -/
structure attr_class where
  line_number : Nat
  name : Symbol
  type_decl : Symbol
  init : Expression

/-- A feature is a method or an attribute (the source tells them apart with
`dynamic_cast`). -/
inductive Feature where
  | method (m : method_class)
  | attr (a : attr_class)

/-- A class `class_(name, parent, features, filename)`. -/
structure Class_ where
  line_number : Nat
  name : Symbol
  parent : Symbol
  features : List Feature
  filename : Symbol

/-- The object environment `SymbolTable<Symbol, Symbol>`: a stack of scopes,
innermost first. -/
abbrev SymbolTable := List (List (Symbol × Symbol))

/-- The type environment `type_env` (declared in `semant.h`): the object
environment `o` and the current class `c`. -/
structure type_env where
  o : SymbolTable
  c : Class_

/-! ## The class registry `class_map` -/

/-- The global `std::map<Symbol, Class_> class_map`. -/
abbrev ClassMap := List (Symbol × Class_)

/-- The lookup `class_map.find(k)`; `none` is `class_map.end()`. -/
def ClassMap.find : ClassMap → Symbol → Option Class_
  | [], _ => none
  | (k, c) :: rest, key => if k = key then some c else ClassMap.find rest key

/-- The call `class_map.insert(std::make_pair(k, c))`: no effect when `k` is
already bound. -/
def ClassMap.insert (class_map : ClassMap) (k : Symbol) (c : Class_) : ClassMap :=
  match class_map.find k with
  | some _ => class_map
  | none => class_map ++ [(k, c)]

/-! ## Faults and diagnostics -/

/-- The ways a piece of code fails to return. -/
inductive Fault where
  | null_deref
  | nontermination
  deriving DecidableEq, Repr

/-- One record written to the error stream: the `filename:line: ` header when
there is one, and the text that follows it. -/
structure Diagnostic where
  loc : Option (Symbol × Nat)
  text : String
  deriving DecidableEq, Repr

/-- The `ClassTable` object: the error count and the error stream. -/
structure ClassTable where
  semant_errors : Nat
  error_stream : List Diagnostic
  deriving DecidableEq, Repr

/-- The overload `ClassTable::semant_error()`, with the text streamed into the
returned stream. -/
def ClassTable.semant_error (ct : ClassTable) (text : String) : ClassTable :=
  { semant_errors := ct.semant_errors + 1,
    error_stream := ct.error_stream ++ [{ loc := none, text := text }] }

/-- The overload `ClassTable::semant_error(Symbol filename, tree_node *t)`. -/
def ClassTable.semant_error_node (ct : ClassTable) (filename : Symbol) (line : Nat)
    (text : String) : ClassTable :=
  { semant_errors := ct.semant_errors + 1,
    error_stream := ct.error_stream ++ [{ loc := some (filename, line), text := text }] }

/-- The overload `ClassTable::semant_error(Class_ c)`. -/
def ClassTable.semant_error_cls (ct : ClassTable) (c : Class_) (text : String) : ClassTable :=
  ct.semant_error_node c.filename c.line_number text

/-- The accessor `ClassTable::errors()`. -/
def ClassTable.errors (ct : ClassTable) : Nat := ct.semant_errors

/-! ## `ClassTable::install_basic_classes` -/

/-- The file name given to the built-in classes. -/
def basic_filename : Symbol := "<basic class>"

def Object_class (ln : Nat) : Class_ :=
  { line_number := ln, name := Sym.Object, parent := Sym.No_class,
    features :=
      [ .method ⟨ln, Sym.cool_abort, [], Sym.Object, .no_expr ln none⟩,
        .method ⟨ln, Sym.type_name, [], Sym.Str, .no_expr ln none⟩,
        .method ⟨ln, Sym.copy, [], Sym.SELF_TYPE, .no_expr ln none⟩ ],
    filename := basic_filename }

def IO_class (ln : Nat) : Class_ :=
  { line_number := ln, name := Sym.IO, parent := Sym.Object,
    features :=
      [ .method ⟨ln, Sym.out_string, [⟨ln, Sym.arg, Sym.Str⟩], Sym.SELF_TYPE, .no_expr ln none⟩,
        .method ⟨ln, Sym.out_int, [⟨ln, Sym.arg, Sym.Int⟩], Sym.SELF_TYPE, .no_expr ln none⟩,
        .method ⟨ln, Sym.in_string, [], Sym.Str, .no_expr ln none⟩,
        .method ⟨ln, Sym.in_int, [], Sym.Int, .no_expr ln none⟩ ],
    filename := basic_filename }

def Int_class (ln : Nat) : Class_ :=
  { line_number := ln, name := Sym.Int, parent := Sym.Object,
    features := [ .attr ⟨ln, Sym.val, Sym.prim_slot, .no_expr ln none⟩ ],
    filename := basic_filename }

def Bool_class (ln : Nat) : Class_ :=
  { line_number := ln, name := Sym.Bool, parent := Sym.Object,
    features := [ .attr ⟨ln, Sym.val, Sym.prim_slot, .no_expr ln none⟩ ],
    filename := basic_filename }

def Str_class (ln : Nat) : Class_ :=
  { line_number := ln, name := Sym.Str, parent := Sym.Object,
    features :=
      [ .attr ⟨ln, Sym.val, Sym.Int, .no_expr ln none⟩,
        .attr ⟨ln, Sym.str_field, Sym.prim_slot, .no_expr ln none⟩,
        .method ⟨ln, Sym.length, [], Sym.Int, .no_expr ln none⟩,
        .method ⟨ln, Sym.concat, [⟨ln, Sym.arg, Sym.Str⟩], Sym.Str, .no_expr ln none⟩,
        .method ⟨ln, Sym.substr, [⟨ln, Sym.arg, Sym.Int⟩, ⟨ln, Sym.arg2, Sym.Int⟩], Sym.Str,
          .no_expr ln none⟩ ],
    filename := basic_filename }

/-- The method `ClassTable::install_basic_classes`: the five insertions into
`class_map`. The built-in trees take the line number `curr_lineno` that the
tree package has at that moment. -/
def install_basic_classes (curr_lineno : Nat) (class_map : ClassMap) : ClassMap :=
  ((((class_map.insert Sym.Object (Object_class curr_lineno)).insert
    Sym.IO (IO_class curr_lineno)).insert
    Sym.Int (Int_class curr_lineno)).insert
    Sym.Bool (Bool_class curr_lineno)).insert
    Sym.Str (Str_class curr_lineno)

/-! ## `ClassTable::ClassTable` -/

/-- The first loop of the constructor: each class is inserted under its name;
a name that is already bound reports a redefinition and the constructor
returns. The flag of the result says whether it returned. -/
def ClassTable.insert_classes (ct : ClassTable) (class_map : ClassMap) :
    List Class_ → ClassMap × ClassTable × Bool
  | [] => (class_map, ct, false)
  | cls :: rest =>
    match class_map.find cls.name with
    | some _ =>
      (class_map, ct.semant_error_cls cls ("redefinition of class " ++ cls.name ++ ".\n"), true)
    | none => ClassTable.insert_classes ct (class_map.insert cls.name cls) rest

/-- The inner loop of the constructor,
`for (parent = cls->get_parent(); parent != Object; cls = class_map[parent], parent = cls->get_parent())`,
from the class `cls` it currently stands at (`parent` is `cls->get_parent()` at
every test of the loop condition). The result is the diagnostic of the check
that failed, or `none` when the walk reached `Object`. The first argument
bounds the number of iterations. -/
def ClassTable.check_parents (class_map : ClassMap) (starting_class : Symbol) :
    Nat → Class_ → Except Fault (Option (Class_ × String))
  | 0, _ => .error .nontermination
  | fuel + 1, cls =>
    if cls.parent = Sym.Object then .ok none
    else
      match class_map.find cls.parent with
      | none => .ok (some (cls, "Parent class " ++ cls.parent ++ " is not defined.\n"))
      | some next =>
        if cls.parent = Sym.Int ∨ cls.parent = Sym.Bool ∨ cls.parent = Sym.Str
            ∨ cls.parent = Sym.SELF_TYPE then
          .ok (some (cls, "Classes cannot inherit from basic class" ++ cls.parent ++ "\n"))
        else if cls.parent = starting_class then
          .ok (some (cls, "An inheritance cycle has been detected.\n"))
        else ClassTable.check_parents class_map starting_class fuel next

/-- The second loop of the constructor: the walk of every class of the
program, in declaration order, stopping at the first diagnostic. -/
def ClassTable.check_hierarchy (fuel : Nat) (class_map : ClassMap) (ct : ClassTable) :
    List Class_ → Except Fault ClassTable
  | [] => .ok ct
  | cls :: rest =>
    match ClassTable.check_parents class_map cls.name fuel cls with
    | .error f => .error f
    | .ok (some (at_cls, text)) => .ok (ct.semant_error_cls at_cls text)
    | .ok none => ClassTable.check_hierarchy fuel class_map ct rest

/-- The constructor with an explicit bound on the iterations of each parent
walk. It starts from the registry `class_map` it finds and returns the
registry it leaves together with the constructed object. -/
def ClassTable.ClassTable_fuel (fuel : ClassMap → Nat) (class_map : ClassMap)
    (curr_lineno : Nat) (classes : List Class_) : Except Fault (ClassMap × ClassTable) :=
  let ct : ClassTable := { semant_errors := 0, error_stream := [] }
  let class_map := install_basic_classes curr_lineno class_map
  match ClassTable.insert_classes ct class_map classes with
  | (class_map, ct, true) => .ok (class_map, ct)
  | (class_map, ct, false) =>
    match class_map.find Sym.Main with
    | none => .ok (class_map, ct.semant_error "Class Main is not defined.\n")
    | some _ =>
      match ClassTable.check_hierarchy (fuel class_map) class_map ct classes with
      | .error f => .error f
      | .ok ct => .ok (class_map, ct)

/-- The constructor `ClassTable::ClassTable(Classes classes)`. A parent walk
that does not revisit a class sees at most as many classes as the registry
holds, so that many iterations (and one more) are allowed to each walk. -/
def ClassTable.ClassTable (class_map : ClassMap) (curr_lineno : Nat)
    (classes : List Class_) : Except Fault (ClassMap × ClassTable) :=
  ClassTable.ClassTable_fuel (fun m => m.length + 1) class_map curr_lineno classes

/-! ## Subtyping and join -/

/-- The function `cls_is_defined`. -/
def cls_is_defined (class_map : ClassMap) (cls_name : Symbol) : Bool :=
  if cls_name = Sym.SELF_TYPE then true
  else
    match class_map.find cls_name with
    | none => false
    | some _ => true

/-- The loop of `is_subclass` from the iterator `c_iter`; `none` is
`class_map.end()`. The first argument bounds the number of iterations. -/
def is_subclass_loop (class_map : ClassMap) (super : Symbol) :
    Nat → Option Class_ → Except Fault Bool
  | _, none => .ok false
  | 0, some _ => .error .nontermination
  | fuel + 1, some c =>
    if c.name = super then .ok true
    else is_subclass_loop class_map super fuel (class_map.find c.parent)

/-- The function `is_subclass(sub, super, tenv)`. -/
def is_subclass (class_map : ClassMap) (sub super : Symbol) (tenv : type_env) :
    Except Fault Bool :=
  let sub := if sub = Sym.SELF_TYPE then tenv.c.name else sub
  let super := if super = Sym.SELF_TYPE then tenv.c.name else super
  is_subclass_loop class_map super (class_map.length + 1) (class_map.find sub)

/-- The loop of `cls_join` from the class `cls` it stands at; `none` is the
null pointer that `class_map[k]` gives for an absent key, which the loop
condition dereferences. The first argument bounds the number of iterations. -/
def cls_join_loop (class_map : ClassMap) (b : Symbol) (tenv : type_env) :
    Nat → Option Class_ → Except Fault Symbol
  | _, none => .error .null_deref
  | 0, some _ => .error .nontermination
  | fuel + 1, some cls =>
    match is_subclass class_map b cls.name tenv with
    | .error f => .error f
    | .ok true => .ok cls.name
    | .ok false => cls_join_loop class_map b tenv fuel (class_map.find cls.parent)

/-- The function `cls_join(a, b, tenv)`. -/
def cls_join (class_map : ClassMap) (a b : Symbol) (tenv : type_env) : Except Fault Symbol :=
  cls_join_loop class_map b tenv (class_map.length + 1) (class_map.find a)

/-! ## The object environment -/

/-- Modelled from the spec: `enter_scope` of the scoped symbol table of
`symtab.h` (not part of `semant.cc`) pushes a new innermost scope. -/
def SymbolTable.enterscope (o : SymbolTable) : SymbolTable := [] :: o

/-- Modelled from the spec: `exit_scope` of the scoped symbol table pops the
innermost scope. -/
def SymbolTable.exitscope : SymbolTable → SymbolTable
  | [] => []
  | _ :: rest => rest

/-- Modelled from the spec: `bind(name, type)` of the scoped symbol table
inserts or overwrites in the current innermost scope only. Every caller in
`semant.cc` has entered a scope before. -/
def SymbolTable.addid (o : SymbolTable) (name type : Symbol) : SymbolTable :=
  match o with
  | [] => []
  | scope :: rest => ((name, type) :: scope) :: rest

/-- The binding of `name` in one scope, the latest one first. -/
def lookup_scope : List (Symbol × Symbol) → Symbol → Option Symbol
  | [], _ => none
  | (k, t) :: rest, name => if k = name then some t else lookup_scope rest name

/-- Modelled from the spec: `lookup(name)` of the scoped symbol table searches
the scopes from the innermost to the outermost; `none` is the null pointer. -/
def SymbolTable.lookup : SymbolTable → Symbol → Option Symbol
  | [], _ => none
  | scope :: rest, name =>
    match lookup_scope scope name with
    | some t => some t
    | none => SymbolTable.lookup rest name

/-! ## Type checking of expressions -/

/-- What the four arithmetic nodes do once both operands are checked; `op` is
the operator as the diagnostic prints it. -/
def arith_check (ct : ClassTable) (tenv : type_env) (line : Nat) (op : String)
    (t_e1 t_e2 : Symbol) : Symbol × ClassTable :=
  if t_e1 ≠ Sym.Int ∨ t_e2 ≠ Sym.Int then
    (Sym.Object, ct.semant_error_node tenv.c.filename line
      ("non-Int arguments: " ++ t_e1 ++ op ++ t_e2 ++ "\n"))
  else (Sym.Int, ct)

/-- What `lt_class` and `leq_class` do once both operands are checked. -/
def compare_check (ct : ClassTable) (tenv : type_env) (line : Nat) (op : String)
    (t1 t2 : Symbol) : Symbol × ClassTable :=
  if t1 ≠ Sym.Int ∨ t2 ≠ Sym.Int then
    (Sym.Bool, ct.semant_error_node tenv.c.filename line
      ("non-Int arguments: " ++ t1 ++ op ++ t2 ++ "\n"))
  else (Sym.Bool, ct)

mutual
/-- The methods `typecheck` of the expression classes. The result is the
returned symbol, the node with the `type` slots that the visit wrote, and the
`ClassTable` with the errors that the visit reported. -/
def Expression.typecheck (class_map : ClassMap) (tenv : type_env) :
    ClassTable → Expression → Except Fault (Symbol × Expression × ClassTable)
  | ct, .assign line _ name expr =>
    match tenv.o.lookup name with
    | none =>
      .ok (Sym.Object, .assign line (some Sym.Object) name expr,
        ct.semant_error_node tenv.c.filename line
          ("Assignment to undeclared variable " ++ name ++ ".\n"))
    | some t =>
      match Expression.typecheck class_map tenv ct expr with
      | .error f => .error f
      | .ok (t_, expr, ct) =>
        match is_subclass class_map t_ t tenv with
        | .error f => .error f
        | .ok false =>
          .ok (Sym.Object, .assign line (some Sym.Object) name expr,
            ct.semant_error_node tenv.c.filename line
              ("Type " ++ t_ ++ " of assigned expression does not conform to declared type "
                ++ t ++ " of identifier " ++ name ++ ".\n"))
        | .ok true => .ok (t_, .assign line (some t_) name expr, ct)
  | ct, .static_dispatch line type expr type_name name actual =>
    .ok (Sym.Object, .static_dispatch line type expr type_name name actual, ct)
  | ct, .dispatch line type expr name actual =>
    .ok (Sym.Object, .dispatch line type expr name actual, ct)
  | ct, .cond line _ pred then_exp else_exp =>
    match Expression.typecheck class_map tenv ct pred with
    | .error f => .error f
    | .ok (t1, pred, ct) =>
      match Expression.typecheck class_map tenv ct then_exp with
      | .error f => .error f
      | .ok (t2, then_exp, ct) =>
        match Expression.typecheck class_map tenv ct else_exp with
        | .error f => .error f
        | .ok (t3, else_exp, ct) =>
          let ct := if t1 ≠ Sym.Bool then
              ct.semant_error_node tenv.c.filename line
                "Predicate of 'if' does not have type Bool.\n"
            else ct
          match cls_join class_map t2 t3 tenv with
          | .error f => .error f
          | .ok type => .ok (type, .cond line (some type) pred then_exp else_exp, ct)
  | ct, .loop line type pred body => .ok (Sym.Object, .loop line type pred body, ct)
  | ct, .typcase line type expr cases => .ok (Sym.Object, .typcase line type expr cases, ct)
  | ct, .block line _ first rest =>
    match Expression.typecheck class_map tenv ct first with
    | .error f => .error f
    | .ok (type, first, ct) =>
      match typecheck_rest class_map tenv ct type rest with
      | .error f => .error f
      | .ok (type, rest, ct) => .ok (type, .block line (some type) first rest, ct)
  | ct, .let_ line type identifier type_decl init body =>
    .ok (Sym.Object, .let_ line type identifier type_decl init body, ct)
  | ct, .plus line _ e1 e2 =>
    match Expression.typecheck class_map tenv ct e1 with
    | .error f => .error f
    | .ok (t_e1, e1, ct) =>
      match Expression.typecheck class_map tenv ct e2 with
      | .error f => .error f
      | .ok (t_e2, e2, ct) =>
        let r := arith_check ct tenv line " + " t_e1 t_e2
        .ok (r.1, .plus line (some r.1) e1 e2, r.2)
  | ct, .sub line _ e1 e2 =>
    match Expression.typecheck class_map tenv ct e1 with
    | .error f => .error f
    | .ok (t_e1, e1, ct) =>
      match Expression.typecheck class_map tenv ct e2 with
      | .error f => .error f
      | .ok (t_e2, e2, ct) =>
        let r := arith_check ct tenv line " - " t_e1 t_e2
        .ok (r.1, .sub line (some r.1) e1 e2, r.2)
  | ct, .mul line _ e1 e2 =>
    match Expression.typecheck class_map tenv ct e1 with
    | .error f => .error f
    | .ok (t_e1, e1, ct) =>
      match Expression.typecheck class_map tenv ct e2 with
      | .error f => .error f
      | .ok (t_e2, e2, ct) =>
        let r := arith_check ct tenv line " * " t_e1 t_e2
        .ok (r.1, .mul line (some r.1) e1 e2, r.2)
  | ct, .divide line _ e1 e2 =>
    match Expression.typecheck class_map tenv ct e1 with
    | .error f => .error f
    | .ok (t_e1, e1, ct) =>
      match Expression.typecheck class_map tenv ct e2 with
      | .error f => .error f
      | .ok (t_e2, e2, ct) =>
        let r := arith_check ct tenv line " / " t_e1 t_e2
        .ok (r.1, .divide line (some r.1) e1 e2, r.2)
  | ct, .neg line _ e1 =>
    match Expression.typecheck class_map tenv ct e1 with
    | .error f => .error f
    | .ok (type, e1, ct) =>
      let ct := if type ≠ Sym.Int then
          ct.semant_error_node tenv.c.filename line
            ("Argument of ~ has type " ++ type ++ " instead of Int.\n")
        else ct
      .ok (Sym.Int, .neg line (some Sym.Int) e1, ct)
  | ct, .lt line _ e1 e2 =>
    match Expression.typecheck class_map tenv ct e1 with
    | .error f => .error f
    | .ok (t1, e1, ct) =>
      match Expression.typecheck class_map tenv ct e2 with
      | .error f => .error f
      | .ok (t2, e2, ct) =>
        let r := compare_check ct tenv line " < " t1 t2
        .ok (r.1, .lt line (some r.1) e1 e2, r.2)
  | ct, .eq line _ e1 e2 =>
    match Expression.typecheck class_map tenv ct e1 with
    | .error f => .error f
    | .ok (t1, e1, ct) =>
      match Expression.typecheck class_map tenv ct e2 with
      | .error f => .error f
      | .ok (t2, e2, ct) =>
        let ct :=
          if t1 = Sym.Int ∨ t1 = Sym.Str ∨ t1 = Sym.Bool ∨ t2 = Sym.Int ∨ t2 = Sym.Str
              ∨ t2 = Sym.Bool then
            if t1 ≠ t2 then
              ct.semant_error_node tenv.c.filename line "Illegal comparison with a basic type.\n"
            else ct
          else ct
        .ok (Sym.Bool, .eq line (some Sym.Bool) e1 e2, ct)
  | ct, .leq line _ e1 e2 =>
    match Expression.typecheck class_map tenv ct e1 with
    | .error f => .error f
    | .ok (t1, e1, ct) =>
      match Expression.typecheck class_map tenv ct e2 with
      | .error f => .error f
      | .ok (t2, e2, ct) =>
        let r := compare_check ct tenv line " <= " t1 t2
        .ok (r.1, .leq line (some r.1) e1 e2, r.2)
  | ct, .comp line _ e1 =>
    match Expression.typecheck class_map tenv ct e1 with
    | .error f => .error f
    | .ok (type, e1, ct) =>
      let ct := if type ≠ Sym.Bool then
          ct.semant_error_node tenv.c.filename line
            ("Argument of 'not' has type " ++ type ++ " instead of Bool.\n")
        else ct
      .ok (Sym.Bool, .comp line (some Sym.Bool) e1, ct)
  | ct, .int_const line _ token => .ok (Sym.Int, .int_const line (some Sym.Int) token, ct)
  | ct, .bool_const line _ val => .ok (Sym.Bool, .bool_const line (some Sym.Bool) val, ct)
  | ct, .string_const line _ token => .ok (Sym.Str, .string_const line (some Sym.Str) token, ct)
  | ct, .new_ line _ type_name =>
    if cls_is_defined class_map type_name then
      .ok (type_name, .new_ line (some type_name) type_name, ct)
    else
      .ok (Sym.Object, .new_ line (some Sym.Object) type_name,
        ct.semant_error_node tenv.c.filename line
          ("'new' used with undefined class " ++ type_name ++ ".\n"))
  | ct, .isvoid line _ e1 =>
    match Expression.typecheck class_map tenv ct e1 with
    | .error f => .error f
    | .ok (_, e1, ct) => .ok (Sym.Bool, .isvoid line (some Sym.Bool) e1, ct)
  | ct, .no_expr line _ => .ok (Sym.No_type, .no_expr line (some Sym.No_type), ct)
  | ct, .object line _ name =>
    match tenv.o.lookup name with
    | none =>
      .ok (Sym.Object, .object line (some Sym.Object) name,
        ct.semant_error_node tenv.c.filename line ("Undeclared identifier " ++ name ++ ".\n"))
    | some t => .ok (t, .object line (some t) name, ct)
/-- The loop of `block_class::typecheck` over the expressions after the first:
`type` is the symbol assigned so far. -/
def typecheck_rest (class_map : ClassMap) (tenv : type_env) :
    ClassTable → Symbol → List Expression → Except Fault (Symbol × List Expression × ClassTable)
  | ct, type, [] => .ok (type, [], ct)
  | ct, _, e :: es =>
    match Expression.typecheck class_map tenv ct e with
    | .error f => .error f
    | .ok (type, e, ct) =>
      match typecheck_rest class_map tenv ct type es with
      | .error f => .error f
      | .ok (type, es, ct) => .ok (type, e :: es, ct)
end

/-! ## Type checking of features -/

/-- The loop of `method_class::typecheck` over the formals. -/
def add_formals (o : SymbolTable) : List Formal → SymbolTable
  | [] => o
  | f :: rest => add_formals (o.addid f.name f.type_decl) rest

/-- The method `method_class::typecheck`. -/
def method_class.typecheck (class_map : ClassMap) (tenv : type_env) (ct : ClassTable)
    (m : method_class) : Except Fault (Symbol × method_class × type_env × ClassTable) :=
  let tenv := { tenv with o := tenv.o.enterscope }
  let tenv := { tenv with o := tenv.o.addid Sym.self Sym.SELF_TYPE }
  let tenv := { tenv with o := add_formals tenv.o m.formals }
  match Expression.typecheck class_map tenv ct m.expr with
  | .error f => .error f
  | .ok (_, expr, ct) =>
    let tenv := { tenv with o := tenv.o.exitscope }
    .ok (Sym.Object, { m with expr := expr }, tenv, ct)

/-- The method `attr_class::typecheck`. -/
def attr_class.typecheck (class_map : ClassMap) (tenv : type_env) (ct : ClassTable)
    (a : attr_class) : Except Fault (Symbol × attr_class × type_env × ClassTable) :=
  let t0 := a.type_decl
  match Expression.typecheck class_map tenv ct a.init with
  | .error f => .error f
  | .ok (t1, init, ct) =>
    if t1 ≠ Sym.No_type then
      match is_subclass class_map t1 t0 tenv with
      | .error f => .error f
      | .ok false =>
        .ok (t0, { a with init := init }, tenv,
          ct.semant_error_node tenv.c.filename a.line_number
            ("Inferred type " ++ t1 ++ " of initialization of attribute a "
              ++ "does not conform to declared type " ++ t0 ++ ".\n"))
      | .ok true => .ok (t0, { a with init := init }, tenv, ct)
    else .ok (t0, { a with init := init }, tenv, ct)

/-- The virtual call `f->typecheck(tenv)` on a feature. -/
def Feature.typecheck (class_map : ClassMap) (tenv : type_env) (ct : ClassTable) :
    Feature → Except Fault (Symbol × Feature × type_env × ClassTable)
  | .method m =>
    match m.typecheck class_map tenv ct with
    | .error f => .error f
    | .ok (t, m, tenv, ct) => .ok (t, .method m, tenv, ct)
  | .attr a =>
    match a.typecheck class_map tenv ct with
    | .error f => .error f
    | .ok (t, a, tenv, ct) => .ok (t, .attr a, tenv, ct)

/-! ## The method environment -/

/-- The global `std::map<method_id, method_class *> method_env`. -/
abbrev MethodEnv := List ((Symbol × Symbol) × method_class)

/-- The lookup `method_env.find(k)`. -/
def MethodEnv.find : MethodEnv → Symbol × Symbol → Option method_class
  | [], _ => none
  | (k, m) :: rest, key => if k = key then some m else MethodEnv.find rest key

/-- The assignment `method_env[k] = m`: the binding of `k` is replaced, or
added when there is none. -/
def MethodEnv.set : MethodEnv → Symbol × Symbol → method_class → MethodEnv
  | [], key, m => [(key, m)]
  | (k, m0) :: rest, key, m =>
    if k = key then (k, m) :: rest else (k, m0) :: MethodEnv.set rest key m

/-- The inner loop of `build_method_env` over the features of one class. -/
def add_methods (cls : Class_) (method_env : MethodEnv) : List Feature → MethodEnv
  | [] => method_env
  | .attr _ :: rest => add_methods cls method_env rest
  | .method m :: rest => add_methods cls (method_env.set (cls.name, m.name) m) rest

/-- The outer loop of `build_method_env` over the entries of `class_map`. -/
def build_method_env_loop (method_env : MethodEnv) : ClassMap → MethodEnv
  | [] => method_env
  | (_, cls) :: rest => build_method_env_loop (add_methods cls method_env cls.features) rest

/-- The function `build_method_env`, starting from the method environment it
finds. -/
def build_method_env (class_map : ClassMap) (method_env : MethodEnv) : MethodEnv :=
  build_method_env_loop method_env class_map

/-- The function `method_is_defined`. -/
def method_is_defined (method_env : MethodEnv) (class_name method_name : Symbol) : Bool :=
  match method_env.find (class_name, method_name) with
  | none => false
  | some _ => true

/-- The loop of `lookup_method` from the iterator `c_iter`. The first argument
bounds the number of iterations. -/
def lookup_method_loop (class_map : ClassMap) (method_env : MethodEnv) (method_name : Symbol) :
    Nat → Option Class_ → Except Fault (Option method_class)
  | _, none => .ok none
  | 0, some _ => .error .nontermination
  | fuel + 1, some c =>
    match method_env.find (c.name, method_name) with
    | some m => .ok (some m)
    | none =>
      lookup_method_loop class_map method_env method_name fuel (class_map.find c.parent)

/-- The function `lookup_method`; `none` is the null pointer. -/
def lookup_method (class_map : ClassMap) (method_env : MethodEnv)
    (class_name method_name : Symbol) : Except Fault (Option method_class) :=
  lookup_method_loop class_map method_env method_name (class_map.length + 1)
    (class_map.find class_name)

/-! ## Checking a class -/

/-- The inner loop of the first part of `build_initial_obj_env`: the attributes
of one superclass are added to the object environment. -/
def add_attributes (o : SymbolTable) : List Feature → SymbolTable
  | [] => o
  | .method _ :: rest => add_attributes o rest
  | .attr a :: rest => add_attributes (o.addid a.name a.type_decl) rest

/-- The outer loop of the first part of `build_initial_obj_env`, from the
iterator `c_iter`. The first argument bounds the number of iterations. -/
def add_inherited (class_map : ClassMap) :
    Nat → Option Class_ → SymbolTable → Except Fault SymbolTable
  | _, none, o => .ok o
  | 0, some _, _ => .error .nontermination
  | fuel + 1, some c, o =>
    add_inherited class_map fuel (class_map.find c.parent) (add_attributes o c.features)

/-- The second part of `build_initial_obj_env`: the attributes of the class
itself, each reported when its name is already bound. -/
def add_own_attributes (tenv : type_env) (ct : ClassTable) :
    List Feature → type_env × ClassTable
  | [] => (tenv, ct)
  | .method _ :: rest => add_own_attributes tenv ct rest
  | .attr a :: rest =>
    match tenv.o.lookup a.name with
    | some _ =>
      add_own_attributes tenv
        (ct.semant_error_node tenv.c.filename a.line_number
          ("Attribute " ++ a.name ++ " is already defined "
            ++ "either in the same class or in a superclass.\n")) rest
    | none => add_own_attributes { tenv with o := tenv.o.addid a.name a.type_decl } ct rest

/-- The function `build_initial_obj_env`. -/
def build_initial_obj_env (class_map : ClassMap) (tenv : type_env) (ct : ClassTable) :
    Except Fault (type_env × ClassTable) :=
  match add_inherited class_map (class_map.length + 1) (class_map.find tenv.c.parent) tenv.o with
  | .error f => .error f
  | .ok o => .ok (add_own_attributes { tenv with o := o } ct tenv.c.features)

/-- The loop of `class__class::check` over the features. -/
def check_features (class_map : ClassMap) :
    type_env → ClassTable → List Feature → Except Fault (List Feature × ClassTable)
  | _, ct, [] => .ok ([], ct)
  | tenv, ct, f :: rest =>
    match f.typecheck class_map tenv ct with
    | .error e => .error e
    | .ok (_, f, tenv, ct) =>
      match check_features class_map tenv ct rest with
      | .error e => .error e
      | .ok (rest, ct) => .ok (f :: rest, ct)

/-- The method `class__class::check`: the class with the `type` slots written
by the visit, and the `ClassTable` with the errors reported. -/
def class__class.check (class_map : ClassMap) (ct : ClassTable) (this : Class_) :
    Except Fault (Class_ × ClassTable) :=
  let tenv : type_env := { o := SymbolTable.enterscope [], c := this }
  match build_initial_obj_env class_map tenv ct with
  | .error f => .error f
  | .ok (tenv, ct) =>
    match check_features class_map tenv ct tenv.c.features with
    | .error f => .error f
    | .ok (features, ct) => .ok ({ this with features := features }, ct)

/-! ## The driver -/

/-- The loop of `program_class::semant` that calls `check` on every class. -/
def check_classes (class_map : ClassMap) :
    ClassTable → List Class_ → Except Fault (List Class_ × ClassTable)
  | ct, [] => .ok ([], ct)
  | ct, c :: rest =>
    match class__class.check class_map ct c with
    | .error f => .error f
    | .ok (c, ct) =>
      match check_classes class_map ct rest with
      | .error f => .error f
      | .ok (rest, ct) => .ok (c :: rest, ct)

/-- What a run of `program_class::semant` leaves: the two global tables, the
`ClassTable` object, the classes of the program with their annotations, and
whether the run ended in `exit(1)` after the message
"Compilation halted due to static semantic errors.". -/
structure SemantResult where
  class_map : ClassMap
  method_env : MethodEnv
  classtable : ClassTable
  classes : List Class_
  halted : Bool

/-- The method `program_class::semant`, from the global tables it finds. -/
def program_class.semant (class_map : ClassMap) (method_env : MethodEnv) (curr_lineno : Nat)
    (classes : List Class_) : Except Fault SemantResult :=
  match ClassTable.ClassTable class_map curr_lineno classes with
  | .error f => .error f
  | .ok (class_map, classtable) =>
    if classtable.errors ≠ 0 then
      .ok { class_map := class_map, method_env := method_env, classtable := classtable,
            classes := classes, halted := true }
    else
      let method_env := build_method_env class_map method_env
      match check_classes class_map classtable classes with
      | .error f => .error f
      | .ok (classes, classtable) =>
        .ok { class_map := class_map, method_env := method_env, classtable := classtable,
              classes := classes, halted := decide (classtable.errors ≠ 0) }

/-! ## Notions used to state the properties -/

deriving instance DecidableEq for Except

/-- The registry entries of a list of classes, each under its own name. -/
def entries (classes : List Class_) : ClassMap :=
  classes.map fun c => (c.name, c)

/-- The class reached from the class registered as `k` by following `n`
parent links, each of which has to resolve in the registry. -/
def ClassMap.nth_parent (class_map : ClassMap) : Nat → Symbol → Option Class_
  | 0, k => class_map.find k
  | n + 1, k =>
    match class_map.find k with
    | none => none
    | some c => ClassMap.nth_parent class_map n c.parent

/-- The class `x` is the class registered as `k` or one of its ancestors. -/
def ClassMap.is_ancestor_or_self (class_map : ClassMap) (x k : Symbol) : Prop :=
  ∃ n c, class_map.nth_parent n k = some c ∧ c.name = x

/-- The symbol `k` names a registered class. -/
def ClassMap.registered (class_map : ClassMap) (k : Symbol) : Prop :=
  ∃ c, class_map.find k = some c

/-- The list `l` holds the names met on the way from the class registered as
`k` up to `Object`, both included. -/
inductive IsChain (class_map : ClassMap) : Symbol → List Symbol → Prop
  | object {o : Class_} : class_map.find Sym.Object = some o → IsChain class_map Sym.Object [Sym.Object]
  | step {k : Symbol} {c : Class_} {l : List Symbol} :
      k ≠ Sym.Object → class_map.find k = some c → IsChain class_map c.parent l →
      IsChain class_map k (k :: l)

/-- The registry `class_map` is the one the constructor leaves, in a fresh
process, for the program `classes` when it reports no error. No class of a
program is named `_no_class` (the source: "a symbol that can't be the name of
any user-defined class"). -/
def Validated (curr_lineno : Nat) (classes : List Class_) (class_map : ClassMap) : Prop :=
  (∀ c ∈ classes, c.name ≠ Sym.No_class) ∧
    ∃ ct, ClassTable.ClassTable [] curr_lineno classes = .ok (class_map, ct) ∧ ct.errors = 0

/-- A class without features, at line 1 of `f.cl`. -/
def mk_class (name parent : Symbol) : Class_ :=
  { line_number := 1, name := name, parent := parent, features := [], filename := "f.cl" }

/-- A type environment with an empty object environment and current class `c`. -/
def ctx (c : Class_) : type_env := { o := [], c := c }

/-- The facts about a validated registry that the subtype algebra rests on:
every class is registered under its own name, `Object` is the only class whose
parent (`_no_class`) is not registered, every registered class has a chain of
parents up to `Object`, and no registered class inherits from `SELF_TYPE`. -/
structure WellFormed (m : ClassMap) : Prop where
  names : ∀ k c, m.find k = some c → c.name = k
  object : ∃ o, m.find Sym.Object = some o ∧ o.parent = Sym.No_class
  no_class : m.find Sym.No_class = none
  chain : ∀ k c, m.find k = some c → ∃ l, IsChain m k l
  parent_ne_self : ∀ k c, m.find k = some c → c.parent ≠ Sym.SELF_TYPE

/-- The substitution that `is_subclass` applies to both of its arguments: the
name of the current class for `SELF_TYPE`. -/
def resolve (tenv : type_env) (x : Symbol) : Symbol :=
  if x = Sym.SELF_TYPE then tenv.c.name else x

/-! ## Sample programs -/

/-- A program with a small hierarchy: `Main` inherits `IO`, `A` inherits
`Object`, `B` inherits `A`. -/
def sample_classes : List Class_ :=
  [mk_class "Main" "IO", mk_class "A" "Object", mk_class "B" "A"]

/-- The registry of `sample_classes`. -/
def sample_map : ClassMap :=
  install_basic_classes 0 [] ++ entries sample_classes

/-- A program that declares a class named `SELF_TYPE`, with parent `parent`,
next to a class `Main` with parent `main_parent`. -/
def self_type_classes (main_parent parent : Symbol) : List Class_ :=
  [mk_class "Main" main_parent, mk_class "SELF_TYPE" parent]

/-- The registry of `self_type_classes`. -/
def self_type_map (main_parent parent : Symbol) : ClassMap :=
  install_basic_classes 0 [] ++ entries (self_type_classes main_parent parent)

/-- The names of the five built-in classes. -/
def basic_names : List Symbol := [Sym.Object, Sym.IO, Sym.Int, Sym.Bool, Sym.Str]

/-- A program with the inheritance cycle `A`, `B` and a class `C` declared
before them that inherits from `A`. -/
def cycle_classes : List Class_ :=
  [mk_class "C" "A", mk_class "A" "B", mk_class "B" "A", mk_class "Main" "Object"]

/-- The registry the first loop of the constructor builds for `cycle_classes`. -/
def cycle_map : ClassMap :=
  install_basic_classes 0 [] ++ entries cycle_classes

/-- A program in which the third class has the name of the second. -/
def redefinition_classes : List Class_ :=
  [mk_class "Main" "Object", mk_class "A" "Main", mk_class "A" "Object", mk_class "C" "C"]

/-- A program with a valid hierarchy and type errors in its first class: the
attribute `x : Int` of `Main` is initialised with `1 + "s"`, and class `A`
has a method whose body is `not 0`. -/
def type_error_classes : List Class_ :=
  [ { line_number := 1, name := "Main", parent := "Object",
      features :=
        [.attr ⟨2, "x", "Int", .plus 2 none (.int_const 2 none "1") (.string_const 2 none "s")⟩],
      filename := "f.cl" },
    { line_number := 4, name := "A", parent := "Main",
      features := [.method ⟨5, "f", [], "Bool", .comp 5 none (.int_const 5 none "0")⟩],
      filename := "f.cl" } ]

/-! ## Errors reported on top of earlier ones -/

/-- The `ClassTable` after the reports of `d` have been made on top of those
of `ct`. -/
def add_errors (ct d : ClassTable) : ClassTable :=
  { semant_errors := ct.semant_errors + d.semant_errors,
    error_stream := ct.error_stream ++ d.error_stream }

/-- The `ClassTable` of a run that has reported nothing. -/
def no_errors : ClassTable := { semant_errors := 0, error_stream := [] }

/-- A result whose reports are made on top of those of `ct`. -/
def shift2 {α : Type} (ct : ClassTable) :
    Except Fault (α × ClassTable) → Except Fault (α × ClassTable)
  | .error f => .error f
  | .ok (a, d) => .ok (a, add_errors ct d)

/-- A result whose reports are made on top of those of `ct`. -/
def shift3 {α β : Type} (ct : ClassTable) :
    Except Fault (α × β × ClassTable) → Except Fault (α × β × ClassTable)
  | .error f => .error f
  | .ok (a, b, d) => .ok (a, b, add_errors ct d)

/-- A result whose reports are made on top of those of `ct`. -/
def shift4 {α β γ : Type} (ct : ClassTable) :
    Except Fault (α × β × γ × ClassTable) → Except Fault (α × β × γ × ClassTable)
  | .error f => .error f
  | .ok (a, b, c, d) => .ok (a, b, c, add_errors ct d)

/-- The errors that the check of class `c` reports when it starts from a
`ClassTable` without errors (none when the check does not return). -/
def own_errors (class_map : ClassMap) (c : Class_) : ClassTable :=
  match class__class.check class_map no_errors c with
  | .ok (_, d) => d
  | .error _ => no_errors

/-- The errors of the checks of all classes of a list, in order. -/
def total_errors (class_map : ClassMap) : List Class_ → ClassTable
  | [] => no_errors
  | c :: rest => add_errors (own_errors class_map c) (total_errors class_map rest)

/-- The class `Main` with the single attribute `a : Object <- self`. -/
def self_attr_class : Class_ :=
  { line_number := 1, name := "Main", parent := "Object",
    features := [.attr ⟨2, "a", "Object", .object 2 none Sym.self⟩],
    filename := "f.cl" }

/-- The class `Main` with the single method `f() : Object { self }`. -/
def self_method_class : Class_ :=
  { line_number := 1, name := "Main", parent := "Object",
    features := [.method ⟨2, "f", [], "Object", .object 2 none Sym.self⟩],
    filename := "f.cl" }

/-- The class `Main` with the single method `f() : Object { self <- self }`. -/
def self_assign_class : Class_ :=
  { line_number := 1, name := "Main", parent := "Object",
    features :=
      [.method ⟨2, "f", [], "Object", .assign 2 none Sym.self (.object 2 none Sym.self)⟩],
    filename := "f.cl" }

/-- The registry of a program that consists of one class. -/
def single_map (c : Class_) : ClassMap :=
  install_basic_classes 0 [] ++ entries [c]

/-! ## Annotated trees -/

/-- The node is of one of the five kinds whose `typecheck` is
`{ return Object; }`: static dispatch, dispatch, loop, case, let. -/
def Expression.is_stub : Expression → Bool
  | .static_dispatch _ _ _ _ _ _ => true
  | .dispatch _ _ _ _ _ => true
  | .loop _ _ _ _ => true
  | .typcase _ _ _ _ => true
  | .let_ _ _ _ _ _ _ => true
  | _ => false

mutual
/-- The `type` slot is set in the node and in every node below it that is
reached without passing a static dispatch, dispatch, loop, case or let node,
and without passing the right-hand side of an assignment to an identifier that
the environment `o` does not bind. Nothing is asked of the five kinds
themselves. -/
def Expression.annotated (o : SymbolTable) : Expression → Bool
  | .assign _ type name expr =>
    type.isSome &&
      (match o.lookup name with
       | none => true
       | some _ => Expression.annotated o expr)
  | .static_dispatch _ _ _ _ _ _ => true
  | .dispatch _ _ _ _ _ => true
  | .cond _ type pred then_exp else_exp =>
    type.isSome && Expression.annotated o pred && Expression.annotated o then_exp
      && Expression.annotated o else_exp
  | .loop _ _ _ _ => true
  | .typcase _ _ _ _ => true
  | .block _ type first rest =>
    type.isSome && Expression.annotated o first && annotated_rest o rest
  | .let_ _ _ _ _ _ _ => true
  | .plus _ type e1 e2 => type.isSome && Expression.annotated o e1 && Expression.annotated o e2
  | .sub _ type e1 e2 => type.isSome && Expression.annotated o e1 && Expression.annotated o e2
  | .mul _ type e1 e2 => type.isSome && Expression.annotated o e1 && Expression.annotated o e2
  | .divide _ type e1 e2 => type.isSome && Expression.annotated o e1 && Expression.annotated o e2
  | .neg _ type e1 => type.isSome && Expression.annotated o e1
  | .lt _ type e1 e2 => type.isSome && Expression.annotated o e1 && Expression.annotated o e2
  | .eq _ type e1 e2 => type.isSome && Expression.annotated o e1 && Expression.annotated o e2
  | .leq _ type e1 e2 => type.isSome && Expression.annotated o e1 && Expression.annotated o e2
  | .comp _ type e1 => type.isSome && Expression.annotated o e1
  | .int_const _ type _ => type.isSome
  | .bool_const _ type _ => type.isSome
  | .string_const _ type _ => type.isSome
  | .new_ _ type _ => type.isSome
  | .isvoid _ type e1 => type.isSome && Expression.annotated o e1
  | .no_expr _ type => type.isSome
  | .object _ type _ => type.isSome
/-- Every expression of the list is annotated. -/
def annotated_rest (o : SymbolTable) : List Expression → Bool
  | [] => true
  | e :: es => Expression.annotated o e && annotated_rest o es
end

/-- The initialiser of an attribute is annotated for the class environment
`o`; the body of a method is annotated for the environment that
`method_class::typecheck` builds on top of `o`. -/
def Feature.annotated (o : SymbolTable) : Feature → Bool
  | .attr a => a.init.annotated o
  | .method mth =>
    mth.expr.annotated (add_formals ((o.enterscope).addid Sym.self Sym.SELF_TYPE) mth.formals)

/-- The class `Main` with the methods `f() : Int { (new IO).in_int() }` and
`g() : Object { y <- 1 }`, where `y` is not declared. -/
def stub_class : Class_ :=
  { line_number := 1, name := "Main", parent := "Object",
    features :=
      [.method ⟨2, "f", [], "Int", .dispatch 2 none (.new_ 2 none Sym.IO) Sym.in_int []⟩,
       .method ⟨3, "g", [], "Object", .assign 3 none "y" (.int_const 3 none "1")⟩],
    filename := "f.cl" }

/-- A class at line `line` of `f.cl` whose only feature is the attribute
`x : type_decl`, without initialiser, declared on the next line. -/
def attr_x_class (line : Nat) (name parent type_decl : Symbol) : Class_ :=
  { line_number := line, name := name, parent := parent,
    features := [.attr ⟨line + 1, "x", type_decl, .no_expr (line + 1) none⟩],
    filename := "f.cl" }

/-- The scenario of the specification: `x : Int` in `A`, `x : Bool` in `B`,
which inherits `A`. -/
def redeclare_classes : List Class_ :=
  [mk_class "Main" "Object", attr_x_class 3 "A" "Object" Sym.Int,
    attr_x_class 6 "B" "A" Sym.Bool]

/-- Three declarations of `x` on one chain: `x : Int` in `G`, `x : String` in
`A`, which inherits `G`, and `x : Bool` in `B`, which inherits `A`. -/
def shadow_classes : List Class_ :=
  [mk_class "Main" "Object", attr_x_class 3 "G" "Object" Sym.Int,
    attr_x_class 6 "A" "G" Sym.Str, attr_x_class 9 "B" "A" Sym.Bool]

/-- The method named `method_name` that is declared last among the features
`fs`, if any. -/
def last_method (method_name : Symbol) : List Feature → Option method_class
  | [] => none
  | .attr _ :: rest => last_method method_name rest
  | .method mth :: rest =>
    match last_method method_name rest with
    | some later => some later
    | none => if mth.name = method_name then some mth else none

/-- The class `Main` with the single method
`f() : Object { if true then self else 1 fi }`. -/
def self_cond_class : Class_ :=
  { line_number := 1, name := "Main", parent := "Object",
    features :=
      [.method ⟨2, "f", [], "Object",
         .cond 2 none (.bool_const 2 none true) (.object 2 none Sym.self)
           (.int_const 2 none "1")⟩],
    filename := "f.cl" }

/-- A program with a valid hierarchy: the class `Main` with the method
`f() : Object { if true then self else 1 fi }`, and a class `A` whose method
`g() : Bool { not 0 }` has a type error. -/
def fault_classes : List Class_ :=
  [ self_cond_class,
    { line_number := 4, name := "A", parent := "Main",
      features := [.method ⟨5, "g", [], "Bool", .comp 5 none (.int_const 5 none "0")⟩],
      filename := "f.cl" } ]

/-- The class `Main` with the attribute `x : Foo`, where no class `Foo` is
declared, and the method `f() : Object { if true then 1 else x fi }`. -/
def undeclared_type_class : Class_ :=
  { line_number := 1, name := "Main", parent := "Object",
    features :=
      [.attr ⟨2, "x", "Foo", .no_expr 2 none⟩,
       .method ⟨3, "f", [], "Object",
         .cond 3 none (.bool_const 3 none true) (.int_const 3 none "1")
           (.object 3 none "x")⟩],
    filename := "f.cl" }

/-! # Theorems -/

/-! ## The registry as an association list -/

theorem ClassMap.find_append_some {m1 : ClassMap} {k : Symbol} {c : Class_} (m2 : ClassMap)
    (h : m1.find k = some c) : (m1 ++ m2).find k = some c := by
  induction m1 with
  | nil => simp [ClassMap.find] at h
  | cons p m1 ih =>
    obtain ⟨k1, c1⟩ := p
    simp only [List.cons_append, ClassMap.find] at h ⊢
    split_ifs with hk
    · simpa [hk] using h
    · simp only [hk, if_false] at h
      exact ih h

theorem ClassMap.find_append_none {m1 : ClassMap} {k : Symbol} (m2 : ClassMap)
    (h : m1.find k = none) : (m1 ++ m2).find k = m2.find k := by
  induction m1 with
  | nil => rfl
  | cons p m1 ih =>
    obtain ⟨k1, c1⟩ := p
    simp only [List.cons_append, ClassMap.find] at h ⊢
    split_ifs with hk
    · simp [hk] at h
    · simp only [hk, if_false] at h
      exact ih h

theorem ClassMap.mem_of_find {m : ClassMap} {k : Symbol} {c : Class_}
    (h : m.find k = some c) : (k, c) ∈ m := by
  induction m with
  | nil => simp [ClassMap.find] at h
  | cons p m ih =>
    obtain ⟨k1, c1⟩ := p
    simp only [ClassMap.find] at h
    split_ifs at h with hk
    · cases h
      simp [hk]
    · exact List.mem_cons_of_mem _ (ih h)

theorem ClassMap.find_none_of_not_mem {m : ClassMap} {k : Symbol}
    (h : k ∉ m.map Prod.fst) : m.find k = none := by
  cases hf : m.find k with
  | none => rfl
  | some c =>
    exfalso
    exact h (List.mem_map.mpr ⟨(k, c), ClassMap.mem_of_find hf, rfl⟩)

theorem ClassMap.mem_keys_of_find {m : ClassMap} {k : Symbol} {c : Class_}
    (h : m.find k = some c) : k ∈ m.map Prod.fst :=
  List.mem_map.mpr ⟨(k, c), ClassMap.mem_of_find h, rfl⟩

theorem entries_cons (c : Class_) (cs : List Class_) :
    entries (c :: cs) = (c.name, c) :: entries cs := rfl

theorem mem_entries {classes : List Class_} {k : Symbol} {c : Class_}
    (h : (k, c) ∈ entries classes) : c.name = k ∧ c ∈ classes := by
  unfold entries at h
  obtain ⟨c1, hc1, he⟩ := List.mem_map.mp h
  cases he
  exact ⟨rfl, hc1⟩

theorem find_entries_none {classes : List Class_} {k : Symbol}
    (h : ∀ c ∈ classes, c.name ≠ k) : (entries classes).find k = none := by
  apply ClassMap.find_none_of_not_mem
  intro hk
  obtain ⟨p, hp, hpk⟩ := List.mem_map.mp hk
  obtain ⟨k1, c1⟩ := p
  obtain ⟨hn, hc⟩ := mem_entries hp
  exact h c1 hc (hn.trans hpk)

theorem find_entries_self {classes : List Class_} (hnd : (classes.map Class_.name).Nodup)
    {c : Class_} (hc : c ∈ classes) : (entries classes).find c.name = some c := by
  induction classes with
  | nil => simp at hc
  | cons d ds ih =>
    simp only [List.map_cons, List.nodup_cons] at hnd
    simp only [entries_cons, ClassMap.find]
    rcases List.mem_cons.mp hc with h | h
    · subst h
      simp
    · have hne : d.name ≠ c.name := by
        intro he
        exact hnd.1 (he ▸ List.mem_map_of_mem _ h)
      simp only [hne, if_false]
      exact ih hnd.2 h

/-! ## The first loop of the constructor -/

theorem ClassMap.insert_of_find_none {m : ClassMap} {k : Symbol} (c : Class_)
    (h : m.find k = none) : m.insert k c = m ++ [(k, c)] := by
  simp [ClassMap.insert, h]

theorem insert_classes_flag_false (ct : ClassTable) :
    ∀ (classes : List Class_) (m m1 : ClassMap) (ct1 : ClassTable),
      ClassTable.insert_classes ct m classes = (m1, ct1, false) →
      ct1 = ct ∧ m1 = m ++ entries classes ∧ (∀ c ∈ classes, m.find c.name = none) ∧
        (classes.map Class_.name).Nodup := by
  intro classes
  induction classes with
  | nil =>
    intro m m1 ct1 h
    simp only [ClassTable.insert_classes, Prod.mk.injEq] at h
    simp [entries, h.1.symm, h.2.1.symm]
  | cons cls rest ih =>
    intro m m1 ct1 h
    simp only [ClassTable.insert_classes] at h
    cases hf : m.find cls.name with
    | some c0 => simp [hf] at h
    | none =>
      simp only [hf, ClassMap.insert_of_find_none cls hf] at h
      obtain ⟨h1, h2, h3, h4⟩ := ih _ _ _ h
      have hrest : ∀ c ∈ rest, m.find c.name = none ∧ c.name ≠ cls.name := by
        intro c hc
        have := h3 c hc
        cases hm : m.find c.name with
        | some c0 => rw [ClassMap.find_append_some _ hm] at this; cases this
        | none =>
          refine ⟨rfl, ?_⟩
          rw [ClassMap.find_append_none _ hm] at this
          intro he
          simp [ClassMap.find, he] at this
      refine ⟨h1, ?_, ?_, ?_⟩
      · simp [h2, entries_cons]
      · intro c hc
        rcases List.mem_cons.mp hc with h | h
        · rw [h]; exact hf
        · exact (hrest c h).1
      · simp only [List.map_cons, List.nodup_cons]
        refine ⟨?_, h4⟩
        intro hmem
        obtain ⟨c, hc, hn⟩ := List.mem_map.mp hmem
        exact (hrest c hc).2 hn

theorem insert_classes_flag_true (ct : ClassTable) :
    ∀ (classes : List Class_) (m m1 : ClassMap) (ct1 : ClassTable),
      ClassTable.insert_classes ct m classes = (m1, ct1, true) →
      ct1.semant_errors = ct.semant_errors + 1 := by
  intro classes
  induction classes with
  | nil =>
    intro m m1 ct1 h
    simp [ClassTable.insert_classes] at h
  | cons cls rest ih =>
    intro m m1 ct1 h
    simp only [ClassTable.insert_classes] at h
    cases hf : m.find cls.name with
    | some c0 =>
      simp only [hf, Prod.mk.injEq] at h
      rw [← h.2.1]
      rfl
    | none =>
      simp only [hf] at h
      exact ih _ _ _ h

/-- The first loop on a program whose first conflicting class is `cls`. -/
theorem insert_classes_conflict (ct : ClassTable) (cls : Class_) (post : List Class_) :
    ∀ (pre : List Class_) (m : ClassMap),
      (∀ c ∈ pre, m.find c.name = none) → (pre.map Class_.name).Nodup →
      (m ++ entries pre).find cls.name ≠ none →
      ClassTable.insert_classes ct m (pre ++ cls :: post) =
        (m ++ entries pre,
          ct.semant_error_cls cls ("redefinition of class " ++ cls.name ++ ".\n"), true) := by
  intro pre
  induction pre with
  | nil =>
    intro m _ _ hc
    simp only [entries, List.map_nil, List.append_nil, List.nil_append] at hc ⊢
    simp only [ClassTable.insert_classes]
    cases hf : m.find cls.name with
    | some c0 => rfl
    | none => exact absurd hf hc
  | cons d ds ih =>
    intro m hfree hnd hc
    simp only [List.map_cons, List.nodup_cons] at hnd
    have hd : m.find d.name = none := hfree d (List.mem_cons_self _ _)
    simp only [List.cons_append, ClassTable.insert_classes, hd,
      ClassMap.insert_of_find_none d hd]
    have hm : m ++ entries (d :: ds) = (m ++ [(d.name, d)]) ++ entries ds := by
      simp [entries_cons]
    rw [hm] at hc ⊢
    apply ih _ _ hnd.2 hc
    intro c hcm
    rw [ClassMap.find_append_none _ (hfree c (List.mem_cons_of_mem _ hcm))]
    have hne : d.name ≠ c.name := fun he => hnd.1 (he ▸ List.mem_map_of_mem _ hcm)
    simp [ClassMap.find, hne]

/-! ## The built-in classes -/

/-- The registry after `install_basic_classes` in a fresh process. -/
theorem install_basic_classes_nil (ln : Nat) :
    install_basic_classes ln [] =
      [(Sym.Object, Object_class ln), ( Sym.IO, IO_class ln), (Sym.Int, Int_class ln),
        (Sym.Bool, Bool_class ln), (Sym.Str, Str_class ln)] := rfl

theorem find_basic_eq (ln : Nat) (k : Symbol) :
    (install_basic_classes ln []).find k =
      if Sym.Object = k then some (Object_class ln)
      else if Sym.IO = k then some (IO_class ln)
      else if Sym.Int = k then some (Int_class ln)
      else if Sym.Bool = k then some (Bool_class ln)
      else if Sym.Str = k then some (Str_class ln)
      else none := by
  rw [install_basic_classes_nil]
  rfl

/-! ## The second loop of the constructor -/

theorem check_hierarchy_cases (fuel : Nat) (m : ClassMap) (ct : ClassTable) :
    ∀ (classes : List Class_) (ct1 : ClassTable),
      ClassTable.check_hierarchy fuel m ct classes = .ok ct1 →
      (ct1 = ct ∧ ∀ cls ∈ classes, ClassTable.check_parents m cls.name fuel cls = .ok none) ∨
        ct1.semant_errors = ct.semant_errors + 1 := by
  intro classes
  induction classes with
  | nil =>
    intro ct1 h
    simp only [ClassTable.check_hierarchy, Except.ok.injEq] at h
    exact Or.inl ⟨h.symm, by simp⟩
  | cons cls rest ih =>
    intro ct1 h
    simp only [ClassTable.check_hierarchy] at h
    cases hw : ClassTable.check_parents m cls.name fuel cls with
    | error f => simp [hw] at h
    | ok r =>
      cases r with
      | some p =>
        obtain ⟨at_cls, text⟩ := p
        simp only [hw, Except.ok.injEq] at h
        right
        rw [← h]
        rfl
      | none =>
        simp only [hw] at h
        rcases ih ct1 h with ⟨h1, h2⟩ | h1
        · left
          refine ⟨h1, ?_⟩
          intro c hc
          rcases List.mem_cons.mp hc with hc | hc
          · rw [hc]; exact hw
          · exact h2 c hc
        · exact Or.inr h1

/-- What a run of the constructor without error tells about the program. -/
theorem ClassTable_ok_inv {ln : Nat} {classes : List Class_} {m : ClassMap} {ct : ClassTable}
    (h : ClassTable.ClassTable [] ln classes = .ok (m, ct)) (h0 : ct.errors = 0) :
    m = install_basic_classes ln [] ++ entries classes ∧
      ct = { semant_errors := 0, error_stream := [] } ∧
      (∀ c ∈ classes, (install_basic_classes ln []).find c.name = none) ∧
      (classes.map Class_.name).Nodup ∧
      m.registered Sym.Main ∧
      ∀ cls ∈ classes, ClassTable.check_parents m cls.name (m.length + 1) cls = .ok none := by
  unfold ClassTable.ClassTable ClassTable.ClassTable_fuel at h
  simp only at h
  generalize hins : ClassTable.insert_classes { semant_errors := 0, error_stream := [] }
    (install_basic_classes ln []) classes = r at h
  obtain ⟨m1, ct1, flag⟩ := r
  cases flag with
  | true =>
    simp only [Except.ok.injEq, Prod.mk.injEq] at h
    have := insert_classes_flag_true _ _ _ _ _ hins
    rw [h.2] at this
    simp [ClassTable.errors] at h0
    omega
  | false =>
    obtain ⟨hct, hm, hfree, hnd⟩ := insert_classes_flag_false _ _ _ _ _ hins
    subst hct
    simp only at h
    cases hmain : m1.find Sym.Main with
    | none =>
      simp only [hmain, Except.ok.injEq, Prod.mk.injEq] at h
      rw [← h.2] at h0
      simp [ClassTable.errors, ClassTable.semant_error] at h0
    | some cmain =>
      simp only [hmain] at h
      cases hh : ClassTable.check_hierarchy (m1.length + 1) m1
          { semant_errors := 0, error_stream := [] } classes with
      | error f => simp [hh] at h
      | ok ct2 =>
        simp only [hh, Except.ok.injEq, Prod.mk.injEq] at h
        obtain ⟨h1, h2⟩ := h
        subst h1 h2
        rcases check_hierarchy_cases _ _ _ _ _ hh with ⟨e1, e2⟩ | e1
        · exact ⟨hm, e1, hfree, hnd, ⟨cmain, hmain⟩, e2⟩
        · simp [ClassTable.errors] at h0
          omega

/-! ## From a run without error to a well-formed registry -/

theorem check_parents_chain {m : ClassMap} {o : Class_} (ho : m.find Sym.Object = some o)
    (s : Symbol) :
    ∀ (fuel : Nat) (cls : Class_), ClassTable.check_parents m s fuel cls = .ok none →
      ∃ l, IsChain m cls.parent l := by
  intro fuel
  induction fuel with
  | zero =>
    intro cls h
    simp [ClassTable.check_parents] at h
  | succ n ih =>
    intro cls h
    simp only [ClassTable.check_parents] at h
    by_cases hp : cls.parent = Sym.Object
    · rw [hp]
      exact ⟨_, IsChain.object ho⟩
    · simp only [hp, if_false] at h
      cases hf : m.find cls.parent with
      | none => simp [hf] at h
      | some next =>
        simp only [hf] at h
        by_cases h1 : cls.parent = Sym.Int ∨ cls.parent = Sym.Bool ∨ cls.parent = Sym.Str
            ∨ cls.parent = Sym.SELF_TYPE
        · simp [h1] at h
        · by_cases h2 : cls.parent = s
          · rw [if_neg h1, if_pos h2] at h
            simp at h
          · simp only [h1, h2, if_false] at h
            obtain ⟨l, hl⟩ := ih next h
            exact ⟨_, IsChain.step hp hf hl⟩

theorem check_parents_first {m : ClassMap} {s : Symbol} {fuel : Nat} {cls : Class_}
    (h : ClassTable.check_parents m s fuel cls = .ok none) :
    cls.parent ≠ Sym.Int ∧ cls.parent ≠ Sym.Bool ∧ cls.parent ≠ Sym.Str ∧
      cls.parent ≠ Sym.SELF_TYPE := by
  cases fuel with
  | zero => simp [ClassTable.check_parents] at h
  | succ n =>
    simp only [ClassTable.check_parents] at h
    by_cases hp : cls.parent = Sym.Object
    · rw [hp]
      decide
    · simp only [hp, if_false] at h
      cases hf : m.find cls.parent with
      | none => simp [hf] at h
      | some next =>
        simp only [hf] at h
        by_cases h1 : cls.parent = Sym.Int ∨ cls.parent = Sym.Bool ∨ cls.parent = Sym.Str
            ∨ cls.parent = Sym.SELF_TYPE
        · simp [h1] at h
        · simp only [not_or] at h1
          exact h1

/-- A registered class is a built-in class or a class of the program. -/
theorem find_validated_cases {ln : Nat} {classes : List Class_} {k : Symbol} {c : Class_}
    (h : (install_basic_classes ln [] ++ entries classes).find k = some c) :
    (k, c) ∈ [(Sym.Object, Object_class ln), ( Sym.IO, IO_class ln), (Sym.Int, Int_class ln),
        (Sym.Bool, Bool_class ln), (Sym.Str, Str_class ln)] ∨
      (c.name = k ∧ c ∈ classes ∧ (install_basic_classes ln []).find k = none) := by
  cases hb : (install_basic_classes ln []).find k with
  | some c0 =>
    rw [ClassMap.find_append_some _ hb] at h
    cases h
    left
    have := ClassMap.mem_of_find hb
    rwa [install_basic_classes_nil] at this
  | none =>
    rw [ClassMap.find_append_none _ hb] at h
    right
    obtain ⟨h1, h2⟩ := mem_entries (ClassMap.mem_of_find h)
    exact ⟨h1, h2, rfl⟩

/-- The shape of the registry after a run of the constructor without error:
classes are registered under their own names, `Object` is registered with
parent `_no_class`, every registered class has a chain of parents up to
`Object`, and no registered class inherits from `SELF_TYPE`. -/
theorem ClassTable_ok_chain {ln : Nat} {classes : List Class_} {m : ClassMap}
    {ct : ClassTable} (hrun : ClassTable.ClassTable [] ln classes = .ok (m, ct))
    (h0 : ct.errors = 0) :
    (∀ k c, m.find k = some c → c.name = k) ∧
      (∃ o, m.find Sym.Object = some o ∧ o.parent = Sym.No_class) ∧
      (∀ k c, m.find k = some c → ∃ l, IsChain m k l) ∧
      (∀ k c, m.find k = some c → c.parent ≠ Sym.SELF_TYPE) := by
  obtain ⟨hm, -, hfree, hnd, -, hwalk⟩ := ClassTable_ok_inv hrun h0
  have hobj : m.find Sym.Object = some (Object_class ln) := by
    rw [hm]
    exact ClassMap.find_append_some _ rfl
  have hbasic : ∀ {k : Symbol} {c : Class_}, (install_basic_classes ln []).find k = some c →
      m.find k = some c := by
    intro k c hk
    rw [hm]
    exact ClassMap.find_append_some _ hk
  refine ⟨?_, ⟨_, hobj, rfl⟩, ?_, ?_⟩
  · intro k c hk
    rw [hm] at hk
    rcases find_validated_cases hk with hb | ⟨hn, -, -⟩
    · simp only [List.mem_cons, Prod.mk.injEq, List.mem_singleton, List.not_mem_nil,
        or_false] at hb
      rcases hb with ⟨rfl, rfl⟩ | ⟨rfl, rfl⟩ | ⟨rfl, rfl⟩ | ⟨rfl, rfl⟩ | ⟨rfl, rfl⟩ <;> rfl
    · exact hn
  · intro k c hk
    rw [hm] at hk
    rcases find_validated_cases hk with hb | ⟨hn, hc, hnb⟩
    · simp only [List.mem_cons, Prod.mk.injEq, List.mem_singleton, List.not_mem_nil,
        or_false] at hb
      rcases hb with ⟨rfl, rfl⟩ | ⟨rfl, rfl⟩ | ⟨rfl, rfl⟩ | ⟨rfl, rfl⟩ | ⟨rfl, rfl⟩
      · exact ⟨_, IsChain.object hobj⟩
      · exact ⟨_, IsChain.step (by decide) (hbasic (c := IO_class ln) rfl) (IsChain.object hobj)⟩
      · exact ⟨_, IsChain.step (by decide) (hbasic (c := Int_class ln) rfl) (IsChain.object hobj)⟩
      · exact ⟨_, IsChain.step (by decide) (hbasic (c := Bool_class ln) rfl) (IsChain.object hobj)⟩
      · exact ⟨_, IsChain.step (by decide) (hbasic (c := Str_class ln) rfl) (IsChain.object hobj)⟩
    · obtain ⟨l, hl⟩ := check_parents_chain hobj _ _ _ (hwalk c hc)
      have hne : k ≠ Sym.Object := by
        intro he
        rw [he] at hnb
        cases hnb
      rw [← hm] at hk
      exact ⟨_, IsChain.step hne hk hl⟩
  · intro k c hk
    rw [hm] at hk
    rcases find_validated_cases hk with hb | ⟨-, hc, -⟩
    · simp only [List.mem_cons, Prod.mk.injEq, List.mem_singleton, List.not_mem_nil,
        or_false] at hb
      rcases hb with ⟨rfl, rfl⟩ | ⟨rfl, rfl⟩ | ⟨rfl, rfl⟩ | ⟨rfl, rfl⟩ | ⟨rfl, rfl⟩
      · show Sym.No_class ≠ Sym.SELF_TYPE
        decide
      all_goals
        show Sym.Object ≠ Sym.SELF_TYPE
        decide
    · exact (check_parents_first (hwalk c hc)).2.2.2

theorem Validated.wellFormed {ln : Nat} {classes : List Class_} {m : ClassMap}
    (hv : Validated ln classes m) : WellFormed m := by
  obtain ⟨hnc, ct, hrun, h0⟩ := hv
  obtain ⟨h1, h2, h3, h4⟩ := ClassTable_ok_chain hrun h0
  obtain ⟨hm, -⟩ := ClassTable_ok_inv hrun h0
  refine ⟨h1, h2, ?_, h3, h4⟩
  rw [hm, ClassMap.find_append_none _ (by rfl)]
  exact find_entries_none hnc

/-! ## Chains of parents -/

theorem IsChain.unique {m : ClassMap} {k : Symbol} {l1 l2 : List Symbol}
    (h1 : IsChain m k l1) (h2 : IsChain m k l2) : l1 = l2 := by
  induction h1 generalizing l2 with
  | object _ =>
    cases h2 with
    | object _ => rfl
    | step hne _ _ => exact absurd rfl hne
  | step hne hf _ ih =>
    cases h2 with
    | object _ => exact absurd rfl hne
    | step _ hf2 hc2 =>
      rw [hf] at hf2
      cases hf2
      rw [ih hc2]

theorem IsChain.suffix {m : ClassMap} {k : Symbol} {l : List Symbol} (h : IsChain m k l) :
    ∀ (pre : List Symbol) (x : Symbol) (post : List Symbol), l = pre ++ x :: post →
      IsChain m x (x :: post) := by
  induction h with
  | object ho =>
    intro pre x post he
    cases pre with
    | nil =>
      simp only [List.nil_append, List.cons.injEq] at he
      rw [← he.1, ← he.2]
      exact IsChain.object ho
    | cons p ps =>
      simp only [List.cons_append, List.cons.injEq] at he
      have := he.2
      simp at this
  | step hne hf hc ih =>
    intro pre x post he
    cases pre with
    | nil =>
      simp only [List.nil_append, List.cons.injEq] at he
      rw [← he.1, ← he.2]
      exact IsChain.step hne hf hc
    | cons p ps =>
      simp only [List.cons_append, List.cons.injEq] at he
      exact ih ps x post he.2

theorem IsChain.of_mem {m : ClassMap} {k x : Symbol} {l : List Symbol} (h : IsChain m k l)
    (hx : x ∈ l) : ∃ pre post, l = pre ++ x :: post ∧ IsChain m x (x :: post) := by
  obtain ⟨pre, post, he⟩ := List.append_of_mem hx
  exact ⟨pre, post, he, h.suffix pre x post he⟩

theorem IsChain.head_eq {m : ClassMap} {k : Symbol} {l : List Symbol} (h : IsChain m k l) :
    ∃ t, l = k :: t := by
  cases h with
  | object _ => exact ⟨[], rfl⟩
  | step _ _ _ => exact ⟨_, rfl⟩

theorem IsChain.self_mem {m : ClassMap} {k : Symbol} {l : List Symbol} (h : IsChain m k l) :
    k ∈ l := by
  obtain ⟨t, rfl⟩ := h.head_eq
  exact List.mem_cons_self _ _

theorem IsChain.object_mem {m : ClassMap} {k : Symbol} {l : List Symbol} (h : IsChain m k l) :
    Sym.Object ∈ l := by
  induction h with
  | object _ => exact List.mem_cons_self _ _
  | step _ _ _ ih => exact List.mem_cons_of_mem _ ih

theorem IsChain.registered {m : ClassMap} {k : Symbol} {l : List Symbol} (h : IsChain m k l) :
    ∀ x ∈ l, m.registered x := by
  induction h with
  | object ho =>
    intro x hx
    rw [List.mem_singleton.mp hx]
    exact ⟨_, ho⟩
  | step _ hf _ ih =>
    intro x hx
    rcases List.mem_cons.mp hx with hx | hx
    · rw [hx]
      exact ⟨_, hf⟩
    · exact ih x hx

theorem IsChain.nodup {m : ClassMap} {k : Symbol} {l : List Symbol} (h : IsChain m k l) :
    l.Nodup := by
  induction h with
  | object _ => simp
  | @step k c l hne hf hc ih =>
    refine List.nodup_cons.mpr ⟨?_, ih⟩
    intro hk
    obtain ⟨pre, post, he, hch⟩ := hc.of_mem hk
    have hu := hch.unique (IsChain.step hne hf hc)
    simp only [List.cons.injEq, true_and] at hu
    have hlen := congrArg List.length he
    rw [hu] at hlen
    simp at hlen
    omega

theorem IsChain.length_le {m : ClassMap} {k : Symbol} {l : List Symbol} (h : IsChain m k l) :
    l.length ≤ m.length := by
  have hsub : l ⊆ m.map Prod.fst := by
    intro x hx
    obtain ⟨c, hc⟩ := h.registered x hx
    exact ClassMap.mem_keys_of_find hc
  have := (List.subperm_of_subset h.nodup hsub).length_le
  simpa using this

theorem IsChain.ne_self {m : ClassMap} (wf : WellFormed m) {k : Symbol} {l : List Symbol}
    (h : IsChain m k l) (hk : k ≠ Sym.SELF_TYPE) : ∀ x ∈ l, x ≠ Sym.SELF_TYPE := by
  induction h with
  | object _ =>
    intro x hx
    rw [List.mem_singleton.mp hx]
    exact hk
  | step _ hf _ ih =>
    intro x hx
    rcases List.mem_cons.mp hx with hx | hx
    · rw [hx]
      exact hk
    · exact ih (wf.parent_ne_self _ _ hf) x hx

/-- A class on the chain of `k` other than `k` has a strictly shorter chain. -/
theorem IsChain.length_lt_of_mem_tail {m : ClassMap} {k x : Symbol} {t lx : List Symbol}
    (h : IsChain m k (k :: t)) (hx : x ∈ t) (hlx : IsChain m x lx) :
    lx.length ≤ t.length := by
  obtain ⟨pre, post, he⟩ := List.append_of_mem hx
  have hs := h.suffix (k :: pre) x post (by simp [he])
  rw [hlx.unique hs, he]
  simp

theorem nth_parent_of_find_none {m : ClassMap} {k : Symbol} (h : m.find k = none) (n : Nat) :
    m.nth_parent n k = none := by
  cases n <;> simp [ClassMap.nth_parent, h]

theorem IsChain.mem_of_nth_parent {m : ClassMap} (wf : WellFormed m) {k : Symbol}
    {l : List Symbol} (h : IsChain m k l) :
    ∀ (n : Nat) (c : Class_), m.nth_parent n k = some c → c.name ∈ l := by
  induction h with
  | object ho =>
    intro n c hn
    obtain ⟨o1, ho1, hp⟩ := wf.object
    cases n with
    | zero =>
      simp only [ClassMap.nth_parent] at hn
      rw [wf.names _ _ hn]
      exact List.mem_cons_self _ _
    | succ n =>
      simp only [ClassMap.nth_parent, ho1, hp, nth_parent_of_find_none wf.no_class] at hn
      cases hn
  | step _ hf _ ih =>
    intro n c hn
    cases n with
    | zero =>
      simp only [ClassMap.nth_parent] at hn
      rw [wf.names _ _ hn]
      exact List.mem_cons_self _ _
    | succ n =>
      simp only [ClassMap.nth_parent, hf] at hn
      exact List.mem_cons_of_mem _ (ih n c hn)

theorem IsChain.nth_parent_of_mem {m : ClassMap} (wf : WellFormed m) {k : Symbol}
    {l : List Symbol} (h : IsChain m k l) :
    ∀ x ∈ l, ∃ n c, m.nth_parent n k = some c ∧ c.name = x := by
  induction h with
  | object ho =>
    intro x hx
    rw [List.mem_singleton.mp hx]
    exact ⟨0, _, ho, wf.names _ _ ho⟩
  | step _ hf _ ih =>
    intro x hx
    rcases List.mem_cons.mp hx with hx | hx
    · rw [hx]
      exact ⟨0, _, hf, wf.names _ _ hf⟩
    · obtain ⟨n, c, hn, hc⟩ := ih x hx
      exact ⟨n + 1, c, by simp only [ClassMap.nth_parent, hf, hn], hc⟩

theorem IsChain.is_ancestor_or_self_iff {m : ClassMap} (wf : WellFormed m) {k : Symbol}
    {l : List Symbol} (h : IsChain m k l) (x : Symbol) :
    m.is_ancestor_or_self x k ↔ x ∈ l := by
  constructor
  · rintro ⟨n, c, hn, hc⟩
    rw [← hc]
    exact h.mem_of_nth_parent wf n c hn
  · intro hx
    exact h.nth_parent_of_mem wf x hx

/-! ## `is_subclass` and `cls_join` on a well-formed registry -/

theorem is_subclass_unfold (m : ClassMap) (a b : Symbol) (tenv : type_env) :
    is_subclass m a b tenv =
      is_subclass_loop m (resolve tenv b) (m.length + 1) (m.find (resolve tenv a)) := rfl

theorem resolve_of_ne {tenv : type_env} {x : Symbol} (h : x ≠ Sym.SELF_TYPE) :
    resolve tenv x = x := by
  simp [resolve, h]

theorem is_subclass_loop_none (m : ClassMap) (super : Symbol) (fuel : Nat) :
    is_subclass_loop m super fuel none = .ok false := by
  cases fuel <;> rfl

theorem is_subclass_loop_chain {m : ClassMap} (wf : WellFormed m) (super : Symbol)
    {k : Symbol} {l : List Symbol} (h : IsChain m k l) :
    ∀ fuel, l.length ≤ fuel →
      is_subclass_loop m super fuel (m.find k) = .ok (decide (super ∈ l)) := by
  induction h with
  | object ho =>
    intro fuel hfuel
    obtain ⟨o1, ho1, hp⟩ := wf.object
    cases fuel with
    | zero => simp at hfuel
    | succ n =>
      rw [ho1]
      simp only [is_subclass_loop, hp, wf.no_class, is_subclass_loop_none, wf.names _ _ ho1]
      by_cases hs : Sym.Object = super
      · simp [hs]
      · have : ¬ super = Sym.Object := fun e => hs e.symm
        simp [hs, this]
  | @step k c l _ hf _ ih =>
    intro fuel hfuel
    cases fuel with
    | zero => simp at hfuel
    | succ n =>
      rw [hf]
      simp only [is_subclass_loop, wf.names _ _ hf]
      have hn : l.length ≤ n := by
        simp only [List.length_cons] at hfuel
        omega
      by_cases hs : k = super
      · simp [hs]
      · have : ¬ super = k := fun e => hs e.symm
        simp only [hs, if_false, ih n hn, List.mem_cons, this, false_or]

theorem is_subclass_of_chain {m : ClassMap} (wf : WellFormed m) {a : Symbol} (b : Symbol)
    {tenv : type_env} {l : List Symbol} (h : IsChain m (resolve tenv a) l) :
    is_subclass m a b tenv = .ok (decide (resolve tenv b ∈ l)) := by
  rw [is_subclass_unfold]
  exact is_subclass_loop_chain wf _ h _ (Nat.le_succ_of_le h.length_le)

theorem is_subclass_of_unregistered {m : ClassMap} {a : Symbol} (b : Symbol)
    {tenv : type_env} (h : m.find (resolve tenv a) = none) :
    is_subclass m a b tenv = .ok false := by
  rw [is_subclass_unfold, h, is_subclass_loop_none]

/-- On a well-formed registry `is_subclass` returns: it is total. -/
theorem is_subclass_total {m : ClassMap} (wf : WellFormed m) (a b : Symbol) (tenv : type_env) :
    ∃ r, is_subclass m a b tenv = .ok r := by
  cases hf : m.find (resolve tenv a) with
  | none => exact ⟨false, is_subclass_of_unregistered b hf⟩
  | some c =>
    obtain ⟨l, hl⟩ := wf.chain _ _ hf
    exact ⟨_, is_subclass_of_chain wf b hl⟩

/-- When `is_subclass` answers true, the resolved super class is on the chain
of the resolved sub class. -/
theorem is_subclass_true_iff {m : ClassMap} (wf : WellFormed m) {a b : Symbol}
    {tenv : type_env} :
    is_subclass m a b tenv = .ok true ↔
      ∃ l, IsChain m (resolve tenv a) l ∧ resolve tenv b ∈ l := by
  constructor
  · intro h
    cases hf : m.find (resolve tenv a) with
    | none =>
      rw [is_subclass_of_unregistered b hf] at h
      cases h
    | some c =>
      obtain ⟨l, hl⟩ := wf.chain _ _ hf
      rw [is_subclass_of_chain wf b hl] at h
      simp only [Except.ok.injEq, decide_eq_true_eq] at h
      exact ⟨l, hl, h⟩
  · rintro ⟨l, hl, hb⟩
    rw [is_subclass_of_chain wf b hl]
    simp [hb]

/-- The loop of `cls_join` along the chain `la` of `a` returns the first class
of `la` that is on the chain `lb` of (the resolved) `b`. -/
theorem cls_join_loop_chain {m : ClassMap} (wf : WellFormed m) {b : Symbol} {tenv : type_env}
    {lb : List Symbol} (hb : IsChain m (resolve tenv b) lb) {a : Symbol} {la : List Symbol}
    (ha : IsChain m a la) :
    (∀ x ∈ la, x ≠ Sym.SELF_TYPE) → ∀ fuel, la.length ≤ fuel →
      ∃ pre j post, la = pre ++ j :: post ∧ (∀ x ∈ pre, x ∉ lb) ∧ j ∈ lb ∧
        cls_join_loop m b tenv fuel (m.find a) = .ok j := by
  induction ha with
  | object ho =>
    intro _ fuel hfuel
    cases fuel with
    | zero => simp at hfuel
    | succ n =>
      refine ⟨[], Sym.Object, [], rfl, by simp, hb.object_mem, ?_⟩
      rw [ho]
      simp only [cls_join_loop, wf.names _ _ ho]
      rw [is_subclass_of_chain wf _ hb, resolve_of_ne (by decide)]
      simp [hb.object_mem]
  | @step k c l _ hf _ ih =>
    intro hns fuel hfuel
    cases fuel with
    | zero => simp at hfuel
    | succ n =>
      have hn : l.length ≤ n := by
        simp only [List.length_cons] at hfuel
        omega
      have hk : k ≠ Sym.SELF_TYPE := hns k (List.mem_cons_self _ _)
      rw [hf]
      simp only [cls_join_loop, wf.names _ _ hf]
      rw [is_subclass_of_chain wf _ hb, resolve_of_ne hk]
      by_cases hmem : k ∈ lb
      · exact ⟨[], k, l, rfl, by simp, hmem, by simp [hmem]⟩
      · obtain ⟨pre, j, post, he, hpre, hj, hres⟩ :=
          ih (fun x hx => hns x (List.mem_cons_of_mem _ hx)) n hn
        refine ⟨k :: pre, j, post, by simp [he], ?_, hj, by simp [hmem, hres]⟩
        intro x hx
        rcases List.mem_cons.mp hx with hx | hx
        · rw [hx]
          exact hmem
        · exact hpre x hx

/-- The function `cls_join` on a registered first argument other than
`SELF_TYPE` and a second argument that resolves to a registered class. -/
theorem cls_join_spec {m : ClassMap} (wf : WellFormed m) {a b : Symbol} {tenv : type_env}
    {la lb : List Symbol} (ha : IsChain m a la) (hb : IsChain m (resolve tenv b) lb)
    (hne : a ≠ Sym.SELF_TYPE) :
    ∃ pre j post, la = pre ++ j :: post ∧ (∀ x ∈ pre, x ∉ lb) ∧ j ∈ lb ∧
      cls_join m a b tenv = .ok j :=
  cls_join_loop_chain wf hb ha (ha.ne_self wf hne) _ (Nat.le_succ_of_le ha.length_le)

/-! ## The sample programs are validated -/

theorem sample_validated : Validated 0 sample_classes sample_map :=
  ⟨by decide, ⟨_, rfl, rfl⟩⟩

theorem self_type_validated_object_object :
    Validated 0 (self_type_classes "Object" "Object") (self_type_map "Object" "Object") :=
  ⟨by decide, ⟨_, rfl, rfl⟩⟩

theorem self_type_validated_object_io :
    Validated 0 (self_type_classes "Object" "IO") (self_type_map "Object" "IO") :=
  ⟨by decide, ⟨_, rfl, rfl⟩⟩

theorem self_type_validated_io_object :
    Validated 0 (self_type_classes "IO" "Object") (self_type_map "IO" "Object") :=
  ⟨by decide, ⟨_, rfl, rfl⟩⟩

theorem registered_resolve {m : ClassMap} {tenv : type_env} {x : Symbol}
    (hx : m.registered x) (hctx : m.registered tenv.c.name) : m.registered (resolve tenv x) := by
  unfold resolve
  split_ifs
  · exact hctx
  · exact hx

theorem WellFormed.chain_of_registered {m : ClassMap} (wf : WellFormed m) {k : Symbol}
    (hk : m.registered k) : ∃ l, IsChain m k l := by
  obtain ⟨c, hc⟩ := hk
  exact wf.chain _ _ hc

/-! ## Claims on the subtype and join algebra -/

/-- C1, the failing input: a program that declares `class SELF_TYPE` next to
`class Main`, which the constructor accepts, in the context of class `Main`.
`cls_join` takes `class_map[a]` for its first argument as it is given, where
`is_subclass` puts the current class for `SELF_TYPE`: `cls_join(SELF_TYPE,
Main, ctx)` walks from the class named `SELF_TYPE` and is `SELF_TYPE`, while
`cls_join(Main, SELF_TYPE, ctx)` is `Main`. From the class that `SELF_TYPE`
resolves to, `Main`, the join with `Main` is `Main`, the same in both orders. -/
theorem cls_join_not_symmetric :
    Validated 0 (self_type_classes "Object" "Object") (self_type_map "Object" "Object") ∧
      (self_type_map "Object" "Object").registered Sym.SELF_TYPE ∧
      (self_type_map "Object" "Object").registered Sym.Main ∧
      cls_join (self_type_map "Object" "Object") Sym.SELF_TYPE Sym.Main
        (ctx (mk_class "Main" "Object")) = .ok Sym.SELF_TYPE ∧
      cls_join (self_type_map "Object" "Object") Sym.Main Sym.SELF_TYPE
        (ctx (mk_class "Main" "Object")) = .ok Sym.Main ∧
      resolve (ctx (mk_class "Main" "Object")) Sym.SELF_TYPE = Sym.Main ∧
      cls_join (self_type_map "Object" "Object")
        (resolve (ctx (mk_class "Main" "Object")) Sym.SELF_TYPE) Sym.Main
        (ctx (mk_class "Main" "Object")) = .ok Sym.Main :=
  ⟨self_type_validated_object_object, ⟨_, rfl⟩, ⟨_, rfl⟩, rfl, rfl, rfl, rfl⟩

/-- Symmetry of `cls_join` where no argument needs to be resolved: on a
validated class table, for two registered classes `A` and `B` neither of which
is the class named `SELF_TYPE`, and any context, `cls_join(A, B, ctx)` and
`cls_join(B, A, ctx)` both return, and return the same class. -/
theorem cls_join_symmetric {ln : Nat} {classes : List Class_} {m : ClassMap}
    (hv : Validated ln classes m) {A B : Symbol} (hA : m.registered A) (hB : m.registered B)
    (hAs : A ≠ Sym.SELF_TYPE) (hBs : B ≠ Sym.SELF_TYPE) (tenv : type_env) :
    ∃ J, cls_join m A B tenv = .ok J ∧ cls_join m B A tenv = .ok J := by
  have wf := hv.wellFormed
  obtain ⟨la, ha⟩ := wf.chain_of_registered hA
  obtain ⟨lb, hb⟩ := wf.chain_of_registered hB
  have ha1 : IsChain m (resolve tenv A) la := by rw [resolve_of_ne hAs]; exact ha
  have hb1 : IsChain m (resolve tenv B) lb := by rw [resolve_of_ne hBs]; exact hb
  obtain ⟨pre1, j1, post1, e1, hpre1, hj1, r1⟩ := cls_join_spec wf ha hb1 hAs
  obtain ⟨pre2, j2, post2, e2, hpre2, hj2, r2⟩ := cls_join_spec wf hb ha1 hBs
  have hj1a : j1 ∈ la := by rw [e1]; simp
  have hj2b : j2 ∈ lb := by rw [e2]; simp
  have c1 : IsChain m j1 (j1 :: post1) := ha.suffix _ _ _ e1
  have c2 : IsChain m j2 (j2 :: post2) := hb.suffix _ _ _ e2
  have m1 : j1 ∈ j2 :: post2 := by
    have h := hj1
    rw [e2, List.mem_append] at h
    rcases h with h | h
    · exact absurd hj1a (hpre2 j1 h)
    · exact h
  have m2 : j2 ∈ j1 :: post1 := by
    have h := hj2
    rw [e1, List.mem_append] at h
    rcases h with h | h
    · exact absurd hj2b (hpre1 j2 h)
    · exact h
  have heq : j1 = j2 := by
    by_contra hne
    have t1 : j1 ∈ post2 := by
      rcases List.mem_cons.mp m1 with h | h
      · exact absurd h hne
      · exact h
    have t2 : j2 ∈ post1 := by
      rcases List.mem_cons.mp m2 with h | h
      · exact absurd h.symm hne
      · exact h
    have l1 := c2.length_lt_of_mem_tail t1 c1
    have l2 := c1.length_lt_of_mem_tail t2 c2
    simp only [List.length_cons] at l1 l2
    omega
  exact ⟨j1, r1, heq ▸ r2⟩

/-- An instance of `cls_join_symmetric`: the join of `B` and `Main` in the
sample program. -/
theorem cls_join_symmetric_witness :
    ∃ J, cls_join sample_map "B" "Main" (ctx (mk_class "Main" "IO")) = .ok J ∧
      cls_join sample_map "Main" "B" (ctx (mk_class "Main" "IO")) = .ok J :=
  cls_join_symmetric sample_validated (show sample_map.registered "B" from ⟨_, rfl⟩)
    (show sample_map.registered "Main" from ⟨_, rfl⟩) (by decide) (by decide) _

/-- C2, the failing input: a program with `class Main` and
`class SELF_TYPE inherits IO`, which the constructor accepts, in the context
of class `Main`. `cls_join(SELF_TYPE, IO, ctx)` walks from the class named
`SELF_TYPE`, since `cls_join` takes `class_map[a]` for its first argument as
it is given, and is `IO`; `is_subclass(SELF_TYPE, IO, ctx)`, which puts `Main`
for `SELF_TYPE`, is false, so the result is not an ancestor of the first
argument. From the class that `SELF_TYPE` resolves to, `Main`, the join with
`IO` is `Object`, which both arguments conform to. -/
theorem cls_join_not_common_ancestor :
    Validated 0 (self_type_classes "Object" "IO") (self_type_map "Object" "IO") ∧
      (self_type_map "Object" "IO").registered Sym.SELF_TYPE ∧
      (self_type_map "Object" "IO").registered Sym.IO ∧
      cls_join (self_type_map "Object" "IO") Sym.SELF_TYPE Sym.IO
        (ctx (mk_class "Main" "Object")) = .ok Sym.IO ∧
      is_subclass (self_type_map "Object" "IO") Sym.SELF_TYPE Sym.IO
        (ctx (mk_class "Main" "Object")) = .ok false ∧
      resolve (ctx (mk_class "Main" "Object")) Sym.SELF_TYPE = Sym.Main ∧
      cls_join (self_type_map "Object" "IO")
        (resolve (ctx (mk_class "Main" "Object")) Sym.SELF_TYPE) Sym.IO
        (ctx (mk_class "Main" "Object")) = .ok Sym.Object ∧
      is_subclass (self_type_map "Object" "IO") Sym.SELF_TYPE Sym.Object
        (ctx (mk_class "Main" "Object")) = .ok true ∧
      is_subclass (self_type_map "Object" "IO") Sym.IO Sym.Object
        (ctx (mk_class "Main" "Object")) = .ok true :=
  ⟨self_type_validated_object_io, ⟨_, rfl⟩, ⟨_, rfl⟩, rfl, rfl, rfl, rfl, rfl, rfl⟩

/-- The join is a common ancestor where the first argument needs no
resolution: on a validated class table, in the context of a registered
current class, for two registered classes `A` and `B` where `A` is not the
class named `SELF_TYPE`, `cls_join(A, B, ctx)` returns a registered class `J`
with `is_subclass(A, J, ctx)` and `is_subclass(B, J, ctx)` both true. -/
theorem cls_join_common_ancestor {ln : Nat} {classes : List Class_} {m : ClassMap}
    (hv : Validated ln classes m) {A B : Symbol} (hA : m.registered A) (hB : m.registered B)
    (hAs : A ≠ Sym.SELF_TYPE) {tenv : type_env} (hctx : m.registered tenv.c.name) :
    ∃ J, cls_join m A B tenv = .ok J ∧ m.registered J ∧
      is_subclass m A J tenv = .ok true ∧ is_subclass m B J tenv = .ok true := by
  have wf := hv.wellFormed
  obtain ⟨la, ha⟩ := wf.chain_of_registered hA
  obtain ⟨lb, hb⟩ := wf.chain_of_registered (registered_resolve hB hctx)
  have ha1 : IsChain m (resolve tenv A) la := by rw [resolve_of_ne hAs]; exact ha
  obtain ⟨pre, j, post, e, -, hj, r⟩ := cls_join_spec wf ha hb hAs
  have hja : j ∈ la := by rw [e]; simp
  have hjs : resolve tenv j = j := resolve_of_ne (ha.ne_self wf hAs j hja)
  refine ⟨j, r, ha.registered j hja, ?_, ?_⟩
  · rw [is_subclass_of_chain wf j ha1, hjs]
    simp [hja]
  · rw [is_subclass_of_chain wf j hb, hjs]
    simp [hj]

/-- An instance of `cls_join_common_ancestor`: the join of `B` and `Main` in
the sample program. -/
theorem cls_join_common_ancestor_witness :
    ∃ J, cls_join sample_map "B" "Main" (ctx (mk_class "Main" "IO")) = .ok J ∧
      sample_map.registered J ∧
      is_subclass sample_map "B" J (ctx (mk_class "Main" "IO")) = .ok true ∧
      is_subclass sample_map "Main" J (ctx (mk_class "Main" "IO")) = .ok true :=
  cls_join_common_ancestor sample_validated (show sample_map.registered "B" from ⟨_, rfl⟩)
    (show sample_map.registered "Main" from ⟨_, rfl⟩) (by decide)
    (show sample_map.registered (ctx (mk_class "Main" "IO")).c.name from ⟨_, rfl⟩)

/-- C3, the failing input: a program with `class Main inherits IO` and
`class SELF_TYPE`, which the constructor accepts, in the context of class
`Main`. `IO` is an upper bound of `SELF_TYPE` and `IO` for `is_subclass`;
`cls_join(SELF_TYPE, IO, ctx)` walks from the class named `SELF_TYPE`, since
`cls_join` takes `class_map[a]` for its first argument as it is given, and is
`Object`, and `is_subclass(Object, IO, ctx)` is false: the result is not below
the upper bound `IO`. From the class that `SELF_TYPE` resolves to, `Main`, the
join with `IO` is `IO`. -/
theorem cls_join_not_least :
    Validated 0 (self_type_classes "IO" "Object") (self_type_map "IO" "Object") ∧
      (self_type_map "IO" "Object").registered Sym.SELF_TYPE ∧
      (self_type_map "IO" "Object").registered Sym.IO ∧
      is_subclass (self_type_map "IO" "Object") Sym.SELF_TYPE Sym.IO
        (ctx (mk_class "Main" "IO")) = .ok true ∧
      is_subclass (self_type_map "IO" "Object") Sym.IO Sym.IO
        (ctx (mk_class "Main" "IO")) = .ok true ∧
      cls_join (self_type_map "IO" "Object") Sym.SELF_TYPE Sym.IO
        (ctx (mk_class "Main" "IO")) = .ok Sym.Object ∧
      is_subclass (self_type_map "IO" "Object") Sym.Object Sym.IO
        (ctx (mk_class "Main" "IO")) = .ok false ∧
      resolve (ctx (mk_class "Main" "IO")) Sym.SELF_TYPE = Sym.Main ∧
      cls_join (self_type_map "IO" "Object")
        (resolve (ctx (mk_class "Main" "IO")) Sym.SELF_TYPE) Sym.IO
        (ctx (mk_class "Main" "IO")) = .ok Sym.IO :=
  ⟨self_type_validated_io_object, ⟨_, rfl⟩, ⟨_, rfl⟩, rfl, rfl, rfl, rfl, rfl, rfl⟩

/-- The join is least where the first argument needs no resolution: on a
validated class table, in the context of a registered current class, for two
registered classes `A` and `B` where `A` is not the class named `SELF_TYPE`,
`cls_join(A, B, ctx)` returns a class `J` that is below every registered upper
bound: for every registered `U` with
`is_subclass(A, U, ctx)` and `is_subclass(B, U, ctx)`, `is_subclass(J, U, ctx)`
is true. -/
theorem cls_join_least {ln : Nat} {classes : List Class_} {m : ClassMap}
    (hv : Validated ln classes m) {A B : Symbol} (hA : m.registered A) (hB : m.registered B)
    (hAs : A ≠ Sym.SELF_TYPE) {tenv : type_env} (hctx : m.registered tenv.c.name) :
    ∃ J, cls_join m A B tenv = .ok J ∧
      ∀ U, m.registered U → is_subclass m A U tenv = .ok true →
        is_subclass m B U tenv = .ok true → is_subclass m J U tenv = .ok true := by
  have wf := hv.wellFormed
  obtain ⟨la, ha⟩ := wf.chain_of_registered hA
  obtain ⟨lb, hb⟩ := wf.chain_of_registered (registered_resolve hB hctx)
  have ha1 : IsChain m (resolve tenv A) la := by rw [resolve_of_ne hAs]; exact ha
  obtain ⟨pre, j, post, e, hpre, hj, r⟩ := cls_join_spec wf ha hb hAs
  have hja : j ∈ la := by rw [e]; simp
  have hjs : resolve tenv j = j := resolve_of_ne (ha.ne_self wf hAs j hja)
  have cj : IsChain m (resolve tenv j) (j :: post) := by
    rw [hjs]
    exact ha.suffix _ _ _ e
  refine ⟨j, r, ?_⟩
  intro U _ hAU hBU
  rw [is_subclass_of_chain wf U ha1] at hAU
  rw [is_subclass_of_chain wf U hb] at hBU
  simp only [Except.ok.injEq, decide_eq_true_eq] at hAU hBU
  rw [is_subclass_of_chain wf U cj]
  rw [e, List.mem_append] at hAU
  rcases hAU with h | h
  · exact absurd hBU (hpre _ h)
  · simp only [Except.ok.injEq, decide_eq_true_eq]
    exact h

/-- An instance of `cls_join_least`: the join of `B` and `Main` in the sample
program. -/
theorem cls_join_least_witness :
    ∃ J, cls_join sample_map "B" "Main" (ctx (mk_class "Main" "IO")) = .ok J ∧
      ∀ U, sample_map.registered U →
        is_subclass sample_map "B" U (ctx (mk_class "Main" "IO")) = .ok true →
        is_subclass sample_map "Main" U (ctx (mk_class "Main" "IO")) = .ok true →
        is_subclass sample_map J U (ctx (mk_class "Main" "IO")) = .ok true :=
  cls_join_least sample_validated (show sample_map.registered "B" from ⟨_, rfl⟩)
    (show sample_map.registered "Main" from ⟨_, rfl⟩) (by decide)
    (show sample_map.registered (ctx (mk_class "Main" "IO")).c.name from ⟨_, rfl⟩)

/-- C4: on a class table that passed hierarchy validation (the constructor
returned without error), in the context of a current class that is registered
(it is a class of the program), `is_subclass(T, T, ctx)` is true for every
registered class `T`. -/
theorem is_subclass_refl {ln : Nat} {classes : List Class_} {m : ClassMap} {ct : ClassTable}
    (hrun : ClassTable.ClassTable [] ln classes = .ok (m, ct)) (h0 : ct.errors = 0)
    {T : Symbol} (hT : m.registered T) {tenv : type_env}
    (hctx : m.registered tenv.c.name) : is_subclass m T T tenv = .ok true := by
  obtain ⟨hnames, -⟩ := ClassTable_ok_chain hrun h0
  obtain ⟨c, hc⟩ := registered_resolve hT hctx
  rw [is_subclass_unfold, hc]
  simp [is_subclass_loop, hnames _ _ hc]

/-- C4, witness: `B` in the sample program. -/
theorem is_subclass_refl_witness :
    is_subclass sample_map "B" "B" (ctx (mk_class "Main" "IO")) = .ok true :=
  is_subclass_refl
    (show ClassTable.ClassTable [] 0 sample_classes =
      .ok (sample_map, { semant_errors := 0, error_stream := [] }) from rfl) rfl
    (show sample_map.registered "B" from ⟨_, rfl⟩)
    (show sample_map.registered (ctx (mk_class "Main" "IO")).c.name from ⟨_, rfl⟩)

/-- C5: on a validated class table, for every context and all symbols `A`, `B`,
`C`, if `is_subclass(A, B, ctx)` and `is_subclass(B, C, ctx)` are true then
`is_subclass(A, C, ctx)` is true. -/
theorem is_subclass_trans {ln : Nat} {classes : List Class_} {m : ClassMap}
    (hv : Validated ln classes m) (A B C : Symbol) (tenv : type_env)
    (hAB : is_subclass m A B tenv = .ok true) (hBC : is_subclass m B C tenv = .ok true) :
    is_subclass m A C tenv = .ok true := by
  have wf := hv.wellFormed
  obtain ⟨la, ha, hb⟩ := (is_subclass_true_iff wf).mp hAB
  obtain ⟨lb, hb1, hc⟩ := (is_subclass_true_iff wf).mp hBC
  obtain ⟨pre, post, e, hs⟩ := ha.of_mem hb
  rw [hb1.unique hs] at hc
  refine (is_subclass_true_iff wf).mpr ⟨la, ha, ?_⟩
  rw [e]
  exact List.mem_append_right _ hc

/-- C5, witness: `B`, `A`, `Object` in the sample program. -/
theorem is_subclass_trans_witness :
    is_subclass sample_map "B" "Object" (ctx (mk_class "Main" "IO")) = .ok true :=
  is_subclass_trans sample_validated "B" "A" "Object" _ rfl rfl

/-- C6, counterexample: with a program that declares `class SELF_TYPE`, in the
context of class `Main`, `is_subclass(SELF_TYPE, SELF_TYPE, ctx)` is true
although the registered class `SELF_TYPE` is neither `Main` nor an ancestor of
`Main`. -/
theorem is_subclass_self_type_unrelated :
    Validated 0 (self_type_classes "Object" "Object") (self_type_map "Object" "Object") ∧
      (self_type_map "Object" "Object").registered (ctx (mk_class "Main" "Object")).c.name ∧
      (self_type_map "Object" "Object").registered Sym.SELF_TYPE ∧
      is_subclass (self_type_map "Object" "Object") Sym.SELF_TYPE Sym.SELF_TYPE
        (ctx (mk_class "Main" "Object")) = .ok true ∧
      ¬ (self_type_map "Object" "Object").is_ancestor_or_self Sym.SELF_TYPE
        (ctx (mk_class "Main" "Object")).c.name := by
  refine ⟨self_type_validated_object_object, ⟨_, rfl⟩, ⟨_, rfl⟩, rfl, ?_⟩
  have wf := self_type_validated_object_object.wellFormed
  have hc : IsChain (self_type_map "Object" "Object") "Main" ["Main", "Object"] :=
    IsChain.step (c := mk_class "Main" "Object") (by decide) rfl
      (IsChain.object (o := Object_class 0) rfl)
  rw [show (ctx (mk_class "Main" "Object")).c.name = "Main" from rfl,
    hc.is_ancestor_or_self_iff wf]
  decide

/-- C6, amended: on a validated class table, in the context of a registered
current class `C`, for every registered class `X` other than the class named
`SELF_TYPE` (indeed for every symbol `X` other than `SELF_TYPE`),
`is_subclass(SELF_TYPE, X, ctx)` is true exactly when `X` is `C` or an ancestor
of `C`, and it is false otherwise (for a sibling of `C` or a class unrelated to
`C`). -/
theorem is_subclass_self_type {ln : Nat} {classes : List Class_} {m : ClassMap}
    (hv : Validated ln classes m) {tenv : type_env} (hC : m.registered tenv.c.name)
    {X : Symbol} (hXs : X ≠ Sym.SELF_TYPE) :
    (is_subclass m Sym.SELF_TYPE X tenv = .ok true ↔ m.is_ancestor_or_self X tenv.c.name) ∧
      (¬ m.is_ancestor_or_self X tenv.c.name →
        is_subclass m Sym.SELF_TYPE X tenv = .ok false) := by
  have wf := hv.wellFormed
  obtain ⟨l, hl⟩ := wf.chain_of_registered hC
  have hl1 : IsChain m (resolve tenv Sym.SELF_TYPE) l := by
    simpa [resolve] using hl
  rw [is_subclass_of_chain wf X hl1, resolve_of_ne hXs, hl.is_ancestor_or_self_iff wf]
  simp

/-- C6, witness: in the sample program, in the context of class `B`, the
self type is below `A`. -/
theorem is_subclass_self_type_witness :
    (is_subclass sample_map Sym.SELF_TYPE "A" (ctx (mk_class "B" "A")) = .ok true ↔
        sample_map.is_ancestor_or_self "A" (ctx (mk_class "B" "A")).c.name) ∧
      (¬ sample_map.is_ancestor_or_self "A" (ctx (mk_class "B" "A")).c.name →
        is_subclass sample_map Sym.SELF_TYPE "A" (ctx (mk_class "B" "A")) = .ok false) :=
  is_subclass_self_type sample_validated
    (show sample_map.registered (ctx (mk_class "B" "A")).c.name from ⟨_, rfl⟩)
    (show ("A" : Symbol) ≠ Sym.SELF_TYPE by decide)

/-! ## Claims on the constructor -/

theorem IsChain.reaches_object {m : ClassMap} (P : Class_ → Prop)
    (hP : ∀ k c, m.find k = some c → P c) {k : Symbol} {l : List Symbol} (h : IsChain m k l)
    (hn : ∀ k c, m.find k = some c → c.name = k) :
    ∃ n, (∃ o, m.nth_parent n k = some o ∧ o.name = Sym.Object) ∧
      ∀ i, i ≤ n → ∃ ci, m.nth_parent i k = some ci ∧ P ci := by
  induction h with
  | object ho =>
    refine ⟨0, ⟨_, ho, hn _ _ ho⟩, ?_⟩
    intro i hi
    have : i = 0 := by omega
    subst this
    exact ⟨_, ho, hP _ _ ho⟩
  | step _ hf _ ih =>
    obtain ⟨n, ⟨o, ho, hon⟩, hall⟩ := ih
    refine ⟨n + 1, ⟨o, by simp only [ClassMap.nth_parent, hf, ho], hon⟩, ?_⟩
    intro i hi
    cases i with
    | zero => exact ⟨_, hf, hP _ _ hf⟩
    | succ j =>
      obtain ⟨cj, hcj, hpj⟩ := hall j (by omega)
      exact ⟨cj, by simp only [ClassMap.nth_parent, hf, hcj], hpj⟩

/-- C9: if the constructor finishes with zero errors (in a fresh process),
then `Main` is registered
and from every registered class `T` following parent links reaches `Object`
after finitely many steps, every class on the way is registered, and no class
of the program on the way has `Int`, `Bool`, `String` or `SELF_TYPE` as its
parent. -/
theorem ClassTable_sound {ln : Nat} {classes : List Class_} {m : ClassMap} {ct : ClassTable}
    (hrun : ClassTable.ClassTable [] ln classes = .ok (m, ct)) (h0 : ct.errors = 0) :
    m.registered Sym.Main ∧
      ∀ T, m.registered T →
        ∃ n, (∃ o, m.nth_parent n T = some o ∧ o.name = Sym.Object) ∧
          ∀ i, i ≤ n → ∃ ci, m.nth_parent i T = some ci ∧
            (ci ∈ classes → ci.parent ≠ Sym.Int ∧ ci.parent ≠ Sym.Bool ∧
              ci.parent ≠ Sym.Str ∧ ci.parent ≠ Sym.SELF_TYPE) := by
  obtain ⟨hnames, -, hchain, -⟩ := ClassTable_ok_chain hrun h0
  obtain ⟨-, -, -, -, hmain, hwalk⟩ := ClassTable_ok_inv hrun h0
  refine ⟨hmain, ?_⟩
  rintro T ⟨c, hc⟩
  obtain ⟨l, hl⟩ := hchain T c hc
  exact hl.reaches_object _ (fun _ c _ hc => check_parents_first (hwalk c hc)) hnames

/-- C9, witness: the sample program. -/
theorem ClassTable_sound_witness :
    sample_map.registered Sym.Main ∧
      ∀ T, sample_map.registered T →
        ∃ n, (∃ o, sample_map.nth_parent n T = some o ∧ o.name = Sym.Object) ∧
          ∀ i, i ≤ n → ∃ ci, sample_map.nth_parent i T = some ci ∧
            (ci ∈ sample_classes → ci.parent ≠ Sym.Int ∧ ci.parent ≠ Sym.Bool ∧
              ci.parent ≠ Sym.Str ∧ ci.parent ≠ Sym.SELF_TYPE) :=
  ClassTable_sound
    (show ClassTable.ClassTable [] 0 sample_classes =
      .ok (sample_map, { semant_errors := 0, error_stream := [] }) from rfl) rfl

theorem ClassMap.find_ne_none_iff {m : ClassMap} {k : Symbol} :
    m.find k ≠ none ↔ k ∈ m.map Prod.fst := by
  constructor
  · intro h
    cases hf : m.find k with
    | none => exact absurd hf h
    | some c => exact ClassMap.mem_keys_of_find hf
  · intro h hn
    induction m with
    | nil => simp at h
    | cons p m ih =>
      obtain ⟨k1, c1⟩ := p
      simp only [ClassMap.find] at hn
      split_ifs at hn with hk
      simp only [List.map_cons, List.mem_cons] at h
      rcases h with h | h
      · exact hk h.symm
      · exact ih h hn

theorem map_fst_entries (classes : List Class_) :
    (entries classes).map Prod.fst = classes.map Class_.name := by
  simp [entries, Function.comp_def]

theorem map_fst_install_basic_classes (ln : Nat) :
    (install_basic_classes ln []).map Prod.fst = basic_names := rfl

/-- In a program with a class whose name is already taken, the part before the
first such class is free of conflicts. -/
theorem first_conflict :
    ∀ (classes : List Class_) (m : ClassMap),
      (∃ pre cls post, classes = pre ++ cls :: post ∧ (m ++ entries pre).find cls.name ≠ none) →
      ∃ pre cls post, classes = pre ++ cls :: post ∧ (∀ c ∈ pre, m.find c.name = none) ∧
        (pre.map Class_.name).Nodup ∧ (m ++ entries pre).find cls.name ≠ none := by
  intro classes
  induction classes with
  | nil =>
    rintro m ⟨pre, cls, post, he, -⟩
    simp at he
  | cons d ds ih =>
    rintro m ⟨pre0, cls0, post0, he, hc⟩
    by_cases hd : m.find d.name = none
    · cases pre0 with
      | nil =>
        simp only [List.nil_append, List.cons.injEq] at he
        rw [← he.1] at hc
        simp only [entries, List.map_nil, List.append_nil] at hc
        exact absurd hd hc
      | cons p ps =>
        simp only [List.cons_append, List.cons.injEq] at he
        obtain ⟨hp, hds⟩ := he
        subst hp
        have hm : m ++ entries (d :: ps) = (m ++ [(d.name, d)]) ++ entries ps := by
          simp [entries_cons]
        rw [hm] at hc
        obtain ⟨pre, cls, post, e1, hfree, hnd, hcf⟩ := ih (m ++ [(d.name, d)]) ⟨ps, cls0, post0, hds, hc⟩
        have hsplit : ∀ c ∈ pre, m.find c.name = none ∧ c.name ≠ d.name := by
          intro c hcm
          have := hfree c hcm
          cases hmc : m.find c.name with
          | some c0 => rw [ClassMap.find_append_some _ hmc] at this; cases this
          | none =>
            refine ⟨rfl, ?_⟩
            rw [ClassMap.find_append_none _ hmc] at this
            intro hn
            simp [ClassMap.find, hn] at this
        refine ⟨d :: pre, cls, post, by simp [e1], ?_, ?_, ?_⟩
        · intro c hcm
          rcases List.mem_cons.mp hcm with h | h
          · rw [h]; exact hd
          · exact (hsplit c h).1
        · simp only [List.map_cons, List.nodup_cons]
          refine ⟨?_, hnd⟩
          intro hmem
          obtain ⟨c, hcm, hn⟩ := List.mem_map.mp hmem
          exact (hsplit c hcm).2 hn
        · have hm2 : m ++ entries (d :: pre) = (m ++ [(d.name, d)]) ++ entries pre := by
            simp [entries_cons]
          rw [hm2]
          exact hcf
    · exact ⟨[], d, ds, rfl, by simp, by simp, by simpa [entries] using hd⟩

/-- C8: for every program in which some class has the name of a built-in class
or of a class earlier in the list, the constructor (in a fresh process)
returns with exactly one error, the redefinition diagnostic of the first such
class `cls`; the registry then holds exactly the five built-in classes and the
classes `pre` declared before `cls` (so no later class is registered, and
neither the check for `Main` nor a parent walk has reported anything), and
the name of `cls` is still bound to its first registration. -/
theorem ClassTable_redefinition (ln : Nat) (classes : List Class_)
    (h : ∃ pre cls post, classes = pre ++ cls :: post ∧
      (cls.name ∈ basic_names ∨ cls.name ∈ pre.map Class_.name)) :
    ∃ pre cls post, classes = pre ++ cls :: post ∧
      (∀ c ∈ pre, c.name ∉ basic_names) ∧ (pre.map Class_.name).Nodup ∧
      (cls.name ∈ basic_names ∨ cls.name ∈ pre.map Class_.name) ∧
      ClassTable.ClassTable [] ln classes =
        .ok ([(Sym.Object, Object_class ln), ( Sym.IO, IO_class ln), (Sym.Int, Int_class ln),
              (Sym.Bool, Bool_class ln), (Sym.Str, Str_class ln)] ++ entries pre,
          { semant_errors := 1,
            error_stream := [{ loc := some (cls.filename, cls.line_number),
                               text := "redefinition of class " ++ cls.name ++ ".\n" }] }) ∧
      ∃ first, ClassMap.find ([(Sym.Object, Object_class ln), ( Sym.IO, IO_class ln),
              (Sym.Int, Int_class ln), (Sym.Bool, Bool_class ln), (Sym.Str, Str_class ln)] ++
              entries pre) cls.name = some first ∧
          (first ∈ [Object_class ln, IO_class ln, Int_class ln, Bool_class ln, Str_class ln] ∨
            first ∈ pre) := by
  have key : ∀ (pre : List Class_) (cls : Class_),
      (install_basic_classes ln [] ++ entries pre).find cls.name ≠ none ↔
        (cls.name ∈ basic_names ∨ cls.name ∈ pre.map Class_.name) := by
    intro pre cls
    rw [ClassMap.find_ne_none_iff, List.map_append, List.mem_append, map_fst_entries,
      map_fst_install_basic_classes]
  obtain ⟨pre0, cls0, post0, he0, hc0⟩ := h
  obtain ⟨pre, cls, post, he, hfree, hnd, hc⟩ :=
    first_conflict classes (install_basic_classes ln []) ⟨pre0, cls0, post0, he0, (key _ _).mpr hc0⟩
  refine ⟨pre, cls, post, he, ?_, hnd, (key _ _).mp hc, ?_, ?_⟩
  · intro c hcm hb
    have := hfree c hcm
    rw [← map_fst_install_basic_classes ln] at hb
    exact (ClassMap.find_ne_none_iff.mpr hb) this
  · rw [he]
    unfold ClassTable.ClassTable ClassTable.ClassTable_fuel
    simp only
    rw [insert_classes_conflict _ cls post pre _ hfree hnd hc]
    rfl
  · rw [← install_basic_classes_nil]
    cases hf : (install_basic_classes ln [] ++ entries pre).find cls.name with
    | none => exact absurd hf hc
    | some first =>
      refine ⟨first, rfl, ?_⟩
      rcases find_validated_cases hf with hb | ⟨-, hp, -⟩
      · left
        simp only [List.mem_cons, Prod.mk.injEq, List.mem_singleton, List.not_mem_nil,
          or_false] at hb ⊢
        rcases hb with ⟨-, h⟩ | ⟨-, h⟩ | ⟨-, h⟩ | ⟨-, h⟩ | ⟨-, h⟩ <;> simp [h]
      · exact Or.inr hp

/-- C8, witness: a program whose third class repeats the name of the second
and whose fourth class inherits from itself. -/
theorem ClassTable_redefinition_witness :
    ∃ pre cls post, redefinition_classes = pre ++ cls :: post ∧
      (∀ c ∈ pre, c.name ∉ basic_names) ∧ (pre.map Class_.name).Nodup ∧
      (cls.name ∈ basic_names ∨ cls.name ∈ pre.map Class_.name) ∧
      ClassTable.ClassTable [] 0 redefinition_classes =
        .ok ([(Sym.Object, Object_class 0), ( Sym.IO, IO_class 0), (Sym.Int, Int_class 0),
              (Sym.Bool, Bool_class 0), (Sym.Str, Str_class 0)] ++ entries pre,
          { semant_errors := 1,
            error_stream := [{ loc := some (cls.filename, cls.line_number),
                               text := "redefinition of class " ++ cls.name ++ ".\n" }] }) ∧
      ∃ first, ClassMap.find ([(Sym.Object, Object_class 0), ( Sym.IO, IO_class 0),
              (Sym.Int, Int_class 0), (Sym.Bool, Bool_class 0), (Sym.Str, Str_class 0)] ++
              entries pre) cls.name = some first ∧
          (first ∈ [Object_class 0, IO_class 0, Int_class 0, Bool_class 0, Str_class 0] ∨
            first ∈ pre) :=
  ClassTable_redefinition 0 redefinition_classes
    ⟨[mk_class "Main" "Object", mk_class "A" "Main"], mk_class "A" "Object", [mk_class "C" "C"],
      rfl, Or.inr (by decide)⟩

/-- The parent walk that starts at class `C` of `cycle_classes` never ends:
from `A` and from `B` every budget of iterations is used up. -/
theorem check_parents_cycle (fuel : Nat) :
    ClassTable.check_parents cycle_map "C" fuel (mk_class "A" "B") = .error .nontermination ∧
      ClassTable.check_parents cycle_map "C" fuel (mk_class "B" "A") = .error .nontermination := by
  induction fuel with
  | zero => exact ⟨rfl, rfl⟩
  | succ n ih =>
    have hA : ClassTable.check_parents cycle_map "C" (n + 1) (mk_class "A" "B") =
        ClassTable.check_parents cycle_map "C" n (mk_class "B" "A") := rfl
    have hB : ClassTable.check_parents cycle_map "C" (n + 1) (mk_class "B" "A") =
        ClassTable.check_parents cycle_map "C" n (mk_class "A" "B") := rfl
    exact ⟨hA.trans ih.2, hB.trans ih.1⟩

/-- C7, the failing input: for the program `C inherits A`, `A inherits B`,
`B inherits A`, `Main` (distinct names, no built-in name, `Main` present, a
cycle that the first class is not on), the first loop registers the four
classes, and the parent walk from `C` does not end within any number of
iterations; the constructor does not return. -/
theorem ClassTable_cycle_diverges :
    ClassTable.insert_classes { semant_errors := 0, error_stream := [] }
        (install_basic_classes 0 []) cycle_classes =
        (cycle_map, { semant_errors := 0, error_stream := [] }, false) ∧
      (∀ fuel, ClassTable.check_parents cycle_map "C" fuel (mk_class "C" "A") =
        .error .nontermination) ∧
      (∀ fuel, ClassTable.ClassTable_fuel (fun _ => fuel) [] 0 cycle_classes =
        .error .nontermination) ∧
      ClassTable.ClassTable [] 0 cycle_classes = .error .nontermination := by
  have hC : ∀ fuel, ClassTable.check_parents cycle_map "C" fuel (mk_class "C" "A") =
      .error .nontermination := by
    intro fuel
    cases fuel with
    | zero => rfl
    | succ n =>
      have h : ClassTable.check_parents cycle_map "C" (n + 1) (mk_class "C" "A") =
          ClassTable.check_parents cycle_map "C" n (mk_class "A" "B") := rfl
      exact h.trans (check_parents_cycle n).1
  refine ⟨rfl, hC, ?_, rfl⟩
  intro fuel
  have h : ClassTable.ClassTable_fuel (fun _ => fuel) [] 0 cycle_classes =
      match ClassTable.check_hierarchy fuel cycle_map
          { semant_errors := 0, error_stream := [] } cycle_classes with
      | .error f => .error f
      | .ok ct => .ok (cycle_map, ct) := rfl
  rw [h]
  simp only [cycle_classes, ClassTable.check_hierarchy]
  rw [show (mk_class "C" "A").name = "C" from rfl, hC fuel]

/-- The scenario of the specification: for `A inherits B`, `B inherits A`
(and `Main`), the constructor reports exactly one error, the cycle
diagnostic. -/
theorem ClassTable_two_cycle :
    ClassTable.ClassTable [] 0
        [mk_class "A" "B", mk_class "B" "A", mk_class "Main" "Object"] =
      .ok (install_basic_classes 0 [] ++
            entries [mk_class "A" "B", mk_class "B" "A", mk_class "Main" "Object"],
        { semant_errors := 1,
          error_stream := [{ loc := some ("f.cl", 1),
                             text := "An inheritance cycle has been detected.\n" }] }) := rfl

/-! ## Reported errors do not steer the checker -/

theorem add_errors_assoc (a b c : ClassTable) :
    add_errors (add_errors a b) c = add_errors a (add_errors b c) := by
  simp [add_errors, Nat.add_assoc]

theorem no_errors_add (a : ClassTable) : add_errors no_errors a = a := by
  simp [add_errors, no_errors]

theorem add_errors_no_errors (a : ClassTable) : add_errors a no_errors = a := by
  simp [add_errors, no_errors]

theorem add_errors_semant_error_node (ct d : ClassTable) (filename : Symbol) (line : Nat)
    (text : String) :
    (add_errors ct d).semant_error_node filename line text =
      add_errors ct (d.semant_error_node filename line text) := by
  simp [add_errors, ClassTable.semant_error_node, Nat.add_assoc]

theorem arith_check_add (ct d : ClassTable) (tenv : type_env) (line : Nat) (op : String)
    (t1 t2 : Symbol) :
    arith_check (add_errors ct d) tenv line op t1 t2 =
      ((arith_check d tenv line op t1 t2).1, add_errors ct (arith_check d tenv line op t1 t2).2) := by
  unfold arith_check
  split_ifs <;> simp [add_errors_semant_error_node]

theorem compare_check_add (ct d : ClassTable) (tenv : type_env) (line : Nat) (op : String)
    (t1 t2 : Symbol) :
    compare_check (add_errors ct d) tenv line op t1 t2 =
      ((compare_check d tenv line op t1 t2).1,
        add_errors ct (compare_check d tenv line op t1 t2).2) := by
  unfold compare_check
  split_ifs <;> simp [add_errors_semant_error_node]

theorem semant_error_node_eq_add (ct : ClassTable) (filename : Symbol) (line : Nat)
    (text : String) :
    ct.semant_error_node filename line text =
      add_errors ct (no_errors.semant_error_node filename line text) := by
  simp [add_errors, ClassTable.semant_error_node, no_errors]

theorem ite_error_add (c : Prop) [Decidable c] (ct d : ClassTable) (filename : Symbol)
    (line : Nat) (text : String) :
    (if c then (add_errors ct d).semant_error_node filename line text else add_errors ct d) =
      add_errors ct (if c then d.semant_error_node filename line text else d) := by
  split_ifs <;> simp [add_errors_semant_error_node]

mutual
theorem expr_typecheck_frame (m : ClassMap) (tenv : type_env) :
    ∀ (e : Expression) (ct : ClassTable),
      Expression.typecheck m tenv ct e = shift3 ct (Expression.typecheck m tenv no_errors e)
  | .assign line ty name expr, ct => by
    have ih_expr := expr_typecheck_frame m tenv expr
    simp only [Expression.typecheck]
    cases hl : tenv.o.lookup name with
    | none => simp only [shift3, ← semant_error_node_eq_add]
    | some t =>
      simp only []
      rw [ih_expr ct]
      cases h1 : Expression.typecheck m tenv no_errors expr with
      | error f => rfl
      | ok p1 =>
        obtain ⟨t1, x1, d1⟩ := p1
        simp only [shift3]
        cases hs : is_subclass m t1 t tenv with
        | error f => rfl
        | ok b =>
          cases b <;> simp only [shift3, add_errors_semant_error_node]
  | .static_dispatch line ty expr type_name name actual, ct => by
    simp [Expression.typecheck, shift3, add_errors_no_errors]
  | .dispatch line ty expr name actual, ct => by
    simp [Expression.typecheck, shift3, add_errors_no_errors]
  | .cond line ty pred then_exp else_exp, ct => by
    have ih_pred := expr_typecheck_frame m tenv pred
    have ih_then_exp := expr_typecheck_frame m tenv then_exp
    have ih_else_exp := expr_typecheck_frame m tenv else_exp
    simp only [Expression.typecheck]
    rw [ih_pred ct]
    cases h1 : Expression.typecheck m tenv no_errors pred with
    | error f => rfl
    | ok p1 =>
      obtain ⟨t1, x1, d1⟩ := p1
      simp only [shift3]
      rw [ih_then_exp (add_errors ct d1), ih_then_exp d1]
      cases h2 : Expression.typecheck m tenv no_errors then_exp with
      | error f => rfl
      | ok p2 =>
        obtain ⟨t2, x2, d2⟩ := p2
        simp only [shift3]
        rw [ih_else_exp (add_errors (add_errors ct d1) d2), ih_else_exp (add_errors d1 d2)]
        cases h3 : Expression.typecheck m tenv no_errors else_exp with
        | error f => rfl
        | ok p3 =>
          obtain ⟨t3, x3, d3⟩ := p3
          simp only [shift3]
          simp only [add_errors_assoc, ite_error_add]
          cases hj : cls_join m t2 t3 tenv with
          | error f => rfl
          | ok j => simp only [shift3]
  | .loop line ty pred body, ct => by
    simp [Expression.typecheck, shift3, add_errors_no_errors]
  | .typcase line ty expr cases, ct => by
    simp [Expression.typecheck, shift3, add_errors_no_errors]
  | .block line ty first rest, ct => by
    have ih_first := expr_typecheck_frame m tenv first
    have ih_rest := typecheck_rest_frame m tenv rest
    simp only [Expression.typecheck]
    rw [ih_first ct]
    cases h1 : Expression.typecheck m tenv no_errors first with
    | error f => rfl
    | ok p1 =>
      obtain ⟨t1, x1, d1⟩ := p1
      simp only [shift3]
      rw [ih_rest (add_errors ct d1), ih_rest d1]
      cases h2 : typecheck_rest m tenv no_errors t1 rest with
      | error f => rfl
      | ok p2 =>
        obtain ⟨t2, x2, d2⟩ := p2
        simp only [shift3, add_errors_assoc]
  | .let_ line ty identifier type_decl init body, ct => by
    simp [Expression.typecheck, shift3, add_errors_no_errors]
  | .plus line ty e1 e2, ct => by
    have ih_e1 := expr_typecheck_frame m tenv e1
    have ih_e2 := expr_typecheck_frame m tenv e2
    simp only [Expression.typecheck]
    rw [ih_e1 ct]
    cases h1 : Expression.typecheck m tenv no_errors e1 with
    | error f => rfl
    | ok p1 =>
      obtain ⟨t1, x1, d1⟩ := p1
      simp only [shift3]
      rw [ih_e2 (add_errors ct d1), ih_e2 d1]
      cases h2 : Expression.typecheck m tenv no_errors e2 with
      | error f => rfl
      | ok p2 =>
        obtain ⟨t2, x2, d2⟩ := p2
        simp only [shift3]
        simp only [shift3, add_errors_assoc, arith_check_add ct]
  | .sub line ty e1 e2, ct => by
    have ih_e1 := expr_typecheck_frame m tenv e1
    have ih_e2 := expr_typecheck_frame m tenv e2
    simp only [Expression.typecheck]
    rw [ih_e1 ct]
    cases h1 : Expression.typecheck m tenv no_errors e1 with
    | error f => rfl
    | ok p1 =>
      obtain ⟨t1, x1, d1⟩ := p1
      simp only [shift3]
      rw [ih_e2 (add_errors ct d1), ih_e2 d1]
      cases h2 : Expression.typecheck m tenv no_errors e2 with
      | error f => rfl
      | ok p2 =>
        obtain ⟨t2, x2, d2⟩ := p2
        simp only [shift3]
        simp only [shift3, add_errors_assoc, arith_check_add ct]
  | .mul line ty e1 e2, ct => by
    have ih_e1 := expr_typecheck_frame m tenv e1
    have ih_e2 := expr_typecheck_frame m tenv e2
    simp only [Expression.typecheck]
    rw [ih_e1 ct]
    cases h1 : Expression.typecheck m tenv no_errors e1 with
    | error f => rfl
    | ok p1 =>
      obtain ⟨t1, x1, d1⟩ := p1
      simp only [shift3]
      rw [ih_e2 (add_errors ct d1), ih_e2 d1]
      cases h2 : Expression.typecheck m tenv no_errors e2 with
      | error f => rfl
      | ok p2 =>
        obtain ⟨t2, x2, d2⟩ := p2
        simp only [shift3]
        simp only [shift3, add_errors_assoc, arith_check_add ct]
  | .divide line ty e1 e2, ct => by
    have ih_e1 := expr_typecheck_frame m tenv e1
    have ih_e2 := expr_typecheck_frame m tenv e2
    simp only [Expression.typecheck]
    rw [ih_e1 ct]
    cases h1 : Expression.typecheck m tenv no_errors e1 with
    | error f => rfl
    | ok p1 =>
      obtain ⟨t1, x1, d1⟩ := p1
      simp only [shift3]
      rw [ih_e2 (add_errors ct d1), ih_e2 d1]
      cases h2 : Expression.typecheck m tenv no_errors e2 with
      | error f => rfl
      | ok p2 =>
        obtain ⟨t2, x2, d2⟩ := p2
        simp only [shift3]
        simp only [shift3, add_errors_assoc, arith_check_add ct]
  | .neg line ty e1, ct => by
    have ih_e1 := expr_typecheck_frame m tenv e1
    simp only [Expression.typecheck]
    rw [ih_e1 ct]
    cases h1 : Expression.typecheck m tenv no_errors e1 with
    | error f => rfl
    | ok p1 =>
      obtain ⟨t1, x1, d1⟩ := p1
      simp only [shift3]
      simp only [shift3, ite_error_add]
  | .lt line ty e1 e2, ct => by
    have ih_e1 := expr_typecheck_frame m tenv e1
    have ih_e2 := expr_typecheck_frame m tenv e2
    simp only [Expression.typecheck]
    rw [ih_e1 ct]
    cases h1 : Expression.typecheck m tenv no_errors e1 with
    | error f => rfl
    | ok p1 =>
      obtain ⟨t1, x1, d1⟩ := p1
      simp only [shift3]
      rw [ih_e2 (add_errors ct d1), ih_e2 d1]
      cases h2 : Expression.typecheck m tenv no_errors e2 with
      | error f => rfl
      | ok p2 =>
        obtain ⟨t2, x2, d2⟩ := p2
        simp only [shift3]
        simp only [shift3, add_errors_assoc, compare_check_add ct]
  | .eq line ty e1 e2, ct => by
    have ih_e1 := expr_typecheck_frame m tenv e1
    have ih_e2 := expr_typecheck_frame m tenv e2
    simp only [Expression.typecheck]
    rw [ih_e1 ct]
    cases h1 : Expression.typecheck m tenv no_errors e1 with
    | error f => rfl
    | ok p1 =>
      obtain ⟨t1, x1, d1⟩ := p1
      simp only [shift3]
      rw [ih_e2 (add_errors ct d1), ih_e2 d1]
      cases h2 : Expression.typecheck m tenv no_errors e2 with
      | error f => rfl
      | ok p2 =>
        obtain ⟨t2, x2, d2⟩ := p2
        simp only [shift3]
        simp only [shift3, add_errors_assoc, ite_error_add]
        split_ifs <;> rfl
  | .leq line ty e1 e2, ct => by
    have ih_e1 := expr_typecheck_frame m tenv e1
    have ih_e2 := expr_typecheck_frame m tenv e2
    simp only [Expression.typecheck]
    rw [ih_e1 ct]
    cases h1 : Expression.typecheck m tenv no_errors e1 with
    | error f => rfl
    | ok p1 =>
      obtain ⟨t1, x1, d1⟩ := p1
      simp only [shift3]
      rw [ih_e2 (add_errors ct d1), ih_e2 d1]
      cases h2 : Expression.typecheck m tenv no_errors e2 with
      | error f => rfl
      | ok p2 =>
        obtain ⟨t2, x2, d2⟩ := p2
        simp only [shift3]
        simp only [shift3, add_errors_assoc, compare_check_add ct]
  | .comp line ty e1, ct => by
    have ih_e1 := expr_typecheck_frame m tenv e1
    simp only [Expression.typecheck]
    rw [ih_e1 ct]
    cases h1 : Expression.typecheck m tenv no_errors e1 with
    | error f => rfl
    | ok p1 =>
      obtain ⟨t1, x1, d1⟩ := p1
      simp only [shift3]
      simp only [shift3, ite_error_add]
  | .int_const line ty token, ct => by
    simp [Expression.typecheck, shift3, add_errors_no_errors]
  | .bool_const line ty val, ct => by
    simp [Expression.typecheck, shift3, add_errors_no_errors]
  | .string_const line ty token, ct => by
    simp [Expression.typecheck, shift3, add_errors_no_errors]
  | .new_ line ty type_name, ct => by
    simp only [Expression.typecheck]
    split_ifs
    · simp only [shift3, add_errors_no_errors]
    · simp only [shift3, ← semant_error_node_eq_add]
  | .isvoid line ty e1, ct => by
    have ih_e1 := expr_typecheck_frame m tenv e1
    simp only [Expression.typecheck]
    rw [ih_e1 ct]
    cases h1 : Expression.typecheck m tenv no_errors e1 with
    | error f => rfl
    | ok p1 =>
      obtain ⟨t1, x1, d1⟩ := p1
      simp only [shift3]
  | .no_expr line ty, ct => by
    simp [Expression.typecheck, shift3, add_errors_no_errors]
  | .object line ty name, ct => by
    simp only [Expression.typecheck]
    cases hl : tenv.o.lookup name with
    | none => simp only [shift3, ← semant_error_node_eq_add]
    | some t => simp only [shift3, add_errors_no_errors]
theorem typecheck_rest_frame (m : ClassMap) (tenv : type_env) :
    ∀ (es : List Expression) (ct : ClassTable) (ty : Symbol),
      typecheck_rest m tenv ct ty es = shift3 ct (typecheck_rest m tenv no_errors ty es)
  | [], ct, ty => by
    simp [typecheck_rest, shift3, add_errors_no_errors]
  | e :: es, ct, ty => by
    have ih1 := expr_typecheck_frame m tenv e
    have ih2 := typecheck_rest_frame m tenv es
    simp only [typecheck_rest]
    rw [ih1 ct]
    cases h1 : Expression.typecheck m tenv no_errors e with
    | error f => rfl
    | ok p1 =>
      obtain ⟨t1, x1, d1⟩ := p1
      simp only [shift3]
      rw [ih2 (add_errors ct d1), ih2 d1]
      cases h2 : typecheck_rest m tenv no_errors t1 es with
      | error f => rfl
      | ok p2 =>
        obtain ⟨t2, x2, d2⟩ := p2
        simp only [shift3, add_errors_assoc]
end

theorem method_typecheck_frame (m : ClassMap) (tenv : type_env) (ct : ClassTable)
    (mth : method_class) :
    mth.typecheck m tenv ct = shift4 ct (mth.typecheck m tenv no_errors) := by
  simp only [method_class.typecheck]
  rw [expr_typecheck_frame]
  cases h : Expression.typecheck m
      { o := add_formals ((tenv.o.enterscope).addid Sym.self Sym.SELF_TYPE) mth.formals,
        c := tenv.c } no_errors mth.expr with
  | error f => rfl
  | ok p =>
    obtain ⟨t, x, d⟩ := p
    simp only [shift3, shift4]

theorem attr_typecheck_frame (m : ClassMap) (tenv : type_env) (ct : ClassTable)
    (a : attr_class) :
    a.typecheck m tenv ct = shift4 ct (a.typecheck m tenv no_errors) := by
  simp only [attr_class.typecheck]
  rw [expr_typecheck_frame]
  cases h : Expression.typecheck m tenv no_errors a.init with
  | error f => rfl
  | ok p =>
    obtain ⟨t, x, d⟩ := p
    simp only [shift3]
    split_ifs
    · cases hs : is_subclass m t a.type_decl tenv with
      | error f => rfl
      | ok b => cases b <;> simp only [shift4, add_errors_semant_error_node]
    · simp only [shift4]

theorem feature_typecheck_frame (m : ClassMap) (tenv : type_env) (ct : ClassTable)
    (f : Feature) :
    f.typecheck m tenv ct = shift4 ct (f.typecheck m tenv no_errors) := by
  cases f with
  | method mth =>
    simp only [Feature.typecheck]
    rw [method_typecheck_frame]
    cases h : mth.typecheck m tenv no_errors with
    | error f => rfl
    | ok p =>
      obtain ⟨t, x, e, d⟩ := p
      simp only [shift4]
  | attr a =>
    simp only [Feature.typecheck]
    rw [attr_typecheck_frame]
    cases h : a.typecheck m tenv no_errors with
    | error f => rfl
    | ok p =>
      obtain ⟨t, x, e, d⟩ := p
      simp only [shift4]

theorem add_own_attributes_frame :
    ∀ (fs : List Feature) (tenv : type_env) (ct d : ClassTable),
      add_own_attributes tenv (add_errors ct d) fs =
        ((add_own_attributes tenv d fs).1, add_errors ct (add_own_attributes tenv d fs).2) := by
  intro fs
  induction fs with
  | nil =>
    intro tenv ct d
    rfl
  | cons f rest ih =>
    intro tenv ct d
    cases f with
    | method mth =>
      simp only [add_own_attributes]
      exact ih tenv ct d
    | attr a =>
      simp only [add_own_attributes]
      cases hl : tenv.o.lookup a.name with
      | some t =>
        simp only [add_errors_semant_error_node]
        exact ih tenv ct _
      | none => exact ih _ ct d

theorem build_initial_obj_env_frame (m : ClassMap) (tenv : type_env) (ct : ClassTable) :
    build_initial_obj_env m tenv ct = shift2 ct (build_initial_obj_env m tenv no_errors) := by
  simp only [build_initial_obj_env]
  cases h : add_inherited m (m.length + 1) (m.find tenv.c.parent) tenv.o with
  | error f => rfl
  | ok o =>
    simp only [shift2]
    have := add_own_attributes_frame tenv.c.features { o := o, c := tenv.c } ct no_errors
    rw [add_errors_no_errors] at this
    rw [this]

theorem check_features_frame (m : ClassMap) :
    ∀ (fs : List Feature) (tenv : type_env) (ct : ClassTable),
      check_features m tenv ct fs = shift2 ct (check_features m tenv no_errors fs) := by
  intro fs
  induction fs with
  | nil =>
    intro tenv ct
    simp [check_features, shift2, add_errors_no_errors]
  | cons f rest ih =>
    intro tenv ct
    simp only [check_features]
    rw [feature_typecheck_frame]
    cases h : f.typecheck m tenv no_errors with
    | error e => rfl
    | ok p =>
      obtain ⟨t, x, tenv1, d⟩ := p
      simp only [shift4]
      rw [ih tenv1 (add_errors ct d), ih tenv1 d]
      cases h2 : check_features m tenv1 no_errors rest with
      | error e => rfl
      | ok p2 =>
        obtain ⟨fs1, d2⟩ := p2
        simp only [shift2, add_errors_assoc]

/-- The check of a class reports its errors on top of those it finds, and what
it finds has no influence on anything else it does. -/
theorem check_frame (m : ClassMap) (ct : ClassTable) (c : Class_) :
    class__class.check m ct c = shift2 ct (class__class.check m no_errors c) := by
  simp only [class__class.check]
  rw [build_initial_obj_env_frame]
  cases h : build_initial_obj_env m { o := SymbolTable.enterscope [], c := c } no_errors with
  | error f => rfl
  | ok p =>
    obtain ⟨tenv, d⟩ := p
    simp only [shift2]
    rw [check_features_frame m _ tenv (add_errors ct d), check_features_frame m _ tenv d]
    cases h2 : check_features m tenv no_errors tenv.c.features with
    | error f => rfl
    | ok p2 =>
      obtain ⟨fs, d2⟩ := p2
      simp only [shift2, add_errors_assoc]

/-- The loop over the classes calls `check` on every class, whatever errors the
classes before it reported, as long as each call returns; the errors of the
classes add up. -/
theorem check_classes_all (m : ClassMap) :
    ∀ (classes : List Class_) (ct : ClassTable),
      (∀ c ∈ classes, ∃ r, class__class.check m no_errors c = .ok r) →
      ∃ cs, check_classes m ct classes = .ok (cs, add_errors ct (total_errors m classes)) ∧
        List.Forall₂ (fun c c1 => ∃ d, class__class.check m no_errors c = .ok (c1, d))
          classes cs := by
  intro classes
  induction classes with
  | nil =>
    intro ct _
    exact ⟨[], by simp [check_classes, total_errors, add_errors_no_errors], List.Forall₂.nil⟩
  | cons c rest ih =>
    intro ct h
    obtain ⟨⟨c1, d⟩, hc⟩ := h c (List.mem_cons_self _ _)
    obtain ⟨cs, hcs, hall⟩ :=
      ih (add_errors ct d) (fun x hx => h x (List.mem_cons_of_mem _ hx))
    refine ⟨c1 :: cs, ?_, List.Forall₂.cons ⟨d, hc⟩ hall⟩
    simp only [check_classes]
    rw [check_frame, hc]
    simp only [shift2, hcs, total_errors, own_errors, hc, add_errors_assoc]

/-! ## Claims on the driver -/

/-- The driver when no check ends in a fault: let the constructor return the
registry `m` and the object `ct`. If `ct` counts at least one error,
`program_class::semant` ends in failure with the method environment as it
found it and the classes as it found them (no class is checked), and the
diagnostics of the run are those of `ct`.
If `ct` counts no error, and the check of each class on its own returns, then
the method environment is built, `check` is called on every class of the
program whatever errors the classes before it reported (the class at the same
position of the result is what its check leaves), the diagnostics of the
classes add up, and the run ends in failure exactly when the accumulated error
count is not zero. -/
theorem semant_hard_gate (m0 : ClassMap) (menv0 : MethodEnv) (ln : Nat)
    (classes : List Class_) (m : ClassMap) (ct : ClassTable)
    (hrun : ClassTable.ClassTable m0 ln classes = .ok (m, ct)) :
    (ct.errors ≠ 0 →
      program_class.semant m0 menv0 ln classes =
        .ok { class_map := m, method_env := menv0, classtable := ct, classes := classes,
              halted := true }) ∧
    (ct.errors = 0 →
      (∀ c ∈ classes, ∃ r, class__class.check m no_errors c = .ok r) →
      ∃ cs,
        program_class.semant m0 menv0 ln classes =
          .ok { class_map := m, method_env := build_method_env m menv0,
                classtable := add_errors ct (total_errors m classes), classes := cs,
                halted := decide ((add_errors ct (total_errors m classes)).errors ≠ 0) } ∧
        List.Forall₂ (fun c c1 => ∃ d, class__class.check m no_errors c = .ok (c1, d))
          classes cs) := by
  constructor
  · intro he
    simp only [program_class.semant, hrun, he, ne_eq, not_false_eq_true, if_true]
  · intro he hret
    obtain ⟨cs, hcs, hall⟩ := check_classes_all m classes ct hret
    refine ⟨cs, ?_, hall⟩
    simp only [program_class.semant, hrun, he, ne_eq, not_true_eq_false, if_false, hcs]

/-- Instances of `semant_hard_gate`: in `redefinition_classes` the hierarchy
phase reports an error and the run stops there; in `type_error_classes` it
reports none, and both classes are checked although the first one has type
errors; the three type errors make the run fail. -/
theorem semant_hard_gate_witness :
    program_class.semant [] [] 0 redefinition_classes =
        .ok { class_map := install_basic_classes 0 [] ++
                entries [mk_class "Main" "Object", mk_class "A" "Main"],
              method_env := [],
              classtable :=
                { semant_errors := 1,
                  error_stream := [{ loc := some ("f.cl", 1),
                                     text := "redefinition of class A.\n" }] },
              classes := redefinition_classes, halted := true } ∧
      (total_errors (install_basic_classes 0 [] ++ entries type_error_classes)
        type_error_classes).semant_errors = 3 ∧
      ∃ cs,
        program_class.semant [] [] 0 type_error_classes =
          .ok { class_map := install_basic_classes 0 [] ++ entries type_error_classes,
                method_env :=
                  build_method_env (install_basic_classes 0 [] ++ entries type_error_classes) [],
                classtable :=
                  add_errors no_errors
                    (total_errors (install_basic_classes 0 [] ++ entries type_error_classes)
                      type_error_classes),
                classes := cs,
                halted := decide ((add_errors no_errors
                  (total_errors (install_basic_classes 0 [] ++ entries type_error_classes)
                    type_error_classes)).errors ≠ 0) } ∧
          List.Forall₂
            (fun c c1 => ∃ d,
              class__class.check (install_basic_classes 0 [] ++ entries type_error_classes)
                no_errors c = .ok (c1, d))
            type_error_classes cs :=
  ⟨(semant_hard_gate [] [] 0 redefinition_classes _ _ rfl).1 (by decide), rfl,
    (semant_hard_gate [] [] 0 type_error_classes _ _ rfl).2 rfl (by
      intro c hc
      simp only [type_error_classes, List.mem_cons, List.mem_singleton, List.not_mem_nil,
        or_false] at hc
      rcases hc with rfl | rfl
      · exact ⟨_, rfl⟩
      · exact ⟨_, rfl⟩)⟩

/-- C10, the failing input: the program `fault_classes`, whose hierarchy phase
reports nothing. The check of its first class, `Main`, dereferences the null
pointer `class_map[SELF_TYPE]` in `cls_join` (the branch `self` of the
conditional has the type `SELF_TYPE`), so the run of `program_class::semant`
ends in that fault: the second class `A`, whose check on its own reports
"Argument of 'not' has type Int instead of Bool.", is never checked, nothing
is reported and the run does not end with the failure that a non-zero error
count calls for. The same happens for the class `undeclared_type_class`,
where `cls_join(Int, Foo)` steps past `Object` to the null pointer
`class_map[_no_class]`. -/
theorem semant_check_fault :
    ClassTable.ClassTable [] 0 fault_classes =
        .ok (install_basic_classes 0 [] ++ entries fault_classes, no_errors) ∧
      class__class.check (install_basic_classes 0 [] ++ entries fault_classes) no_errors
          self_cond_class = .error .null_deref ∧
      class__class.check (install_basic_classes 0 [] ++ entries fault_classes) no_errors
          { line_number := 4, name := "A", parent := "Main",
            features := [.method ⟨5, "g", [], "Bool", .comp 5 none (.int_const 5 none "0")⟩],
            filename := "f.cl" } =
        .ok ({ line_number := 4, name := "A", parent := "Main",
               features :=
                 [.method ⟨5, "g", [], "Bool",
                    .comp 5 (some Sym.Bool) (.int_const 5 (some Sym.Int) "0")⟩],
               filename := "f.cl" },
          { semant_errors := 1,
            error_stream :=
              [{ loc := some ("f.cl", 5),
                 text := "Argument of 'not' has type Int instead of Bool.\n" }] }) ∧
      program_class.semant [] [] 0 fault_classes = .error .null_deref ∧
      ClassTable.ClassTable [] 0 [undeclared_type_class] =
        .ok (single_map undeclared_type_class, no_errors) ∧
      cls_join (single_map undeclared_type_class) Sym.Int "Foo" (ctx undeclared_type_class) =
        .error .null_deref ∧
      program_class.semant [] [] 0 [undeclared_type_class] = .error .null_deref :=
  ⟨rfl, rfl, rfl, rfl, rfl, by decide, rfl⟩

/-! ## Claims on the expression rules -/

/-- On a well-formed registry the loop of `cls_join` returns for every start
that has a chain, when the second argument resolves to a registered class. -/
theorem cls_join_loop_returns {m : ClassMap} (wf : WellFormed m) {b : Symbol} {tenv : type_env}
    {lb : List Symbol} (hb : IsChain m (resolve tenv b) lb) {a : Symbol} {la : List Symbol}
    (ha : IsChain m a la) :
    ∀ fuel, la.length ≤ fuel → ∃ j, cls_join_loop m b tenv fuel (m.find a) = .ok j := by
  induction ha with
  | object ho =>
    intro fuel hfuel
    cases fuel with
    | zero => simp at hfuel
    | succ n =>
      refine ⟨Sym.Object, ?_⟩
      rw [ho]
      simp only [cls_join_loop, wf.names _ _ ho]
      rw [is_subclass_of_chain wf _ hb, resolve_of_ne (by decide)]
      simp [hb.object_mem]
  | @step k c l _ hf _ ih =>
    intro fuel hfuel
    cases fuel with
    | zero => simp at hfuel
    | succ n =>
      have hn : l.length ≤ n := by
        simp only [List.length_cons] at hfuel
        omega
      rw [hf]
      simp only [cls_join_loop, wf.names _ _ hf]
      rw [is_subclass_of_chain wf _ hb]
      by_cases hmem : resolve tenv k ∈ lb
      · exact ⟨k, by simp [hmem]⟩
      · obtain ⟨j, hj⟩ := ih n hn
        exact ⟨j, by simp [hmem, hj]⟩

/-- On a validated class table, in the context of a registered current class,
`cls_join` returns for every two registered classes. -/
theorem cls_join_returns {ln : Nat} {classes : List Class_} {m : ClassMap}
    (hv : Validated ln classes m) {a b : Symbol} (ha : m.registered a) (hb : m.registered b)
    {tenv : type_env} (hctx : m.registered tenv.c.name) :
    ∃ J, cls_join m a b tenv = .ok J := by
  have wf := hv.wellFormed
  obtain ⟨la, hla⟩ := wf.chain_of_registered ha
  obtain ⟨lb, hlb⟩ := wf.chain_of_registered (registered_resolve hb hctx)
  exact cls_join_loop_returns wf hlb hla _ (Nat.le_succ_of_le hla.length_le)

/-- C13: on a validated class table, in the context of a registered current
class, let the predicate and the two branches of a conditional check (in this
order, each on top of the errors of the one before) to `t1`, `t2`, `t3`, with
`t2` and `t3` registered. Then `cond_class::typecheck` returns: the node holds
the three checked sub-expressions, its type (and the returned symbol) is
`cls_join(t2, t3, ctx)`, and on top of the errors of the sub-expressions it
reports exactly one error when `t1` is not `Bool`, and none otherwise. -/
theorem cond_typecheck {ln : Nat} {classes : List Class_} {m : ClassMap}
    (hv : Validated ln classes m) {tenv : type_env} (hctx : m.registered tenv.c.name)
    (line : Nat) (ty : Option Symbol) {pred then_exp else_exp x1 x2 x3 : Expression}
    {ct ct1 ct2 ct3 : ClassTable} {t1 t2 t3 : Symbol}
    (h1 : Expression.typecheck m tenv ct pred = .ok (t1, x1, ct1))
    (h2 : Expression.typecheck m tenv ct1 then_exp = .ok (t2, x2, ct2))
    (h3 : Expression.typecheck m tenv ct2 else_exp = .ok (t3, x3, ct3))
    (hT2 : m.registered t2) (hT3 : m.registered t3) :
    ∃ J, cls_join m t2 t3 tenv = .ok J ∧
      (t1 = Sym.Bool →
        Expression.typecheck m tenv ct (.cond line ty pred then_exp else_exp) =
          .ok (J, .cond line (some J) x1 x2 x3, ct3)) ∧
      (t1 ≠ Sym.Bool →
        Expression.typecheck m tenv ct (.cond line ty pred then_exp else_exp) =
          .ok (J, .cond line (some J) x1 x2 x3,
            { semant_errors := ct3.semant_errors + 1,
              error_stream := ct3.error_stream ++
                [{ loc := some (tenv.c.filename, line),
                   text := "Predicate of 'if' does not have type Bool.\n" }] })) := by
  obtain ⟨J, hJ⟩ := cls_join_returns hv hT2 hT3 hctx
  refine ⟨J, hJ, ?_, ?_⟩
  · intro hb
    simp only [Expression.typecheck, h1, h2, h3, hJ, hb, ne_eq, not_true_eq_false, if_false]
  · intro hb
    simp only [Expression.typecheck, h1, h2, h3, hJ, hb, ne_eq, not_false_eq_true, if_true,
      ClassTable.semant_error_node]

/-- C13, witness: `if 3 then 1 else "x" fi` in class `Main` of the sample
program gives one error and the type `Object`, the join of `Int` and
`String`. -/
theorem cond_typecheck_witness :
    Expression.typecheck sample_map (ctx (mk_class "Main" "IO")) no_errors
        (.cond 7 none (.int_const 7 none "3") (.int_const 7 none "1")
          (.string_const 7 none "x")) =
      .ok (Sym.Object, .cond 7 (some Sym.Object) (.int_const 7 (some Sym.Int) "3")
        (.int_const 7 (some Sym.Int) "1") (.string_const 7 (some Sym.Str) "x"),
        { semant_errors := 1,
          error_stream := [{ loc := some ("f.cl", 7),
                             text := "Predicate of 'if' does not have type Bool.\n" }] }) := by
  obtain ⟨J, hJ, -, h⟩ := cond_typecheck sample_validated
    (show sample_map.registered (ctx (mk_class "Main" "IO")).c.name from ⟨_, rfl⟩)
    7 none
    (show Expression.typecheck sample_map (ctx (mk_class "Main" "IO")) no_errors
      (.int_const 7 none "3") = .ok (Sym.Int, .int_const 7 (some Sym.Int) "3", no_errors)
      from rfl)
    (show Expression.typecheck sample_map (ctx (mk_class "Main" "IO")) no_errors
      (.int_const 7 none "1") = .ok (Sym.Int, .int_const 7 (some Sym.Int) "1", no_errors)
      from rfl)
    (show Expression.typecheck sample_map (ctx (mk_class "Main" "IO")) no_errors
      (.string_const 7 none "x") = .ok (Sym.Str, .string_const 7 (some Sym.Str) "x", no_errors)
      from rfl)
    (show sample_map.registered Sym.Int from ⟨_, rfl⟩)
    (show sample_map.registered Sym.Str from ⟨_, rfl⟩)
  have e : (Except.ok J : Except Fault Symbol) = .ok Sym.Object := hJ.symm.trans rfl
  cases e
  exact h (by decide)

/-- C14: let the two operands of an arithmetic node check (the second on top
of the errors of the first) to `t1` and `t2`. When both are `Int`, each of the
four nodes `+`, `-`, `*`, `/` has type `Int` and reports nothing of its own;
otherwise it has type `Object` and reports exactly one error of its own. -/
theorem arith_typecheck (m : ClassMap) (tenv : type_env) (line : Nat) (ty : Option Symbol)
    {e1 e2 x1 x2 : Expression} {ct ct1 ct2 : ClassTable} {t1 t2 : Symbol}
    (h1 : Expression.typecheck m tenv ct e1 = .ok (t1, x1, ct1))
    (h2 : Expression.typecheck m tenv ct1 e2 = .ok (t2, x2, ct2)) :
    (t1 = Sym.Int ∧ t2 = Sym.Int →
      Expression.typecheck m tenv ct (.plus line ty e1 e2) =
          .ok (Sym.Int, .plus line (some Sym.Int) x1 x2, ct2) ∧
        Expression.typecheck m tenv ct (.sub line ty e1 e2) =
          .ok (Sym.Int, .sub line (some Sym.Int) x1 x2, ct2) ∧
        Expression.typecheck m tenv ct (.mul line ty e1 e2) =
          .ok (Sym.Int, .mul line (some Sym.Int) x1 x2, ct2) ∧
        Expression.typecheck m tenv ct (.divide line ty e1 e2) =
          .ok (Sym.Int, .divide line (some Sym.Int) x1 x2, ct2)) ∧
    (¬ (t1 = Sym.Int ∧ t2 = Sym.Int) →
      Expression.typecheck m tenv ct (.plus line ty e1 e2) =
          .ok (Sym.Object, .plus line (some Sym.Object) x1 x2,
            { semant_errors := ct2.semant_errors + 1,
              error_stream := ct2.error_stream ++
                [{ loc := some (tenv.c.filename, line),
                   text := "non-Int arguments: " ++ t1 ++ " + " ++ t2 ++ "\n" }] }) ∧
        Expression.typecheck m tenv ct (.sub line ty e1 e2) =
          .ok (Sym.Object, .sub line (some Sym.Object) x1 x2,
            { semant_errors := ct2.semant_errors + 1,
              error_stream := ct2.error_stream ++
                [{ loc := some (tenv.c.filename, line),
                   text := "non-Int arguments: " ++ t1 ++ " - " ++ t2 ++ "\n" }] }) ∧
        Expression.typecheck m tenv ct (.mul line ty e1 e2) =
          .ok (Sym.Object, .mul line (some Sym.Object) x1 x2,
            { semant_errors := ct2.semant_errors + 1,
              error_stream := ct2.error_stream ++
                [{ loc := some (tenv.c.filename, line),
                   text := "non-Int arguments: " ++ t1 ++ " * " ++ t2 ++ "\n" }] }) ∧
        Expression.typecheck m tenv ct (.divide line ty e1 e2) =
          .ok (Sym.Object, .divide line (some Sym.Object) x1 x2,
            { semant_errors := ct2.semant_errors + 1,
              error_stream := ct2.error_stream ++
                [{ loc := some (tenv.c.filename, line),
                   text := "non-Int arguments: " ++ t1 ++ " / " ++ t2 ++ "\n" }] })) := by
  constructor
  · rintro ⟨rfl, rfl⟩
    simp [Expression.typecheck, h1, h2, arith_check]
  · intro h
    have h' : t1 ≠ Sym.Int ∨ t2 ≠ Sym.Int := by
      by_cases ha : t1 = Sym.Int
      · exact Or.inr fun hb => h ⟨ha, hb⟩
      · exact Or.inl ha
    simp [Expression.typecheck, h1, h2, arith_check, h', ClassTable.semant_error_node]

/-- C14, witness: `1 + "s"` gives one error and the type `Object`. -/
theorem arith_typecheck_witness :
    Expression.typecheck sample_map (ctx (mk_class "Main" "IO")) no_errors
        (.plus 3 none (.int_const 3 none "1") (.string_const 3 none "s")) =
      .ok (Sym.Object,
        .plus 3 (some Sym.Object) (.int_const 3 (some Sym.Int) "1")
          (.string_const 3 (some Sym.Str) "s"),
        { semant_errors := 1,
          error_stream := [{ loc := some ("f.cl", 3),
                             text := "non-Int arguments: Int + String\n" }] }) :=
  ((arith_typecheck sample_map (ctx (mk_class "Main" "IO")) 3 none
    (show Expression.typecheck sample_map (ctx (mk_class "Main" "IO")) no_errors
      (.int_const 3 none "1") = .ok (Sym.Int, .int_const 3 (some Sym.Int) "1", no_errors)
      from rfl)
    (show Expression.typecheck sample_map (ctx (mk_class "Main" "IO")) no_errors
      (.string_const 3 none "s") = .ok (Sym.Str, .string_const 3 (some Sym.Str) "s", no_errors)
      from rfl)).2 (by decide)).1

/-- C16: let the two operands of an equality node check (the second on top of
the errors of the first) to `t1` and `t2`. The node has type `Bool`; it
reports exactly one error of its own when one of `t1`, `t2` is `Int`, `String`
or `Bool` and `t1` differs from `t2`, and nothing otherwise (in particular
nothing when neither is one of the three, whatever the two types are). -/
theorem eq_typecheck (m : ClassMap) (tenv : type_env) (line : Nat) (ty : Option Symbol)
    {e1 e2 x1 x2 : Expression} {ct ct1 ct2 : ClassTable} {t1 t2 : Symbol}
    (h1 : Expression.typecheck m tenv ct e1 = .ok (t1, x1, ct1))
    (h2 : Expression.typecheck m tenv ct1 e2 = .ok (t2, x2, ct2)) :
    (((t1 = Sym.Int ∨ t1 = Sym.Str ∨ t1 = Sym.Bool ∨ t2 = Sym.Int ∨ t2 = Sym.Str
          ∨ t2 = Sym.Bool) ∧ t1 ≠ t2) →
      Expression.typecheck m tenv ct (.eq line ty e1 e2) =
        .ok (Sym.Bool, .eq line (some Sym.Bool) x1 x2,
          { semant_errors := ct2.semant_errors + 1,
            error_stream := ct2.error_stream ++
              [{ loc := some (tenv.c.filename, line),
                 text := "Illegal comparison with a basic type.\n" }] })) ∧
    (¬ ((t1 = Sym.Int ∨ t1 = Sym.Str ∨ t1 = Sym.Bool ∨ t2 = Sym.Int ∨ t2 = Sym.Str
          ∨ t2 = Sym.Bool) ∧ t1 ≠ t2) →
      Expression.typecheck m tenv ct (.eq line ty e1 e2) =
        .ok (Sym.Bool, .eq line (some Sym.Bool) x1 x2, ct2)) ∧
    (¬ (t1 = Sym.Int ∨ t1 = Sym.Str ∨ t1 = Sym.Bool ∨ t2 = Sym.Int ∨ t2 = Sym.Str
          ∨ t2 = Sym.Bool) →
      Expression.typecheck m tenv ct (.eq line ty e1 e2) =
        .ok (Sym.Bool, .eq line (some Sym.Bool) x1 x2, ct2)) := by
  refine ⟨?_, ?_, ?_⟩
  · rintro ⟨hp, hne⟩
    simp only [Expression.typecheck, h1, h2, hp, hne, ne_eq, not_false_eq_true, if_true,
      ClassTable.semant_error_node]
  · intro h
    simp only [Expression.typecheck, h1, h2]
    by_cases hp : t1 = Sym.Int ∨ t1 = Sym.Str ∨ t1 = Sym.Bool ∨ t2 = Sym.Int ∨ t2 = Sym.Str
        ∨ t2 = Sym.Bool
    · have he : t1 = t2 := by
        by_contra hne
        exact h ⟨hp, hne⟩
      rw [if_pos hp, if_neg (not_not.mpr he)]
    · simp only [hp, if_false]
  · intro hp
    simp only [Expression.typecheck, h1, h2, hp, if_false]

/-- C16, witness: `1 = "s"` gives one error and the type `Bool`. -/
theorem eq_typecheck_witness :
    Expression.typecheck sample_map (ctx (mk_class "Main" "IO")) no_errors
        (.eq 3 none (.int_const 3 none "1") (.string_const 3 none "s")) =
      .ok (Sym.Bool,
        .eq 3 (some Sym.Bool) (.int_const 3 (some Sym.Int) "1")
          (.string_const 3 (some Sym.Str) "s"),
        { semant_errors := 1,
          error_stream := [{ loc := some ("f.cl", 3),
                             text := "Illegal comparison with a basic type.\n" }] }) :=
  (eq_typecheck sample_map (ctx (mk_class "Main" "IO")) 3 none
    (show Expression.typecheck sample_map (ctx (mk_class "Main" "IO")) no_errors
      (.int_const 3 none "1") = .ok (Sym.Int, .int_const 3 (some Sym.Int) "1", no_errors)
      from rfl)
    (show Expression.typecheck sample_map (ctx (mk_class "Main" "IO")) no_errors
      (.string_const 3 none "s") = .ok (Sym.Str, .string_const 3 (some Sym.Str) "s", no_errors)
      from rfl)).1 (by decide)

/-- C15, counterexample: with `x` bound to `Int`, the assignment `x <- "s"`
(right-hand side of type `String`, which does not conform to `Int`) reports
its error and has the type `Object`, not `String`. -/
theorem assign_type_not_rhs :
    Validated 0 sample_classes sample_map ∧
      SymbolTable.lookup [[("x", Sym.Int)]] "x" = some Sym.Int ∧
      Expression.typecheck sample_map { o := [[("x", Sym.Int)]], c := mk_class "Main" "IO" }
          no_errors (.string_const 4 none "s") =
        .ok (Sym.Str, .string_const 4 (some Sym.Str) "s", no_errors) ∧
      Expression.typecheck sample_map { o := [[("x", Sym.Int)]], c := mk_class "Main" "IO" }
          no_errors (.assign 4 none "x" (.string_const 4 none "s")) =
        .ok (Sym.Object, .assign 4 (some Sym.Object) "x" (.string_const 4 (some Sym.Str) "s"),
          { semant_errors := 1,
            error_stream :=
              [{ loc := some ("f.cl", 4),
                 text := "Type String of assigned expression does not conform to declared type Int of identifier x.\n" }] }) :=
  ⟨sample_validated, rfl, rfl, rfl⟩

/-- C15, amended: on a validated class table, for an assignment `id <- e`
whose identifier is bound to the declared type `T`, with `e` checking to `T1`:
either `is_subclass(T1, T, ctx)` is true, the node reports nothing of its own
and its type is `T1`; or `is_subclass(T1, T, ctx)` is false, the node reports
exactly one error of its own and its type is `Object`. -/
theorem assign_typecheck {ln : Nat} {classes : List Class_} {m : ClassMap}
    (hv : Validated ln classes m) (line : Nat) (ty : Option Symbol) {tenv : type_env}
    {name T T1 : Symbol} {expr x : Expression} {ct ct1 : ClassTable}
    (hl : tenv.o.lookup name = some T)
    (h1 : Expression.typecheck m tenv ct expr = .ok (T1, x, ct1)) :
    (is_subclass m T1 T tenv = .ok true ∧
      Expression.typecheck m tenv ct (.assign line ty name expr) =
        .ok (T1, .assign line (some T1) name x, ct1)) ∨
    (is_subclass m T1 T tenv = .ok false ∧
      Expression.typecheck m tenv ct (.assign line ty name expr) =
        .ok (Sym.Object, .assign line (some Sym.Object) name x,
          { semant_errors := ct1.semant_errors + 1,
            error_stream := ct1.error_stream ++
              [{ loc := some (tenv.c.filename, line),
                 text := "Type " ++ T1
                   ++ " of assigned expression does not conform to declared type " ++ T
                   ++ " of identifier " ++ name ++ ".\n" }] })) := by
  obtain ⟨b, hb⟩ := is_subclass_total hv.wellFormed T1 T tenv
  cases b with
  | true =>
    left
    exact ⟨hb, by simp only [Expression.typecheck, hl, h1, hb]⟩
  | false =>
    right
    refine ⟨hb, ?_⟩
    simp only [Expression.typecheck, hl, h1, hb, ClassTable.semant_error_node]

/-- C15, witness: with `x` bound to `Object`, the assignment `x <- "s"` has
the type `String` and reports nothing, since `String` conforms to `Object`. -/
theorem assign_typecheck_witness :
    is_subclass sample_map Sym.Str Sym.Object
          { o := [[("x", Sym.Object)]], c := mk_class "Main" "IO" } = .ok true ∧
      Expression.typecheck sample_map { o := [[("x", Sym.Object)]], c := mk_class "Main" "IO" }
          no_errors (.assign 4 none "x" (.string_const 4 none "s")) =
        .ok (Sym.Str, .assign 4 (some Sym.Str) "x" (.string_const 4 (some Sym.Str) "s"),
          no_errors) :=
  (assign_typecheck sample_validated 4 none
    (show SymbolTable.lookup [[("x", Sym.Object)]] "x" = some Sym.Object from rfl)
    (show Expression.typecheck sample_map { o := [[("x", Sym.Object)]], c := mk_class "Main" "IO" }
      no_errors (.string_const 4 none "s") = .ok (Sym.Str, .string_const 4 (some Sym.Str) "s",
        no_errors) from rfl)).resolve_right (fun h => absurd h.1 (by decide))

/-- C18, counterexample: in the sample program `lookup_method` finds `in_int`
for the class `IO`, without formals and with return type `Int`, and the
receiver `new IO` checks to `IO`; the dispatch `(new IO).in_int()` has no type
written and returns `Object`, not `Int`. No class declares `nope`; the
dispatch `(new IO).nope()` reports nothing. -/
theorem dispatch_not_resolved :
    Validated 0 sample_classes sample_map ∧
      lookup_method sample_map (build_method_env sample_map []) Sym.IO Sym.in_int =
        .ok (some { line_number := 0, name := Sym.in_int, formals := [],
                    return_type := Sym.Int, expr := .no_expr 0 none }) ∧
      Expression.typecheck sample_map (ctx (mk_class "Main" "IO")) no_errors
          (.new_ 5 none Sym.IO) = .ok ( Sym.IO, .new_ 5 (some Sym.IO) Sym.IO, no_errors) ∧
      Expression.typecheck sample_map (ctx (mk_class "Main" "IO")) no_errors
          (.dispatch 5 none (.new_ 5 none Sym.IO) Sym.in_int []) =
        .ok (Sym.Object, .dispatch 5 none (.new_ 5 none Sym.IO) Sym.in_int [], no_errors) ∧
      lookup_method sample_map (build_method_env sample_map []) Sym.IO "nope" = .ok none ∧
      Expression.typecheck sample_map (ctx (mk_class "Main" "IO")) no_errors
          (.dispatch 5 none (.new_ 5 none Sym.IO) "nope" []) =
        .ok (Sym.Object, .dispatch 5 none (.new_ 5 none Sym.IO) "nope" [], no_errors) :=
  ⟨sample_validated, rfl, rfl, rfl, rfl, rfl⟩

/-- C18, amended: for every dispatch node and every static dispatch node,
whatever the receiver, the method name and the arguments, `typecheck` returns
`Object`, leaves the node as it is (the type slot is not written, the receiver
and the arguments are not checked), and reports nothing; `lookup_method` is
not consulted. -/
theorem dispatch_typecheck (m : ClassMap) (tenv : type_env) (ct : ClassTable) (line : Nat)
    (ty : Option Symbol) (expr : Expression) (type_name name : Symbol)
    (actual : List Expression) :
    Expression.typecheck m tenv ct (.dispatch line ty expr name actual) =
        .ok (Sym.Object, .dispatch line ty expr name actual, ct) ∧
      Expression.typecheck m tenv ct (.static_dispatch line ty expr type_name name actual) =
        .ok (Sym.Object, .static_dispatch line ty expr type_name name actual, ct) := by
  constructor <;> simp only [Expression.typecheck]

/-! ## The identifier `self` -/

theorem lookup_addid {o : SymbolTable} (ho : o ≠ []) (k t x : Symbol) :
    (o.addid k t).lookup x = if k = x then some t else o.lookup x := by
  cases o with
  | nil => exact absurd rfl ho
  | cons s rest =>
    simp only [SymbolTable.addid, SymbolTable.lookup, lookup_scope]
    split_ifs <;> rfl

theorem addid_ne_nil {o : SymbolTable} (ho : o ≠ []) (k t : Symbol) : o.addid k t ≠ [] := by
  cases o with
  | nil => exact absurd rfl ho
  | cons s rest => simp [SymbolTable.addid]

theorem lookup_add_formals (x : Symbol) :
    ∀ (formals : List Formal) (o : SymbolTable), o ≠ [] →
      (∀ f ∈ formals, f.name ≠ x) → (add_formals o formals).lookup x = o.lookup x := by
  intro formals
  induction formals with
  | nil =>
    intro o _ _
    rfl
  | cons f rest ih =>
    intro o ho hf
    simp only [add_formals]
    rw [ih _ (addid_ne_nil ho _ _) (fun g hg => hf g (List.mem_cons_of_mem _ hg)),
      lookup_addid ho, if_neg (hf f (List.mem_cons_self _ _))]

/-- In the environment that `method_class::typecheck` builds for the body of a
method none of whose formals is named `self`, `self` is bound to `SELF_TYPE`. -/
theorem lookup_self_in_method (o : SymbolTable) (formals : List Formal)
    (hf : ∀ f ∈ formals, f.name ≠ Sym.self) :
    (add_formals ((o.enterscope).addid Sym.self Sym.SELF_TYPE) formals).lookup Sym.self =
      some Sym.SELF_TYPE := by
  have h1 : o.enterscope ≠ [] := by simp [SymbolTable.enterscope]
  rw [lookup_add_formals _ _ _ (addid_ne_nil h1 _ _) hf, lookup_addid h1, if_pos rfl]

/-- C19, the failing input: for the class `Main` with the attribute
`a : Object <- self` the constructor reports nothing, and `check` reports
"Undeclared identifier self." for the initialiser and gives it the type
`Object`; in the body of a method `f() : Object { self }` the same reference
has the type `SELF_TYPE` and nothing is reported. -/
theorem self_undeclared_in_attribute :
    Validated 0 [self_attr_class] (single_map self_attr_class) ∧
      class__class.check (single_map self_attr_class) no_errors self_attr_class =
        .ok ({ line_number := 1, name := "Main", parent := "Object",
               features := [.attr ⟨2, "a", "Object", .object 2 (some Sym.Object) Sym.self⟩],
               filename := "f.cl" },
          { semant_errors := 1,
            error_stream := [{ loc := some ("f.cl", 2),
                               text := "Undeclared identifier self.\n" }] }) ∧
      class__class.check (single_map self_method_class) no_errors self_method_class =
        .ok ({ line_number := 1, name := "Main", parent := "Object",
               features :=
                 [.method ⟨2, "f", [], "Object", .object 2 (some Sym.SELF_TYPE) Sym.self⟩],
               filename := "f.cl" },
          no_errors) :=
  ⟨⟨by decide, ⟨_, rfl, rfl⟩⟩, rfl, rfl⟩

/-- C20, counterexample: for the class `Main` with the method
`f() : Object { self <- self }` the constructor reports nothing, and `check`
reports nothing either: the assignment to `self` has the type `SELF_TYPE`. -/
theorem assign_self_accepted :
    Validated 0 [self_assign_class] (single_map self_assign_class) ∧
      class__class.check (single_map self_assign_class) no_errors self_assign_class =
        .ok ({ line_number := 1, name := "Main", parent := "Object",
               features :=
                 [.method ⟨2, "f", [], "Object",
                    .assign 2 (some Sym.SELF_TYPE) Sym.self
                      (.object 2 (some Sym.SELF_TYPE) Sym.self)⟩],
               filename := "f.cl" },
          no_errors) :=
  ⟨⟨by decide, ⟨_, rfl, rfl⟩⟩, rfl⟩

/-- C20, amended: on a validated class table, in the body of a method none of
whose formals is named `self`, an assignment to `self` is checked like any
other assignment, against the declared type `SELF_TYPE`: with the right-hand
side checking to `T1`, either `is_subclass(T1, SELF_TYPE, ctx)` is true (`T1`
conforms to the current class) and the node reports nothing of its own and
has the type `T1`, or it is false and the node reports exactly one error of
its own and has the type `Object`. When the current class is registered and
`T1` is `SELF_TYPE`, nothing is reported. -/
theorem assign_self_typecheck {ln : Nat} {classes : List Class_} {m : ClassMap}
    (hv : Validated ln classes m) (o : SymbolTable) (c : Class_) (formals : List Formal)
    (hf : ∀ f ∈ formals, f.name ≠ Sym.self) (line : Nat) (ty : Option Symbol)
    {T1 : Symbol} {expr x : Expression} {ct ct1 : ClassTable}
    (h1 : Expression.typecheck m
      { o := add_formals ((o.enterscope).addid Sym.self Sym.SELF_TYPE) formals, c := c }
      ct expr = .ok (T1, x, ct1)) :
    ((is_subclass m T1 Sym.SELF_TYPE
          { o := add_formals ((o.enterscope).addid Sym.self Sym.SELF_TYPE) formals, c := c }
          = .ok true ∧
        Expression.typecheck m
            { o := add_formals ((o.enterscope).addid Sym.self Sym.SELF_TYPE) formals, c := c }
            ct (.assign line ty Sym.self expr) =
          .ok (T1, .assign line (some T1) Sym.self x, ct1)) ∨
      (is_subclass m T1 Sym.SELF_TYPE
          { o := add_formals ((o.enterscope).addid Sym.self Sym.SELF_TYPE) formals, c := c }
          = .ok false ∧
        Expression.typecheck m
            { o := add_formals ((o.enterscope).addid Sym.self Sym.SELF_TYPE) formals, c := c }
            ct (.assign line ty Sym.self expr) =
          .ok (Sym.Object, .assign line (some Sym.Object) Sym.self x,
            { semant_errors := ct1.semant_errors + 1,
              error_stream := ct1.error_stream ++
                [{ loc := some (c.filename, line),
                   text := "Type " ++ T1
                     ++ " of assigned expression does not conform to declared type "
                     ++ Sym.SELF_TYPE ++ " of identifier " ++ Sym.self ++ ".\n" }] }))) ∧
    (m.registered c.name → T1 = Sym.SELF_TYPE →
      Expression.typecheck m
          { o := add_formals ((o.enterscope).addid Sym.self Sym.SELF_TYPE) formals, c := c }
          ct (.assign line ty Sym.self expr) =
        .ok (Sym.SELF_TYPE, .assign line (some Sym.SELF_TYPE) Sym.self x, ct1)) := by
  have hl := lookup_self_in_method o formals hf
  have wf := hv.wellFormed
  constructor
  · obtain ⟨b, hb⟩ := is_subclass_total wf T1 Sym.SELF_TYPE
      { o := add_formals ((o.enterscope).addid Sym.self Sym.SELF_TYPE) formals, c := c }
    cases b with
    | true =>
      left
      exact ⟨hb, by simp only [Expression.typecheck, hl, h1, hb]⟩
    | false =>
      right
      refine ⟨hb, ?_⟩
      simp only [Expression.typecheck, hl, h1, hb, ClassTable.semant_error_node]
  · intro hc hT
    subst hT
    obtain ⟨l, hchain⟩ := wf.chain_of_registered hc
    have hs : is_subclass m Sym.SELF_TYPE Sym.SELF_TYPE
        { o := add_formals ((o.enterscope).addid Sym.self Sym.SELF_TYPE) formals, c := c }
        = .ok true := by
      have hl1 : IsChain m (resolve
          { o := add_formals ((o.enterscope).addid Sym.self Sym.SELF_TYPE) formals, c := c }
          Sym.SELF_TYPE) l := by
        simpa [resolve] using hchain
      rw [is_subclass_of_chain wf _ hl1]
      have : resolve
          { o := add_formals ((o.enterscope).addid Sym.self Sym.SELF_TYPE) formals, c := c }
          Sym.SELF_TYPE = c.name := by simp [resolve]
      rw [this]
      simp [hchain.self_mem]
    simp only [Expression.typecheck, hl, h1, hs]

/-- C20, witness: `self <- self` in a method of class `Main` of the sample
program reports nothing and has the type `SELF_TYPE`. -/
theorem assign_self_typecheck_witness :
    Expression.typecheck sample_map
        { o := add_formals ((SymbolTable.enterscope [[]]).addid Sym.self Sym.SELF_TYPE) [],
          c := mk_class "Main" "IO" }
        no_errors (.assign 3 none Sym.self (.object 3 none Sym.self)) =
      .ok (Sym.SELF_TYPE,
        .assign 3 (some Sym.SELF_TYPE) Sym.self (.object 3 (some Sym.SELF_TYPE) Sym.self),
        no_errors) :=
  (assign_self_typecheck sample_validated [[]] (mk_class "Main" "IO") [] (by simp) 3 none
    (show Expression.typecheck sample_map
      { o := add_formals ((SymbolTable.enterscope [[]]).addid Sym.self Sym.SELF_TYPE) [],
        c := mk_class "Main" "IO" } no_errors (.object 3 none Sym.self) =
      .ok (Sym.SELF_TYPE, .object 3 (some Sym.SELF_TYPE) Sym.self, no_errors) from rfl)).2
    (show sample_map.registered (mk_class "Main" "IO").name from ⟨_, rfl⟩) rfl

/-! ## The type slots after a visit -/

mutual
theorem expr_typecheck_annotated (m : ClassMap) (tenv : type_env) :
    ∀ (e : Expression) (ct : ClassTable) (t : Symbol) (x : Expression) (d : ClassTable),
      Expression.typecheck m tenv ct e = .ok (t, x, d) → x.annotated tenv.o = true
  | .assign line ty name expr, ct, t, x, d, h => by
    simp only [Expression.typecheck] at h
    cases hl : tenv.o.lookup name with
    | none =>
      simp only [hl, Except.ok.injEq, Prod.mk.injEq] at h
      obtain ⟨-, rfl, -⟩ := h
      simp [Expression.annotated, hl]
    | some T =>
      simp only [hl] at h
      cases h1 : Expression.typecheck m tenv ct expr with
      | error f => simp [h1] at h
      | ok p1 =>
        obtain ⟨t1, x1, d1⟩ := p1
        have a1 := expr_typecheck_annotated m tenv _ _ _ _ _ h1
        simp only [h1] at h
        cases hs : is_subclass m t1 T tenv with
        | error f => simp [hs] at h
        | ok b =>
          cases b <;>
          · simp only [hs, Except.ok.injEq, Prod.mk.injEq] at h
            obtain ⟨-, rfl, -⟩ := h
            simp [Expression.annotated, hl, a1]
  | .static_dispatch line ty expr type_name name actual, ct, t, x, d, h => by
    simp only [Expression.typecheck, Except.ok.injEq, Prod.mk.injEq] at h
    obtain ⟨-, rfl, -⟩ := h
    simp [Expression.annotated]
  | .dispatch line ty expr name actual, ct, t, x, d, h => by
    simp only [Expression.typecheck, Except.ok.injEq, Prod.mk.injEq] at h
    obtain ⟨-, rfl, -⟩ := h
    simp [Expression.annotated]
  | .cond line ty pred then_exp else_exp, ct, t, x, d, h => by
    simp only [Expression.typecheck] at h
    cases h1 : Expression.typecheck m tenv ct pred with
    | error f => simp [h1] at h
    | ok p1 =>
      obtain ⟨t1, x1, d1⟩ := p1
      have a1 := expr_typecheck_annotated m tenv _ _ _ _ _ h1
      simp only [h1] at h
      cases h2 : Expression.typecheck m tenv d1 then_exp with
      | error f => simp [h2] at h
      | ok p2 =>
        obtain ⟨t2, x2, d2⟩ := p2
        have a2 := expr_typecheck_annotated m tenv _ _ _ _ _ h2
        simp only [h2] at h
        cases h3 : Expression.typecheck m tenv d2 else_exp with
        | error f => simp [h3] at h
        | ok p3 =>
          obtain ⟨t3, x3, d3⟩ := p3
          have a3 := expr_typecheck_annotated m tenv _ _ _ _ _ h3
          simp only [h3] at h
          cases hj : cls_join m t2 t3 tenv with
          | error f => simp [hj] at h
          | ok j =>
            simp only [hj, Except.ok.injEq, Prod.mk.injEq] at h
            obtain ⟨-, rfl, -⟩ := h
            simp [Expression.annotated, a1, a2, a3]
  | .loop line ty pred body, ct, t, x, d, h => by
    simp only [Expression.typecheck, Except.ok.injEq, Prod.mk.injEq] at h
    obtain ⟨-, rfl, -⟩ := h
    simp [Expression.annotated]
  | .typcase line ty expr cases, ct, t, x, d, h => by
    simp only [Expression.typecheck, Except.ok.injEq, Prod.mk.injEq] at h
    obtain ⟨-, rfl, -⟩ := h
    simp [Expression.annotated]
  | .block line ty first rest, ct, t, x, d, h => by
    simp only [Expression.typecheck] at h
    cases h1 : Expression.typecheck m tenv ct first with
    | error f => simp [h1] at h
    | ok p1 =>
      obtain ⟨t1, x1, d1⟩ := p1
      have a1 := expr_typecheck_annotated m tenv _ _ _ _ _ h1
      simp only [h1] at h
      cases h2 : typecheck_rest m tenv d1 t1 rest with
      | error f => simp [h2] at h
      | ok p2 =>
        obtain ⟨t2, x2, d2⟩ := p2
        have a2 := typecheck_rest_annotated m tenv _ _ _ _ _ _ h2
        simp only [h2, Except.ok.injEq, Prod.mk.injEq] at h
        obtain ⟨-, rfl, -⟩ := h
        simp [Expression.annotated, a1, a2]
  | .let_ line ty identifier type_decl init body, ct, t, x, d, h => by
    simp only [Expression.typecheck, Except.ok.injEq, Prod.mk.injEq] at h
    obtain ⟨-, rfl, -⟩ := h
    simp [Expression.annotated]
  | .plus line ty e1 e2, ct, t, x, d, h => by
    simp only [Expression.typecheck] at h
    cases h1 : Expression.typecheck m tenv ct e1 with
    | error f => simp [h1] at h
    | ok p1 =>
      obtain ⟨t1, x1, d1⟩ := p1
      have a1 := expr_typecheck_annotated m tenv _ _ _ _ _ h1
      simp only [h1] at h
      cases h2 : Expression.typecheck m tenv d1 e2 with
      | error f => simp [h2] at h
      | ok p2 =>
        obtain ⟨t2, x2, d2⟩ := p2
        have a2 := expr_typecheck_annotated m tenv _ _ _ _ _ h2
        simp only [h2] at h
        simp only [Except.ok.injEq, Prod.mk.injEq] at h
        obtain ⟨-, rfl, -⟩ := h
        simp [Expression.annotated, a1, a2]
  | .sub line ty e1 e2, ct, t, x, d, h => by
    simp only [Expression.typecheck] at h
    cases h1 : Expression.typecheck m tenv ct e1 with
    | error f => simp [h1] at h
    | ok p1 =>
      obtain ⟨t1, x1, d1⟩ := p1
      have a1 := expr_typecheck_annotated m tenv _ _ _ _ _ h1
      simp only [h1] at h
      cases h2 : Expression.typecheck m tenv d1 e2 with
      | error f => simp [h2] at h
      | ok p2 =>
        obtain ⟨t2, x2, d2⟩ := p2
        have a2 := expr_typecheck_annotated m tenv _ _ _ _ _ h2
        simp only [h2] at h
        simp only [Except.ok.injEq, Prod.mk.injEq] at h
        obtain ⟨-, rfl, -⟩ := h
        simp [Expression.annotated, a1, a2]
  | .mul line ty e1 e2, ct, t, x, d, h => by
    simp only [Expression.typecheck] at h
    cases h1 : Expression.typecheck m tenv ct e1 with
    | error f => simp [h1] at h
    | ok p1 =>
      obtain ⟨t1, x1, d1⟩ := p1
      have a1 := expr_typecheck_annotated m tenv _ _ _ _ _ h1
      simp only [h1] at h
      cases h2 : Expression.typecheck m tenv d1 e2 with
      | error f => simp [h2] at h
      | ok p2 =>
        obtain ⟨t2, x2, d2⟩ := p2
        have a2 := expr_typecheck_annotated m tenv _ _ _ _ _ h2
        simp only [h2] at h
        simp only [Except.ok.injEq, Prod.mk.injEq] at h
        obtain ⟨-, rfl, -⟩ := h
        simp [Expression.annotated, a1, a2]
  | .divide line ty e1 e2, ct, t, x, d, h => by
    simp only [Expression.typecheck] at h
    cases h1 : Expression.typecheck m tenv ct e1 with
    | error f => simp [h1] at h
    | ok p1 =>
      obtain ⟨t1, x1, d1⟩ := p1
      have a1 := expr_typecheck_annotated m tenv _ _ _ _ _ h1
      simp only [h1] at h
      cases h2 : Expression.typecheck m tenv d1 e2 with
      | error f => simp [h2] at h
      | ok p2 =>
        obtain ⟨t2, x2, d2⟩ := p2
        have a2 := expr_typecheck_annotated m tenv _ _ _ _ _ h2
        simp only [h2] at h
        simp only [Except.ok.injEq, Prod.mk.injEq] at h
        obtain ⟨-, rfl, -⟩ := h
        simp [Expression.annotated, a1, a2]
  | .neg line ty e1, ct, t, x, d, h => by
    simp only [Expression.typecheck] at h
    cases h1 : Expression.typecheck m tenv ct e1 with
    | error f => simp [h1] at h
    | ok p1 =>
      obtain ⟨t1, x1, d1⟩ := p1
      have a1 := expr_typecheck_annotated m tenv _ _ _ _ _ h1
      simp only [h1] at h
      simp only [Except.ok.injEq, Prod.mk.injEq] at h
      obtain ⟨-, rfl, -⟩ := h
      simp [Expression.annotated, a1]
  | .lt line ty e1 e2, ct, t, x, d, h => by
    simp only [Expression.typecheck] at h
    cases h1 : Expression.typecheck m tenv ct e1 with
    | error f => simp [h1] at h
    | ok p1 =>
      obtain ⟨t1, x1, d1⟩ := p1
      have a1 := expr_typecheck_annotated m tenv _ _ _ _ _ h1
      simp only [h1] at h
      cases h2 : Expression.typecheck m tenv d1 e2 with
      | error f => simp [h2] at h
      | ok p2 =>
        obtain ⟨t2, x2, d2⟩ := p2
        have a2 := expr_typecheck_annotated m tenv _ _ _ _ _ h2
        simp only [h2] at h
        simp only [Except.ok.injEq, Prod.mk.injEq] at h
        obtain ⟨-, rfl, -⟩ := h
        simp [Expression.annotated, a1, a2]
  | .eq line ty e1 e2, ct, t, x, d, h => by
    simp only [Expression.typecheck] at h
    cases h1 : Expression.typecheck m tenv ct e1 with
    | error f => simp [h1] at h
    | ok p1 =>
      obtain ⟨t1, x1, d1⟩ := p1
      have a1 := expr_typecheck_annotated m tenv _ _ _ _ _ h1
      simp only [h1] at h
      cases h2 : Expression.typecheck m tenv d1 e2 with
      | error f => simp [h2] at h
      | ok p2 =>
        obtain ⟨t2, x2, d2⟩ := p2
        have a2 := expr_typecheck_annotated m tenv _ _ _ _ _ h2
        simp only [h2] at h
        simp only [Except.ok.injEq, Prod.mk.injEq] at h
        obtain ⟨-, rfl, -⟩ := h
        simp [Expression.annotated, a1, a2]
  | .leq line ty e1 e2, ct, t, x, d, h => by
    simp only [Expression.typecheck] at h
    cases h1 : Expression.typecheck m tenv ct e1 with
    | error f => simp [h1] at h
    | ok p1 =>
      obtain ⟨t1, x1, d1⟩ := p1
      have a1 := expr_typecheck_annotated m tenv _ _ _ _ _ h1
      simp only [h1] at h
      cases h2 : Expression.typecheck m tenv d1 e2 with
      | error f => simp [h2] at h
      | ok p2 =>
        obtain ⟨t2, x2, d2⟩ := p2
        have a2 := expr_typecheck_annotated m tenv _ _ _ _ _ h2
        simp only [h2] at h
        simp only [Except.ok.injEq, Prod.mk.injEq] at h
        obtain ⟨-, rfl, -⟩ := h
        simp [Expression.annotated, a1, a2]
  | .comp line ty e1, ct, t, x, d, h => by
    simp only [Expression.typecheck] at h
    cases h1 : Expression.typecheck m tenv ct e1 with
    | error f => simp [h1] at h
    | ok p1 =>
      obtain ⟨t1, x1, d1⟩ := p1
      have a1 := expr_typecheck_annotated m tenv _ _ _ _ _ h1
      simp only [h1] at h
      simp only [Except.ok.injEq, Prod.mk.injEq] at h
      obtain ⟨-, rfl, -⟩ := h
      simp [Expression.annotated, a1]
  | .int_const line ty token, ct, t, x, d, h => by
    simp only [Expression.typecheck, Except.ok.injEq, Prod.mk.injEq] at h
    obtain ⟨-, rfl, -⟩ := h
    simp [Expression.annotated]
  | .bool_const line ty val, ct, t, x, d, h => by
    simp only [Expression.typecheck, Except.ok.injEq, Prod.mk.injEq] at h
    obtain ⟨-, rfl, -⟩ := h
    simp [Expression.annotated]
  | .string_const line ty token, ct, t, x, d, h => by
    simp only [Expression.typecheck, Except.ok.injEq, Prod.mk.injEq] at h
    obtain ⟨-, rfl, -⟩ := h
    simp [Expression.annotated]
  | .new_ line ty type_name, ct, t, x, d, h => by
    simp only [Expression.typecheck] at h
    split_ifs at h <;>
    · simp only [Except.ok.injEq, Prod.mk.injEq] at h
      obtain ⟨-, rfl, -⟩ := h
      simp [Expression.annotated]
  | .isvoid line ty e1, ct, t, x, d, h => by
    simp only [Expression.typecheck] at h
    cases h1 : Expression.typecheck m tenv ct e1 with
    | error f => simp [h1] at h
    | ok p1 =>
      obtain ⟨t1, x1, d1⟩ := p1
      have a1 := expr_typecheck_annotated m tenv _ _ _ _ _ h1
      simp only [h1] at h
      simp only [Except.ok.injEq, Prod.mk.injEq] at h
      obtain ⟨-, rfl, -⟩ := h
      simp [Expression.annotated, a1]
  | .no_expr line ty, ct, t, x, d, h => by
    simp only [Expression.typecheck, Except.ok.injEq, Prod.mk.injEq] at h
    obtain ⟨-, rfl, -⟩ := h
    simp [Expression.annotated]
  | .object line ty name, ct, t, x, d, h => by
    simp only [Expression.typecheck] at h
    cases hl : tenv.o.lookup name with
    | none =>
      simp only [hl, Except.ok.injEq, Prod.mk.injEq] at h
      obtain ⟨-, rfl, -⟩ := h
      simp [Expression.annotated]
    | some T =>
      simp only [hl, Except.ok.injEq, Prod.mk.injEq] at h
      obtain ⟨-, rfl, -⟩ := h
      simp [Expression.annotated]
theorem typecheck_rest_annotated (m : ClassMap) (tenv : type_env) :
    ∀ (es : List Expression) (ct : ClassTable) (ty t : Symbol) (xs : List Expression)
      (d : ClassTable),
      typecheck_rest m tenv ct ty es = .ok (t, xs, d) → annotated_rest tenv.o xs = true
  | [], ct, ty, t, xs, d, h => by
    simp only [typecheck_rest, Except.ok.injEq, Prod.mk.injEq] at h
    obtain ⟨-, rfl, -⟩ := h
    simp [annotated_rest]
  | e :: es, ct, ty, t, xs, d, h => by
    simp only [typecheck_rest] at h
    cases h1 : Expression.typecheck m tenv ct e with
    | error f => simp [h1] at h
    | ok p1 =>
      obtain ⟨t1, x1, d1⟩ := p1
      have a1 := expr_typecheck_annotated m tenv _ _ _ _ _ h1
      simp only [h1] at h
      cases h2 : typecheck_rest m tenv d1 t1 es with
      | error f => simp [h2] at h
      | ok p2 =>
        obtain ⟨t2, x2, d2⟩ := p2
        have a2 := typecheck_rest_annotated m tenv _ _ _ _ _ _ h2
        simp only [h2, Except.ok.injEq, Prod.mk.injEq] at h
        obtain ⟨-, rfl, -⟩ := h
        simp [annotated_rest, a1, a2]
end

theorem addid_cons (s : List (Symbol × Symbol)) (rest : SymbolTable) (k t : Symbol) :
    SymbolTable.addid (s :: rest) k t = ((k, t) :: s) :: rest := rfl

theorem add_formals_cons :
    ∀ (formals : List Formal) (s : List (Symbol × Symbol)) (rest : SymbolTable),
      ∃ s1, add_formals (s :: rest) formals = s1 :: rest := by
  intro formals
  induction formals with
  | nil =>
    intro s rest
    exact ⟨s, rfl⟩
  | cons f fs ih =>
    intro s rest
    simp only [add_formals, addid_cons]
    exact ih _ rest

/-- The environment is the same before and after the check of a feature, and
the checked feature is annotated. -/
theorem feature_typecheck_annotated (m : ClassMap) (tenv : type_env) (ct : ClassTable)
    (f : Feature) {t : Symbol} {f1 : Feature} {tenv1 : type_env} {d : ClassTable}
    (h : f.typecheck m tenv ct = .ok (t, f1, tenv1, d)) :
    tenv1 = tenv ∧ f1.annotated tenv.o = true := by
  cases f with
  | method mth =>
    simp only [Feature.typecheck, method_class.typecheck] at h
    cases h1 : Expression.typecheck m
        { o := add_formals ((tenv.o.enterscope).addid Sym.self Sym.SELF_TYPE) mth.formals,
          c := tenv.c } ct mth.expr with
    | error e => simp [h1] at h
    | ok p =>
      obtain ⟨t1, x1, d1⟩ := p
      have a1 := expr_typecheck_annotated m _ _ _ _ _ _ h1
      simp only [h1, Except.ok.injEq, Prod.mk.injEq] at h
      obtain ⟨-, rfl, rfl, -⟩ := h
      obtain ⟨s1, hs1⟩ := add_formals_cons mth.formals [(Sym.self, Sym.SELF_TYPE)] tenv.o
      have hs2 : add_formals ((tenv.o.enterscope).addid Sym.self Sym.SELF_TYPE) mth.formals =
          s1 :: tenv.o := hs1
      refine ⟨?_, a1⟩
      rw [hs2]
      rfl
  | attr a =>
    simp only [Feature.typecheck, attr_class.typecheck] at h
    cases h1 : Expression.typecheck m tenv ct a.init with
    | error e => simp [h1] at h
    | ok p =>
      obtain ⟨t1, x1, d1⟩ := p
      have a1 := expr_typecheck_annotated m _ _ _ _ _ _ h1
      simp only [h1] at h
      split_ifs at h
      · cases hs : is_subclass m t1 a.type_decl tenv with
        | error e => simp [hs] at h
        | ok b =>
          cases b <;>
          · simp only [hs, Except.ok.injEq, Prod.mk.injEq] at h
            obtain ⟨-, rfl, rfl, -⟩ := h
            exact ⟨rfl, a1⟩
      · simp only [Except.ok.injEq, Prod.mk.injEq] at h
        obtain ⟨-, rfl, rfl, -⟩ := h
        exact ⟨rfl, a1⟩

theorem check_features_annotated (m : ClassMap) (tenv : type_env) :
    ∀ (fs : List Feature) (ct : ClassTable) (fs1 : List Feature) (d : ClassTable),
      check_features m tenv ct fs = .ok (fs1, d) → ∀ f ∈ fs1, f.annotated tenv.o = true := by
  intro fs
  induction fs with
  | nil =>
    intro ct fs1 d h
    simp only [check_features, Except.ok.injEq, Prod.mk.injEq] at h
    rw [← h.1]
    simp
  | cons f rest ih =>
    intro ct fs1 d h
    simp only [check_features] at h
    cases h1 : f.typecheck m tenv ct with
    | error e => simp [h1] at h
    | ok p =>
      obtain ⟨t1, f1, tenv1, d1⟩ := p
      obtain ⟨he, ha⟩ := feature_typecheck_annotated m tenv ct f h1
      subst he
      simp only [h1] at h
      cases h2 : check_features m tenv1 d1 rest with
      | error e => simp [h2] at h
      | ok p2 =>
        obtain ⟨rest1, d2⟩ := p2
        simp only [h2, Except.ok.injEq, Prod.mk.injEq] at h
        rw [← h.1]
        intro g hg
        rcases List.mem_cons.mp hg with hg | hg
        · rw [hg]
          exact ha
        · exact ih d1 rest1 d2 h2 g hg

/-- C11, counterexample: for the class `Main` with the methods
`f() : Int { (new IO).in_int() }` and `g() : Object { y <- 1 }` (`y` not
declared), the constructor reports nothing and `check` returns; afterwards the
type slots of the dispatch node, of its receiver `new IO` and of the
right-hand side `1` of the assignment are still not set. -/
theorem check_leaves_slots_unset :
    Validated 0 [stub_class] (single_map stub_class) ∧
      class__class.check (single_map stub_class) no_errors stub_class =
        .ok ({ line_number := 1, name := "Main", parent := "Object",
               features :=
                 [.method ⟨2, "f", [], "Int",
                    .dispatch 2 none (.new_ 2 none Sym.IO) Sym.in_int []⟩,
                  .method ⟨3, "g", [], "Object",
                    .assign 3 (some Sym.Object) "y" (.int_const 3 none "1")⟩],
               filename := "f.cl" },
          { semant_errors := 1,
            error_stream := [{ loc := some ("f.cl", 3),
                               text := "Assignment to undeclared variable y.\n" }] }) :=
  ⟨⟨by decide, ⟨_, rfl, rfl⟩⟩, rfl⟩

/-- C11, amended: after `class__class::check` has returned for a class
(whether or not it reported errors), in every attribute initialiser and every
method body of the class the `type` slot is set in each node that is reached
without passing a static dispatch, dispatch, loop, case or let node and
without passing the right-hand side of an assignment to an identifier that is
not bound; every visit of a node of those five kinds returns `Object` and
leaves the node as it was (slot not written, nothing below it visited,
nothing reported). -/
theorem check_annotates (m : ClassMap) (ct : ClassTable) (this : Class_) {c1 : Class_}
    {ct1 : ClassTable} (h : class__class.check m ct this = .ok (c1, ct1)) :
    (∃ tenv ct0,
        build_initial_obj_env m { o := SymbolTable.enterscope [], c := this } ct =
          .ok (tenv, ct0) ∧
        ∀ f ∈ c1.features, f.annotated tenv.o = true) ∧
      ∀ (tenv : type_env) (d : ClassTable) (e : Expression), e.is_stub = true →
        Expression.typecheck m tenv d e = .ok (Sym.Object, e, d) := by
  constructor
  · simp only [class__class.check] at h
    cases h1 : build_initial_obj_env m { o := SymbolTable.enterscope [], c := this } ct with
    | error e => simp [h1] at h
    | ok p =>
      obtain ⟨tenv, ct0⟩ := p
      simp only [h1] at h
      cases h2 : check_features m tenv ct0 tenv.c.features with
      | error e => simp [h2] at h
      | ok p2 =>
        obtain ⟨fs1, d⟩ := p2
        simp only [h2, Except.ok.injEq, Prod.mk.injEq] at h
        refine ⟨tenv, ct0, rfl, ?_⟩
        rw [← h.1]
        exact check_features_annotated m tenv _ _ _ _ h2
  · intro tenv d e he
    cases e <;> simp [Expression.is_stub] at he <;> simp only [Expression.typecheck]

/-- C11, witness: the check of the first class of `type_error_classes`, which
reports two errors, leaves the initialiser `1 + "s"` annotated. -/
theorem check_annotates_witness :
    (∃ tenv ct0,
        build_initial_obj_env (install_basic_classes 0 [] ++ entries type_error_classes)
            { o := SymbolTable.enterscope [],
              c := { line_number := 1, name := "Main", parent := "Object",
                     features :=
                       [.attr ⟨2, "x", "Int",
                          .plus 2 none (.int_const 2 none "1") (.string_const 2 none "s")⟩],
                     filename := "f.cl" } } no_errors =
          .ok (tenv, ct0) ∧
        ∀ f ∈ [Feature.attr ⟨2, "x", "Int",
                .plus 2 (some Sym.Object) (.int_const 2 (some Sym.Int) "1")
                  (.string_const 2 (some Sym.Str) "s")⟩],
          f.annotated tenv.o = true) ∧
      ∀ (tenv : type_env) (d : ClassTable) (e : Expression), e.is_stub = true →
        Expression.typecheck (install_basic_classes 0 [] ++ entries type_error_classes) tenv d e =
          .ok (Sym.Object, e, d) :=
  check_annotates (install_basic_classes 0 [] ++ entries type_error_classes) no_errors
    { line_number := 1, name := "Main", parent := "Object",
      features :=
        [.attr ⟨2, "x", "Int", .plus 2 none (.int_const 2 none "1") (.string_const 2 none "s")⟩],
      filename := "f.cl" }
    (show class__class.check (install_basic_classes 0 [] ++ entries type_error_classes) no_errors
        { line_number := 1, name := "Main", parent := "Object",
          features :=
            [.attr ⟨2, "x", "Int",
               .plus 2 none (.int_const 2 none "1") (.string_const 2 none "s")⟩],
          filename := "f.cl" } =
      .ok ({ line_number := 1, name := "Main", parent := "Object",
             features :=
               [.attr ⟨2, "x", "Int",
                  .plus 2 (some Sym.Object) (.int_const 2 (some Sym.Int) "1")
                    (.string_const 2 (some Sym.Str) "s")⟩],
             filename := "f.cl" },
        { semant_errors := 2,
          error_stream :=
            [{ loc := some ("f.cl", 2), text := "non-Int arguments: Int + String\n" },
             { loc := some ("f.cl", 2),
               text := "Inferred type Object of initialization of attribute a does not conform to declared type Int.\n" }] })
      from rfl)

/-! ## The initial object environment -/

theorem add_attributes_ne_nil :
    ∀ (fs : List Feature) (o : SymbolTable), o ≠ [] → add_attributes o fs ≠ [] := by
  intro fs
  induction fs with
  | nil => exact fun o ho => ho
  | cons f rest ih =>
    intro o ho
    cases f with
    | method mth => exact ih o ho
    | attr a => exact ih _ (addid_ne_nil ho _ _)

/-- The attributes of one class are added: when every declaration of `x` among
them has the type `T`, a binding of `x` to `T` stays, an environment without
binding of `x` gets none other than `T`, and a declaration of `x` binds it. -/
theorem add_attributes_lookup (x T : Symbol) :
    ∀ (fs : List Feature) (o : SymbolTable), o ≠ [] →
      (∀ a, Feature.attr a ∈ fs → a.name = x → a.type_decl = T) →
      (o.lookup x = none ∨ o.lookup x = some T) →
      ((add_attributes o fs).lookup x = none ∨ (add_attributes o fs).lookup x = some T) ∧
        (o.lookup x = some T ∨ (∃ a, Feature.attr a ∈ fs ∧ a.name = x) →
          (add_attributes o fs).lookup x = some T) := by
  intro fs
  induction fs with
  | nil =>
    intro o _ _ hP
    refine ⟨hP, ?_⟩
    rintro (h | ⟨a, ha, -⟩)
    · exact h
    · simp at ha
  | cons f rest ih =>
    intro o ho hT hP
    have hT1 : ∀ a, Feature.attr a ∈ rest → a.name = x → a.type_decl = T :=
      fun a ha => hT a (List.mem_cons_of_mem _ ha)
    cases f with
    | method mth =>
      obtain ⟨i1, i2⟩ := ih o ho hT1 hP
      refine ⟨i1, ?_⟩
      rintro (h | ⟨a, ha, hx⟩)
      · exact i2 (Or.inl h)
      · simp only [List.mem_cons, reduceCtorEq, false_or] at ha
        exact i2 (Or.inr ⟨a, ha, hx⟩)
    | attr b =>
      have hl := lookup_addid ho b.name b.type_decl x
      have hP1 : (o.addid b.name b.type_decl).lookup x = none ∨
          (o.addid b.name b.type_decl).lookup x = some T := by
        rw [hl]
        split_ifs with hb
        · right
          rw [hT b (List.mem_cons_self _ _) hb]
        · exact hP
      obtain ⟨i1, i2⟩ := ih _ (addid_ne_nil ho _ _) hT1 hP1
      refine ⟨i1, ?_⟩
      rintro (h | ⟨a, ha, hx⟩)
      · apply i2
        left
        rw [hl]
        split_ifs with hb
        · rw [hT b (List.mem_cons_self _ _) hb]
        · exact h
      · rcases List.mem_cons.mp ha with ha | ha
        · have hab : a = b := by
            cases ha
            rfl
          subst hab
          apply i2
          left
          rw [hl, if_pos hx, hT a (List.mem_cons_self _ _) hx]
        · exact i2 (Or.inr ⟨a, ha, hx⟩)

/-- The walk of `build_initial_obj_env` over the superclasses, along a chain
of parents: it returns, and the binding of `x` it leaves is the type `T` of
the inherited declarations of `x` when they all carry that type. -/
theorem add_inherited_chain {m : ClassMap} (wf : WellFormed m) (x T : Symbol) {k : Symbol}
    {l : List Symbol} (h : IsChain m k l) :
    ∀ (fuel : Nat) (o : SymbolTable), l.length ≤ fuel → o ≠ [] →
      (∀ n A a, m.nth_parent n k = some A → Feature.attr a ∈ A.features → a.name = x →
        a.type_decl = T) →
      (o.lookup x = none ∨ o.lookup x = some T) →
      ∃ o1, add_inherited m fuel (m.find k) o = .ok o1 ∧ o1 ≠ [] ∧
        (o1.lookup x = none ∨ o1.lookup x = some T) ∧
        (o.lookup x = some T ∨
            (∃ n A a, m.nth_parent n k = some A ∧ Feature.attr a ∈ A.features ∧ a.name = x) →
          o1.lookup x = some T) := by
  induction h with
  | object ho =>
    intro fuel o hfuel hne hT hP
    obtain ⟨ob, hob, hp⟩ := wf.object
    cases fuel with
    | zero => simp at hfuel
    | succ n =>
      have hset := add_attributes_lookup x T ob.features o hne
        (fun a ha hx => hT 0 ob a (by simpa [ClassMap.nth_parent] using hob) ha hx) hP
      rw [hob]
      refine ⟨add_attributes o ob.features, ?_, add_attributes_ne_nil _ _ hne, hset.1, ?_⟩
      · simp only [add_inherited, hp, wf.no_class]
      · rintro (h | ⟨j, A, a, hj, ha, hx⟩)
        · exact hset.2 (Or.inl h)
        · cases j with
          | zero =>
            simp only [ClassMap.nth_parent, hob, Option.some.injEq] at hj
            subst hj
            exact hset.2 (Or.inr ⟨a, ha, hx⟩)
          | succ j =>
            simp only [ClassMap.nth_parent, hob, hp, nth_parent_of_find_none wf.no_class] at hj
            cases hj
  | @step k c l _ hf _ ih =>
    intro fuel o hfuel hne hT hP
    cases fuel with
    | zero => simp at hfuel
    | succ n =>
      have hn : l.length ≤ n := by
        simp only [List.length_cons] at hfuel
        omega
      have hset := add_attributes_lookup x T c.features o hne
        (fun a ha hx => hT 0 c a (by simpa [ClassMap.nth_parent] using hf) ha hx) hP
      obtain ⟨o1, h1, h2, h3, h4⟩ := ih n (add_attributes o c.features) hn
        (add_attributes_ne_nil _ _ hne)
        (fun j A a hj ha hx => hT (j + 1) A a (by simp only [ClassMap.nth_parent, hf, hj]) ha hx)
        hset.1
      rw [hf]
      refine ⟨o1, by simpa only [add_inherited] using h1, h2, h3, ?_⟩
      rintro (h | ⟨j, A, a, hj, ha, hx⟩)
      · exact h4 (Or.inl (hset.2 (Or.inl h)))
      · cases j with
        | zero =>
          simp only [ClassMap.nth_parent, hf, Option.some.injEq] at hj
          subst hj
          exact h4 (Or.inl (hset.2 (Or.inr ⟨a, ha, hx⟩)))
        | succ j =>
          simp only [ClassMap.nth_parent, hf] at hj
          exact h4 (Or.inr ⟨j, A, a, hj, ha, hx⟩)

theorem add_own_attributes_append :
    ∀ (l1 l2 : List Feature) (tenv : type_env) (ct : ClassTable),
      add_own_attributes tenv ct (l1 ++ l2) =
        add_own_attributes (add_own_attributes tenv ct l1).1 (add_own_attributes tenv ct l1).2
          l2 := by
  intro l1
  induction l1 with
  | nil =>
    intro l2 tenv ct
    rfl
  | cons f rest ih =>
    intro l2 tenv ct
    cases f with
    | method mth =>
      simp only [List.cons_append, add_own_attributes]
      exact ih l2 tenv ct
    | attr a =>
      simp only [List.cons_append, add_own_attributes]
      cases hl : tenv.o.lookup a.name with
      | some t => exact ih l2 tenv _
      | none => exact ih l2 _ ct

/-- The attributes of the class itself never replace a binding. -/
theorem add_own_attributes_keeps (x T : Symbol) :
    ∀ (fs : List Feature) (tenv : type_env) (ct : ClassTable), tenv.o ≠ [] →
      tenv.o.lookup x = some T →
      (add_own_attributes tenv ct fs).1.c = tenv.c ∧
        (add_own_attributes tenv ct fs).1.o ≠ [] ∧
        (add_own_attributes tenv ct fs).1.o.lookup x = some T := by
  intro fs
  induction fs with
  | nil =>
    intro tenv ct hne hx
    exact ⟨rfl, hne, hx⟩
  | cons f rest ih =>
    intro tenv ct hne hx
    cases f with
    | method mth =>
      simp only [add_own_attributes]
      exact ih tenv ct hne hx
    | attr a =>
      simp only [add_own_attributes]
      cases hl : tenv.o.lookup a.name with
      | some t => exact ih tenv _ hne hx
      | none =>
        have hne1 : a.name ≠ x := by
          intro he
          rw [he, hx] at hl
          cases hl
        have := ih { tenv with o := tenv.o.addid a.name a.type_decl } ct
          (addid_ne_nil hne _ _) (by rw [lookup_addid hne, if_neg hne1]; exact hx)
        exact this

theorem IsChain.parent_chain {m : ClassMap} {k : Symbol} {l : List Symbol}
    (h : IsChain m k l) {c : Class_} (hf : m.find k = some c) :
    k = Sym.Object ∨ ∃ l1, IsChain m c.parent l1 := by
  cases h with
  | object _ => exact Or.inl rfl
  | step _ hf1 hc =>
    rw [hf] at hf1
    cases hf1
    exact Or.inr ⟨_, hc⟩

/-- C12, counterexample: `x : Int` in `G`, `x : String` in `A` (which inherits
`G`) and `x : Bool` in `B` (which inherits `A`). The constructor reports
nothing; the ancestor `A` of `B` declares `x : String`; `build_initial_obj_env`
for `B` reports one error for the declaration in `B`, and `x` then resolves to
`Int`, the type declared in `G`, not to the type declared in `A`. -/
theorem inherited_attribute_not_nearest :
    Validated 0 shadow_classes (install_basic_classes 0 [] ++ entries shadow_classes) ∧
      ClassMap.nth_parent (install_basic_classes 0 [] ++ entries shadow_classes) 0
          (attr_x_class 9 "B" "A" Sym.Bool).parent = some (attr_x_class 6 "A" "G" Sym.Str) ∧
      (attr_x_class 6 "A" "G" Sym.Str).features =
        [.attr ⟨7, "x", Sym.Str, .no_expr 7 none⟩] ∧
      build_initial_obj_env (install_basic_classes 0 [] ++ entries shadow_classes)
          { o := SymbolTable.enterscope [], c := attr_x_class 9 "B" "A" Sym.Bool } no_errors =
        .ok ({ o := [[("x", Sym.Int), ("x", Sym.Str)]], c := attr_x_class 9 "B" "A" Sym.Bool },
          { semant_errors := 1,
            error_stream :=
              [{ loc := some ("f.cl", 10),
                 text := "Attribute x is already defined either in the same class or in a superclass.\n" }] }) ∧
      SymbolTable.lookup [[("x", Sym.Int), ("x", Sym.Str)]] "x" = some Sym.Int :=
  ⟨⟨by decide, ⟨_, rfl, rfl⟩⟩, rfl, rfl, rfl, rfl⟩

/-- C12, amended: on a validated class table, let the registered class `B`
declare an attribute `a` (its features are `pre`, then `a`, then `post`) whose
name is also declared, with type `T`, by an ancestor `A` of `B`, and let every
declaration of that name in an ancestor of `B` carry the type `T`. Then
`build_initial_obj_env` for `B` returns; when it comes to the declaration `a`
the name is bound to `T`, the step for `a` reports exactly one error and
leaves the environment as it is, and in the environment that
`build_initial_obj_env` leaves the name still resolves to `T`. -/
theorem build_initial_obj_env_redeclared {ln : Nat} {classes : List Class_} {m : ClassMap}
    (hv : Validated ln classes m) {B : Class_} (hB : m.find B.name = some B) (ct : ClassTable)
    {pre post : List Feature} {a : attr_class} (hfeat : B.features = pre ++ Feature.attr a :: post)
    {n : Nat} {A : Class_} {a0 : attr_class} (hA : m.nth_parent n B.parent = some A)
    (ha0 : Feature.attr a0 ∈ A.features) (hname : a0.name = a.name)
    (hsame : ∀ n1 A1 a1, m.nth_parent n1 B.parent = some A1 → Feature.attr a1 ∈ A1.features →
      a1.name = a.name → a1.type_decl = a0.type_decl) :
    ∃ o tenv1 ct1 tenv2 ct2,
      add_inherited m (m.length + 1) (m.find B.parent) (SymbolTable.enterscope []) = .ok o ∧
      add_own_attributes { o := o, c := B } ct pre = (tenv1, ct1) ∧
      tenv1.o.lookup a.name = some a0.type_decl ∧
      add_own_attributes tenv1 ct1 [Feature.attr a] =
        (tenv1,
          { semant_errors := ct1.semant_errors + 1,
            error_stream := ct1.error_stream ++
              [{ loc := some (B.filename, a.line_number),
                 text := "Attribute " ++ a.name ++ " is already defined "
                   ++ "either in the same class or in a superclass.\n" }] }) ∧
      add_own_attributes tenv1
          { semant_errors := ct1.semant_errors + 1,
            error_stream := ct1.error_stream ++
              [{ loc := some (B.filename, a.line_number),
                 text := "Attribute " ++ a.name ++ " is already defined "
                   ++ "either in the same class or in a superclass.\n" }] } post =
        (tenv2, ct2) ∧
      build_initial_obj_env m { o := SymbolTable.enterscope [], c := B } ct = .ok (tenv2, ct2) ∧
      tenv2.o.lookup a.name = some a0.type_decl := by
  have wf := hv.wellFormed
  have hchain : ∃ l, IsChain m B.parent l := by
    obtain ⟨l, hl⟩ := wf.chain _ _ hB
    rcases hl.parent_chain hB with hobj | h
    · exfalso
      obtain ⟨ob, hob, hp⟩ := wf.object
      rw [← hobj, hB] at hob
      cases hob
      rw [hp, nth_parent_of_find_none wf.no_class] at hA
      cases hA
    · exact h
  obtain ⟨l, hl⟩ := hchain
  have hne : SymbolTable.enterscope [] ≠ [] := by simp [SymbolTable.enterscope]
  obtain ⟨o, ho, hone, -, hbound⟩ := add_inherited_chain wf a.name a0.type_decl hl
    (m.length + 1) (SymbolTable.enterscope []) (Nat.le_succ_of_le hl.length_le) hne hsame
    (Or.inl rfl)
  have hT : o.lookup a.name = some a0.type_decl := hbound (Or.inr ⟨n, A, a0, hA, ha0, hname⟩)
  obtain ⟨k1, k2, k3⟩ := add_own_attributes_keeps a.name a0.type_decl pre { o := o, c := B } ct
    hone hT
  have hstep : add_own_attributes (add_own_attributes { o := o, c := B } ct pre).1
      (add_own_attributes { o := o, c := B } ct pre).2 [Feature.attr a] =
      ((add_own_attributes { o := o, c := B } ct pre).1,
        { semant_errors := (add_own_attributes { o := o, c := B } ct pre).2.semant_errors + 1,
          error_stream := (add_own_attributes { o := o, c := B } ct pre).2.error_stream ++
            [{ loc := some (B.filename, a.line_number),
               text := "Attribute " ++ a.name ++ " is already defined "
                 ++ "either in the same class or in a superclass.\n" }] }) := by
    simp only [add_own_attributes, k3, k1, ClassTable.semant_error_node]
  obtain ⟨q1, q2, q3⟩ := add_own_attributes_keeps a.name a0.type_decl post
    (add_own_attributes { o := o, c := B } ct pre).1
    { semant_errors := (add_own_attributes { o := o, c := B } ct pre).2.semant_errors + 1,
      error_stream := (add_own_attributes { o := o, c := B } ct pre).2.error_stream ++
        [{ loc := some (B.filename, a.line_number),
           text := "Attribute " ++ a.name ++ " is already defined "
             ++ "either in the same class or in a superclass.\n" }] } k2 k3
  refine ⟨o, _, _, _, _, ho, rfl, k3, hstep, rfl, ?_, q3⟩
  simp only [build_initial_obj_env, ho, hfeat]
  rw [add_own_attributes_append]
  simp only [add_own_attributes, k3, k1, ClassTable.semant_error_node]

/-- C12, witness: the scenario of the specification, `x : Int` in `A` and
`x : Bool` in `B`, which inherits `A`: `build_initial_obj_env` for `B` returns
with one error, and `x` resolves to `Int`. -/
theorem build_initial_obj_env_redeclared_witness :
    ∃ tenv2 ct2,
      build_initial_obj_env (install_basic_classes 0 [] ++ entries redeclare_classes)
          { o := SymbolTable.enterscope [], c := attr_x_class 6 "B" "A" Sym.Bool } no_errors =
        .ok (tenv2, ct2) ∧
      tenv2.o.lookup "x" = some Sym.Int ∧ ct2.semant_errors = 1 := by
  obtain ⟨o, tenv1, ct1, tenv2, ct2, -, -, -, -, -, h6, h7⟩ :=
    build_initial_obj_env_redeclared
      (show Validated 0 redeclare_classes
        (install_basic_classes 0 [] ++ entries redeclare_classes) from
        ⟨by decide, ⟨_, rfl, rfl⟩⟩)
      (show ClassMap.find (install_basic_classes 0 [] ++ entries redeclare_classes)
        (attr_x_class 6 "B" "A" Sym.Bool).name = some (attr_x_class 6 "B" "A" Sym.Bool) from rfl)
      no_errors
      (show (attr_x_class 6 "B" "A" Sym.Bool).features =
        [] ++ Feature.attr ⟨7, "x", Sym.Bool, .no_expr 7 none⟩ :: [] from rfl)
      (show ClassMap.nth_parent (install_basic_classes 0 [] ++ entries redeclare_classes) 0
        (attr_x_class 6 "B" "A" Sym.Bool).parent = some (attr_x_class 3 "A" "Object" Sym.Int)
        from rfl)
      (show Feature.attr ⟨4, "x", Sym.Int, .no_expr 4 none⟩ ∈
        (attr_x_class 3 "A" "Object" Sym.Int).features from List.mem_cons_self _ _)
      rfl
      (by
        intro n1 A1 a1 h1 h2 h3
        cases n1 with
        | zero =>
          have e1 : A1 = attr_x_class 3 "A" "Object" Sym.Int :=
            (Option.some.inj h1).symm
          subst e1
          have e2 : Feature.attr a1 = Feature.attr ⟨4, "x", Sym.Int, .no_expr 4 none⟩ :=
            List.mem_singleton.mp h2
          cases e2
          rfl
        | succ n2 =>
          cases n2 with
          | zero =>
            have e1 : A1 = Object_class 0 := (Option.some.inj h1).symm
            subst e1
            simp [Object_class] at h2
          | succ n3 =>
            have h1a : ClassMap.nth_parent
                (install_basic_classes 0 [] ++ entries redeclare_classes) n3 Sym.No_class =
                some A1 := h1
            rw [nth_parent_of_find_none (by rfl)] at h1a
            cases h1a)
  refine ⟨tenv2, ct2, h6, h7, ?_⟩
  have e : (Except.ok (tenv2, ct2) : Except Fault (type_env × ClassTable)) =
      .ok ({ o := [[("x", Sym.Int)]], c := attr_x_class 6 "B" "A" Sym.Bool },
        { semant_errors := 1,
          error_stream :=
            [{ loc := some ("f.cl", 7),
               text := "Attribute x is already defined either in the same class or in a superclass.\n" }] }) :=
    h6.symm.trans rfl
  cases e
  rfl

/-! ## The method environment -/

theorem MethodEnv.find_set (env : MethodEnv) (key key1 : Symbol × Symbol) (v : method_class) :
    (env.set key v).find key1 = if key = key1 then some v else env.find key1 := by
  induction env with
  | nil => simp [MethodEnv.set, MethodEnv.find]
  | cons p rest ih =>
    obtain ⟨k, v0⟩ := p
    simp only [MethodEnv.set]
    by_cases hk : k = key
    · subst hk
      simp only [if_true, MethodEnv.find]
      split_ifs <;> rfl
    · simp only [hk, if_false, MethodEnv.find, ih]
      by_cases hk1 : k = key1
      · subst hk1
        have : ¬ key = k := fun e => hk e.symm
        simp [this]
      · simp [hk1]

theorem last_method_some {method_name : Symbol} :
    ∀ {fs : List Feature} {mth : method_class}, last_method method_name fs = some mth →
      Feature.method mth ∈ fs ∧ mth.name = method_name := by
  intro fs
  induction fs with
  | nil =>
    intro mth h
    simp [last_method] at h
  | cons f rest ih =>
    intro mth h
    cases f with
    | attr a =>
      simp only [last_method] at h
      exact ⟨List.mem_cons_of_mem _ (ih h).1, (ih h).2⟩
    | method m0 =>
      simp only [last_method] at h
      cases hr : last_method method_name rest with
      | some later =>
        simp only [hr, Option.some.injEq] at h
        subst h
        exact ⟨List.mem_cons_of_mem _ (ih hr).1, (ih hr).2⟩
      | none =>
        simp only [hr] at h
        split_ifs at h with hn
        simp only [Option.some.injEq] at h
        subst h
        exact ⟨List.mem_cons_self _ _, hn⟩

theorem last_method_none {method_name : Symbol} :
    ∀ {fs : List Feature}, last_method method_name fs = none →
      ∀ mth, Feature.method mth ∈ fs → mth.name ≠ method_name := by
  intro fs
  induction fs with
  | nil =>
    intro _ mth h
    simp at h
  | cons f rest ih =>
    intro h mth hm
    cases f with
    | attr a =>
      simp only [last_method] at h
      simp only [List.mem_cons, reduceCtorEq, false_or] at hm
      exact ih h mth hm
    | method m0 =>
      simp only [last_method] at h
      cases hr : last_method method_name rest with
      | some later => simp [hr] at h
      | none =>
        simp only [hr] at h
        rcases List.mem_cons.mp hm with e | e
        · cases e
          intro hn
          simp [hn] at h
        · exact ih hr mth e

theorem find_add_methods (cls : Class_) (k n : Symbol) :
    ∀ (fs : List Feature) (env : MethodEnv),
      (add_methods cls env fs).find (k, n) =
        if cls.name = k then
          match last_method n fs with
          | some mth => some mth
          | none => env.find (k, n)
        else env.find (k, n) := by
  intro fs
  induction fs with
  | nil =>
    intro env
    simp [add_methods, last_method]
  | cons f rest ih =>
    intro env
    cases f with
    | attr a =>
      simp only [add_methods, last_method]
      exact ih env
    | method m0 =>
      simp only [add_methods, last_method]
      rw [ih, MethodEnv.find_set]
      by_cases hc : cls.name = k
      · simp only [hc, if_true, Prod.mk.injEq, true_and]
        cases hr : last_method n rest with
        | some later => rfl
        | none =>
          simp only
          split_ifs <;> rfl
      · simp only [hc, if_false, Prod.mk.injEq, false_and]

/-- The method environment built from a registry whose classes stand under
their own, distinct names, on top of `env`: the entry for a class and a method
name is the last method of that name which the class declares. -/
theorem find_build_method_env_loop (k n : Symbol) :
    ∀ (m : ClassMap) (env : MethodEnv), (∀ p ∈ m, p.2.name = p.1) → (m.map Prod.fst).Nodup →
      (build_method_env_loop env m).find (k, n) =
        match m.find k with
        | some c =>
          (match last_method n c.features with
           | some mth => some mth
           | none => env.find (k, n))
        | none => env.find (k, n) := by
  intro m
  induction m with
  | nil =>
    intro env _ _
    rfl
  | cons p rest ih =>
    intro env hnames hnd
    obtain ⟨k1, c1⟩ := p
    have hc1 : c1.name = k1 := hnames (k1, c1) (List.mem_cons_self _ _)
    simp only [List.map_cons, List.nodup_cons] at hnd
    simp only [build_method_env_loop]
    rw [ih _ (fun q hq => hnames q (List.mem_cons_of_mem _ hq)) hnd.2, find_add_methods, hc1]
    by_cases hk : k1 = k
    · subst hk
      have hrest : ClassMap.find rest k1 = none := ClassMap.find_none_of_not_mem hnd.1
      simp only [hrest, ClassMap.find, if_true]
    · simp only [ClassMap.find, hk, if_false]

/-- In the registry that a run of the constructor without error leaves, every
class stands under its own name and no name stands twice. -/
theorem ClassTable_ok_keys {ln : Nat} {classes : List Class_} {m : ClassMap} {ct : ClassTable}
    (hrun : ClassTable.ClassTable [] ln classes = .ok (m, ct)) (h0 : ct.errors = 0) :
    (∀ p ∈ m, p.2.name = p.1) ∧ (m.map Prod.fst).Nodup := by
  obtain ⟨hm, -, hfree, hnd, -, -⟩ := ClassTable_ok_inv hrun h0
  subst hm
  constructor
  · intro p hp
    rcases List.mem_append.mp hp with hb | he
    · rw [install_basic_classes_nil] at hb
      simp only [List.mem_cons, List.mem_singleton, List.not_mem_nil, or_false] at hb
      rcases hb with rfl | rfl | rfl | rfl | rfl <;> rfl
    · obtain ⟨k, c⟩ := p
      exact (mem_entries he).1
  · rw [List.map_append, map_fst_entries, map_fst_install_basic_classes]
    refine List.nodup_append.mpr ⟨by decide, hnd, ?_⟩
    intro x hx1 hx2
    obtain ⟨c, hc, rfl⟩ := List.mem_map.mp hx2
    have := hfree c hc
    rw [← map_fst_install_basic_classes ln] at hx1
    exact (ClassMap.find_ne_none_iff.mpr hx1) this

/-- The walk of `lookup_method` along a chain of parents, for a method
environment that holds for each registered class the last method of each name
that it declares: the walk returns the entry of the nearest class that has
one. -/
theorem lookup_method_loop_chain {m : ClassMap} (wf : WellFormed m) {menv : MethodEnv}
    (n : Symbol)
    (hmenv : ∀ k c, m.find k = some c → menv.find (k, n) = last_method n c.features)
    {k : Symbol} {l : List Symbol} (h : IsChain m k l) :
    ∀ fuel, l.length ≤ fuel →
      ∃ r, lookup_method_loop m menv n fuel (m.find k) = .ok r ∧
        (r = none → ∀ j K, m.nth_parent j k = some K → last_method n K.features = none) ∧
        (∀ mth, r = some mth →
          ∃ j K, m.nth_parent j k = some K ∧ last_method n K.features = some mth ∧
            ∀ j1 K1, j1 < j → m.nth_parent j1 k = some K1 →
              last_method n K1.features = none) := by
  induction h with
  | object ho =>
    intro fuel hfuel
    obtain ⟨ob, hob, hp⟩ := wf.object
    cases fuel with
    | zero => simp at hfuel
    | succ f =>
      rw [hob]
      simp only [lookup_method_loop, wf.names _ _ hob, hmenv _ _ hob]
      cases hl : last_method n ob.features with
      | some mth =>
        refine ⟨some mth, rfl, (fun h => by cases h), ?_⟩
        intro mth1 he
        cases he
        exact ⟨0, ob, hob, hl, fun j1 K1 hj => absurd hj (Nat.not_lt_zero _)⟩
      | none =>
        refine ⟨none, ?_, ?_, (fun mth he => by cases he)⟩
        · simp only [hp, wf.no_class]
          cases f <;> rfl
        · intro _ j K hj
          cases j with
          | zero =>
            simp only [ClassMap.nth_parent, hob, Option.some.injEq] at hj
            subst hj
            exact hl
          | succ j =>
            simp only [ClassMap.nth_parent, hob, hp, nth_parent_of_find_none wf.no_class] at hj
            cases hj
  | @step k c l _ hf _ ih =>
    intro fuel hfuel
    cases fuel with
    | zero => simp at hfuel
    | succ f =>
      have hn : l.length ≤ f := by
        simp only [List.length_cons] at hfuel
        omega
      rw [hf]
      simp only [lookup_method_loop, wf.names _ _ hf, hmenv _ _ hf]
      cases hl : last_method n c.features with
      | some mth =>
        refine ⟨some mth, rfl, (fun h => by cases h), ?_⟩
        intro mth1 he
        cases he
        exact ⟨0, c, hf, hl, fun j1 K1 hj => absurd hj (Nat.not_lt_zero _)⟩
      | none =>
        obtain ⟨r, hr, hnone, hsome⟩ := ih f hn
        refine ⟨r, hr, ?_, ?_⟩
        · intro he j K hj
          cases j with
          | zero =>
            simp only [ClassMap.nth_parent, hf, Option.some.injEq] at hj
            subst hj
            exact hl
          | succ j =>
            simp only [ClassMap.nth_parent, hf] at hj
            exact hnone he j K hj
        · intro mth he
          obtain ⟨j, K, hj, hK, hmin⟩ := hsome mth he
          refine ⟨j + 1, K, by simp only [ClassMap.nth_parent, hf, hj], hK, ?_⟩
          intro j1 K1 hlt hj1
          cases j1 with
          | zero =>
            simp only [ClassMap.nth_parent, hf, Option.some.injEq] at hj1
            subst hj1
            exact hl
          | succ j1 =>
            simp only [ClassMap.nth_parent, hf] at hj1
            exact hmin j1 K1 (by omega) hj1

/-- C17: on a validated class table, with the method environment that
`build_method_env` builds in a fresh process, `lookup_method(C, f)` returns
for every registered class `C` and every method name `f`. It returns null
exactly when no class reached from `C` by following parent links (`C`
included) declares a method named `f`; and a method it returns is named `f`
and is declared directly in the nearest such class that declares a method
named `f`. -/
theorem lookup_method_resolves {ln : Nat} {classes : List Class_} {m : ClassMap}
    (hv : Validated ln classes m) {C : Symbol} (hC : m.registered C) (f : Symbol) :
    ∃ r, lookup_method m (build_method_env m []) C f = .ok r ∧
      (r = none ↔
        ∀ j K mth, m.nth_parent j C = some K → Feature.method mth ∈ K.features →
          mth.name ≠ f) ∧
      (∀ mth, r = some mth →
        ∃ j K, m.nth_parent j C = some K ∧ Feature.method mth ∈ K.features ∧ mth.name = f ∧
          ∀ j1 K1 mth1, j1 < j → m.nth_parent j1 C = some K1 →
            Feature.method mth1 ∈ K1.features → mth1.name ≠ f) := by
  have wf := hv.wellFormed
  obtain ⟨-, ct, hrun, h0⟩ := hv
  obtain ⟨hnames, hnd⟩ := ClassTable_ok_keys hrun h0
  have hmenv : ∀ k c, m.find k = some c →
      (build_method_env m []).find (k, f) = last_method f c.features := by
    intro k c hk
    unfold build_method_env
    rw [find_build_method_env_loop k f m [] hnames hnd, hk]
    dsimp only
    cases last_method f c.features <;> rfl
  obtain ⟨l, hl⟩ := wf.chain_of_registered hC
  obtain ⟨r, hr, hnone, hsome⟩ :=
    lookup_method_loop_chain wf f hmenv hl (m.length + 1) (Nat.le_succ_of_le hl.length_le)
  refine ⟨r, hr, ⟨?_, ?_⟩, ?_⟩
  · intro he j K mth hj hmem
    exact last_method_none (hnone he j K hj) mth hmem
  · intro hall
    cases hr1 : r with
    | none => rfl
    | some mth =>
      exfalso
      obtain ⟨j, K, hj, hK, -⟩ := hsome mth hr1
      exact hall j K mth hj (last_method_some hK).1 (last_method_some hK).2
  · intro mth he
    obtain ⟨j, K, hj, hK, hmin⟩ := hsome mth he
    refine ⟨j, K, hj, (last_method_some hK).1, (last_method_some hK).2, ?_⟩
    intro j1 K1 mth1 hlt hj1 hmem
    exact last_method_none (hmin j1 K1 hlt hj1) mth1 hmem

/-- C17, witness: in the sample program `Main` inherits `IO`; `lookup_method`
finds `out_int` there, and `type_name` in `Object`. -/
theorem lookup_method_resolves_witness :
    (∃ r, lookup_method sample_map (build_method_env sample_map []) "Main" Sym.out_int = .ok r ∧
      (r = none ↔
        ∀ j K mth, sample_map.nth_parent j "Main" = some K → Feature.method mth ∈ K.features →
          mth.name ≠ Sym.out_int) ∧
      (∀ mth, r = some mth →
        ∃ j K, sample_map.nth_parent j "Main" = some K ∧ Feature.method mth ∈ K.features ∧
          mth.name = Sym.out_int ∧
          ∀ j1 K1 mth1, j1 < j → sample_map.nth_parent j1 "Main" = some K1 →
            Feature.method mth1 ∈ K1.features → mth1.name ≠ Sym.out_int)) ∧
      lookup_method sample_map (build_method_env sample_map []) "Main" Sym.out_int =
        .ok (some { line_number := 0, name := Sym.out_int, formals := [⟨0, Sym.arg, Sym.Int⟩],
                    return_type := Sym.SELF_TYPE, expr := .no_expr 0 none }) ∧
      lookup_method sample_map (build_method_env sample_map []) "Main" Sym.type_name =
        .ok (some { line_number := 0, name := Sym.type_name, formals := [],
                    return_type := Sym.Str, expr := .no_expr 0 none }) :=
  ⟨lookup_method_resolves sample_validated (show sample_map.registered "Main" from ⟨_, rfl⟩)
    Sym.out_int, rfl, rfl⟩

/-! ## A second run of the analysis -/

theorem ClassMap.insert_of_find_some {m : ClassMap} {k : Symbol} {x : Class_} (c : Class_)
    (h : m.find k = some x) : m.insert k c = m := by
  simp [ClassMap.insert, h]

theorem ClassMap.find_insert_mono {m : ClassMap} {k : Symbol} {x : Class_} (k1 : Symbol)
    (c : Class_) (h : m.find k = some x) : (m.insert k1 c).find k = some x := by
  unfold ClassMap.insert
  cases m.find k1 with
  | some _ => exact h
  | none => exact ClassMap.find_append_some _ h

theorem ClassMap.find_insert_self (m : ClassMap) (k : Symbol) (c : Class_) :
    ∃ x, (m.insert k c).find k = some x := by
  cases h : m.find k with
  | some x => exact ⟨x, by rw [ClassMap.insert_of_find_some c h, h]⟩
  | none =>
    refine ⟨c, ?_⟩
    rw [ClassMap.insert_of_find_none c h, ClassMap.find_append_none _ h]
    simp [ClassMap.find]

/-- After `install_basic_classes` the five built-in names are bound, whatever
the registry held before. -/
theorem install_basic_classes_bound (ln : Nat) (m : ClassMap) :
    (∃ x, (install_basic_classes ln m).find Sym.Object = some x) ∧
    (∃ x, (install_basic_classes ln m).find Sym.IO = some x) ∧
    (∃ x, (install_basic_classes ln m).find Sym.Int = some x) ∧
    (∃ x, (install_basic_classes ln m).find Sym.Bool = some x) ∧
    (∃ x, (install_basic_classes ln m).find Sym.Str = some x) := by
  unfold install_basic_classes
  refine ⟨?_, ?_, ?_, ?_, ?_⟩
  · obtain ⟨x, hx⟩ := ClassMap.find_insert_self m Sym.Object (Object_class ln)
    exact ⟨x, ClassMap.find_insert_mono _ _ (ClassMap.find_insert_mono _ _
      (ClassMap.find_insert_mono _ _ (ClassMap.find_insert_mono _ _ hx)))⟩
  · obtain ⟨x, hx⟩ := ClassMap.find_insert_self
      (m.insert Sym.Object (Object_class ln)) Sym.IO ( IO_class ln)
    exact ⟨x, ClassMap.find_insert_mono _ _ (ClassMap.find_insert_mono _ _
      (ClassMap.find_insert_mono _ _ hx))⟩
  · obtain ⟨x, hx⟩ := ClassMap.find_insert_self
      ((m.insert Sym.Object (Object_class ln)).insert Sym.IO ( IO_class ln))
      Sym.Int (Int_class ln)
    exact ⟨x, ClassMap.find_insert_mono _ _ (ClassMap.find_insert_mono _ _ hx)⟩
  · obtain ⟨x, hx⟩ := ClassMap.find_insert_self
      (((m.insert Sym.Object (Object_class ln)).insert Sym.IO ( IO_class ln)).insert
        Sym.Int (Int_class ln))
      Sym.Bool (Bool_class ln)
    exact ⟨x, ClassMap.find_insert_mono _ _ hx⟩
  · exact ClassMap.find_insert_self _ _ _

/-- On a registry that binds the five built-in names `install_basic_classes`
changes nothing. -/
theorem install_basic_classes_idle (ln : Nat) {m : ClassMap}
    (h1 : ∃ x, m.find Sym.Object = some x) (h2 : ∃ x, m.find Sym.IO = some x)
    (h3 : ∃ x, m.find Sym.Int = some x) (h4 : ∃ x, m.find Sym.Bool = some x)
    (h5 : ∃ x, m.find Sym.Str = some x) : install_basic_classes ln m = m := by
  obtain ⟨x1, h1⟩ := h1
  obtain ⟨x2, h2⟩ := h2
  obtain ⟨x3, h3⟩ := h3
  obtain ⟨x4, h4⟩ := h4
  obtain ⟨x5, h5⟩ := h5
  unfold install_basic_classes
  rw [ClassMap.insert_of_find_some _ h1, ClassMap.insert_of_find_some _ h2,
    ClassMap.insert_of_find_some _ h3, ClassMap.insert_of_find_some _ h4,
    ClassMap.insert_of_find_some _ h5]

/-- The first loop of the constructor keeps every binding it finds. -/
theorem insert_classes_mono (ct : ClassTable) :
    ∀ (classes : List Class_) (m m1 : ClassMap) (ct1 : ClassTable) (flag : Bool),
      ClassTable.insert_classes ct m classes = (m1, ct1, flag) →
      ∀ k x, m.find k = some x → m1.find k = some x := by
  intro classes
  induction classes with
  | nil =>
    intro m m1 ct1 flag h k x hk
    simp only [ClassTable.insert_classes, Prod.mk.injEq] at h
    rw [← h.1]
    exact hk
  | cons cls rest ih =>
    intro m m1 ct1 flag h k x hk
    simp only [ClassTable.insert_classes] at h
    cases hf : m.find cls.name with
    | some c0 =>
      simp only [hf, Prod.mk.injEq] at h
      rw [← h.1]
      exact hk
    | none =>
      simp only [hf] at h
      exact ih _ _ _ _ h k x (ClassMap.find_insert_mono _ _ hk)

/-- After the first loop of the constructor the name of the first class of the
program is bound, whether the loop inserted it or found it. -/
theorem insert_classes_head (ct : ClassTable) (c : Class_) (rest : List Class_)
    {m m1 : ClassMap} {ct1 : ClassTable} {flag : Bool}
    (h : ClassTable.insert_classes ct m (c :: rest) = (m1, ct1, flag)) :
    ∃ x, m1.find c.name = some x := by
  simp only [ClassTable.insert_classes] at h
  cases hf : m.find c.name with
  | some c0 =>
    simp only [hf, Prod.mk.injEq] at h
    rw [← h.1]
    exact ⟨c0, hf⟩
  | none =>
    simp only [hf] at h
    obtain ⟨x, hx⟩ := ClassMap.find_insert_self m c.name c
    exact ⟨x, insert_classes_mono ct rest _ _ _ _ h _ _ hx⟩

/-- The registry the constructor leaves is the one its first loop leaves. -/
theorem ClassTable_registry {m0 m : ClassMap} {ln : Nat} {classes : List Class_}
    {ct : ClassTable} (h : ClassTable.ClassTable m0 ln classes = .ok (m, ct)) :
    ∃ ct1 flag,
      ClassTable.insert_classes { semant_errors := 0, error_stream := [] }
        (install_basic_classes ln m0) classes = (m, ct1, flag) := by
  simp only [ClassTable.ClassTable, ClassTable.ClassTable_fuel] at h
  rcases hi : ClassTable.insert_classes { semant_errors := 0, error_stream := [] }
      (install_basic_classes ln m0) classes with ⟨m1, ct1, flag⟩
  rw [hi] at h
  cases flag with
  | true =>
    simp only [Except.ok.injEq, Prod.mk.injEq] at h
    exact ⟨ct1, true, by rw [h.1]⟩
  | false =>
    simp only at h
    cases hM : m1.find Sym.Main with
    | none =>
      simp only [hM, Except.ok.injEq, Prod.mk.injEq] at h
      exact ⟨ct1, false, by rw [h.1]⟩
    | some _ =>
      simp only [hM] at h
      cases hh : ClassTable.check_hierarchy (m1.length + 1) m1 ct1 classes with
      | error f => simp [hh] at h
      | ok ct2 =>
        simp only [hh, Except.ok.injEq, Prod.mk.injEq] at h
        exact ⟨ct1, false, by rw [h.1]⟩

/-- The constructor on a registry that already binds the five built-in names
and the name of the first class of the program: it reports the redefinition
of that class and returns, with the registry as it found it. -/
theorem ClassTable_rerun (ln : Nat) (c : Class_) (rest : List Class_) {m : ClassMap}
    (h1 : ∃ x, m.find Sym.Object = some x) (h2 : ∃ x, m.find Sym.IO = some x)
    (h3 : ∃ x, m.find Sym.Int = some x) (h4 : ∃ x, m.find Sym.Bool = some x)
    (h5 : ∃ x, m.find Sym.Str = some x) (hc : ∃ x, m.find c.name = some x) :
    ClassTable.ClassTable m ln (c :: rest) =
      .ok (m, { semant_errors := 1,
                error_stream := [{ loc := some (c.filename, c.line_number),
                                   text := "redefinition of class " ++ c.name ++ ".\n" }] }) := by
  obtain ⟨x, hx⟩ := hc
  simp only [ClassTable.ClassTable, ClassTable.ClassTable_fuel,
    install_basic_classes_idle ln h1 h2 h3 h4 h5, ClassTable.insert_classes, hx]
  rfl

/-- The loop over the classes hands back as many classes as it was given, the
first of them with the name, the file and the line of the first one given. -/
theorem check_classes_head {m : ClassMap} {ct ct1 : ClassTable} {c : Class_}
    {rest cs : List Class_} (h : check_classes m ct (c :: rest) = .ok (cs, ct1)) :
    ∃ c1 rest1, cs = c1 :: rest1 ∧ c1.name = c.name ∧ c1.filename = c.filename ∧
      c1.line_number = c.line_number := by
  simp only [check_classes] at h
  cases hc : class__class.check m ct c with
  | error f => simp [hc] at h
  | ok p =>
    obtain ⟨c1, d⟩ := p
    simp only [hc] at h
    cases hr : check_classes m d rest with
    | error f => simp [hr] at h
    | ok q =>
      obtain ⟨rest1, d1⟩ := q
      simp only [hr, Except.ok.injEq, Prod.mk.injEq] at h
      refine ⟨c1, rest1, h.1.symm, ?_⟩
      simp only [class__class.check] at hc
      cases hb : build_initial_obj_env m { o := SymbolTable.enterscope [], c := c } ct with
      | error f => simp [hb] at hc
      | ok p2 =>
        obtain ⟨tenv, d2⟩ := p2
        simp only [hb] at hc
        cases hf : check_features m tenv d2 tenv.c.features with
        | error f => simp [hf] at hc
        | ok p3 =>
          obtain ⟨fs, d3⟩ := p3
          simp only [hf, Except.ok.injEq, Prod.mk.injEq] at hc
          rw [← hc.1]
          exact ⟨rfl, rfl, rfl⟩

/-- C21, counterexample: the first run on the class `Main` with the method
`f() : Object { self }`, in a fresh process, reports nothing and annotates the
body; the second run, on the annotated class and from the two tables the first
run left, reports "redefinition of class Main." and ends in failure. -/
theorem semant_second_run_differs :
    program_class.semant [] [] 0 [self_method_class] =
        .ok { class_map := single_map self_method_class,
              method_env := build_method_env (single_map self_method_class) [],
              classtable := no_errors,
              classes :=
                [{ line_number := 1, name := "Main", parent := "Object",
                   features :=
                     [.method ⟨2, "f", [], "Object", .object 2 (some Sym.SELF_TYPE) Sym.self⟩],
                   filename := "f.cl" }],
              halted := false } ∧
      program_class.semant (single_map self_method_class)
          (build_method_env (single_map self_method_class) []) 0
          [{ line_number := 1, name := "Main", parent := "Object",
             features :=
               [.method ⟨2, "f", [], "Object", .object 2 (some Sym.SELF_TYPE) Sym.self⟩],
             filename := "f.cl" }] =
        .ok { class_map := single_map self_method_class,
              method_env := build_method_env (single_map self_method_class) [],
              classtable :=
                { semant_errors := 1,
                  error_stream := [{ loc := some ("f.cl", 1),
                                     text := "redefinition of class Main.\n" }] },
              classes :=
                [{ line_number := 1, name := "Main", parent := "Object",
                   features :=
                     [.method ⟨2, "f", [], "Object", .object 2 (some Sym.SELF_TYPE) Sym.self⟩],
                   filename := "f.cl" }],
              halted := true } :=
  ⟨rfl, rfl⟩

/-- C21, amended: let a run of `program_class::semant` on a program whose
first class is `c` return, from whatever the two global tables held. A
further run on the classes that run left, from the tables it left, returns:
the constructor reports exactly one error, the redefinition of `c`, the run
ends in failure before the method environment is touched and before any class
is checked, and the registry, the method environment and the classes with
their annotations are as the run before left them. When the run before did
not end in failure it had reported no error, so the diagnostics differ. -/
theorem semant_second_run (m0 : ClassMap) (menv0 : MethodEnv) (ln ln1 : Nat) (c : Class_)
    (rest : List Class_) {r1 : SemantResult}
    (h1 : program_class.semant m0 menv0 ln (c :: rest) = .ok r1) :
    program_class.semant r1.class_map r1.method_env ln1 r1.classes =
        .ok { class_map := r1.class_map, method_env := r1.method_env,
              classtable :=
                { semant_errors := 1,
                  error_stream := [{ loc := some (c.filename, c.line_number),
                                     text := "redefinition of class " ++ c.name ++ ".\n" }] },
              classes := r1.classes, halted := true } ∧
      (r1.halted = false → r1.classtable.semant_errors = 0) := by
  cases hrun : ClassTable.ClassTable m0 ln (c :: rest) with
  | error f => simp [program_class.semant, hrun] at h1
  | ok p =>
    obtain ⟨m, ct⟩ := p
    obtain ⟨ct1, flag, hins⟩ := ClassTable_registry hrun
    obtain ⟨b1, b2, b3, b4, b5⟩ := install_basic_classes_bound ln m0
    have mono := insert_classes_mono _ _ _ _ _ _ hins
    have g1 : ∃ x, m.find Sym.Object = some x := b1.imp fun _ h => mono _ _ h
    have g2 : ∃ x, m.find Sym.IO = some x := b2.imp fun _ h => mono _ _ h
    have g3 : ∃ x, m.find Sym.Int = some x := b3.imp fun _ h => mono _ _ h
    have g4 : ∃ x, m.find Sym.Bool = some x := b4.imp fun _ h => mono _ _ h
    have g5 : ∃ x, m.find Sym.Str = some x := b5.imp fun _ h => mono _ _ h
    have gc : ∃ x, m.find c.name = some x := insert_classes_head _ c rest hins
    by_cases he : ct.errors = 0
    · simp only [program_class.semant, hrun, he, ne_eq, not_true_eq_false, if_false] at h1
      cases hcs : check_classes m ct (c :: rest) with
      | error f => simp [hcs] at h1
      | ok q =>
        obtain ⟨cs, ct2⟩ := q
        simp only [hcs, Except.ok.injEq] at h1
        subst h1
        obtain ⟨c1, rest1, hce, hn, hfn, hl⟩ := check_classes_head hcs
        have gc1 : ∃ x, m.find c1.name = some x := by
          rw [hn]
          exact gc
        refine ⟨?_, ?_⟩
        · simp only [hce, program_class.semant,
            ClassTable_rerun ln1 c1 rest1 g1 g2 g3 g4 g5 gc1, ClassTable.errors, hn, hfn, hl]
          rfl
        · intro h
          simpa [ClassTable.errors] using h
    · simp only [program_class.semant, hrun, he, ne_eq, not_false_eq_true, if_true,
        Except.ok.injEq] at h1
      subst h1
      refine ⟨?_, fun h => by cases h⟩
      simp only [program_class.semant, ClassTable_rerun ln1 c rest g1 g2 g3 g4 g5 gc,
        ClassTable.errors]
      rfl

/-- C21, witness: the sample program. Its first run, in a fresh process,
reports nothing; the second run reports the redefinition of `Main`. -/
theorem semant_second_run_witness :
    program_class.semant [] [] 0 sample_classes =
        .ok { class_map := sample_map, method_env := build_method_env sample_map [],
              classtable := no_errors, classes := sample_classes, halted := false } ∧
      program_class.semant sample_map (build_method_env sample_map []) 7 sample_classes =
        .ok { class_map := sample_map, method_env := build_method_env sample_map [],
              classtable :=
                { semant_errors := 1,
                  error_stream := [{ loc := some ("f.cl", 1),
                                     text := "redefinition of class Main.\n" }] },
              classes := sample_classes, halted := true } :=
  ⟨rfl,
    (semant_second_run [] [] 0 7 (mk_class "Main" "IO")
      [mk_class "A" "Object", mk_class "B" "A"]
      (show program_class.semant [] [] 0
          (mk_class "Main" "IO" :: [mk_class "A" "Object", mk_class "B" "A"]) =
        .ok { class_map := sample_map, method_env := build_method_env sample_map [],
              classtable := no_errors, classes := sample_classes, halted := false } from rfl)).1⟩

/-! ## The self-type marker in `cls_join` -/

/-- The answer of `is_subclass` for the marker `SELF_TYPE` as its first
argument is its answer for the name of the current class. -/
theorem is_subclass_self_type_sub (m : ClassMap) (s : Symbol) (tenv : type_env) :
    is_subclass m Sym.SELF_TYPE s tenv = is_subclass m tenv.c.name s tenv := by
  simp only [is_subclass, if_true, ite_self]

/-- The marker `SELF_TYPE` as the second argument of `cls_join` stands for the
current class: the loop hands it to `is_subclass`, which resolves it. -/
theorem cls_join_self_type_second (m : ClassMap) (a : Symbol) (tenv : type_env) :
    cls_join m a Sym.SELF_TYPE tenv = cls_join m a tenv.c.name tenv := by
  unfold cls_join
  generalize m.length + 1 = fuel
  generalize m.find a = start
  induction fuel generalizing start with
  | zero => cases start <;> rfl
  | succ n ih =>
    cases start with
    | none => rfl
    | some cls =>
      simp only [cls_join_loop, is_subclass_self_type_sub, ih]

/-- C22, the failing input: for the class `Main` with the method
`f() : Object { if true then self else 1 fi }` the constructor reports
nothing. In the context of `Main`, `cls_join(Main, Int)` is `Object`, but
`cls_join(SELF_TYPE, Int)` takes `class_map[SELF_TYPE]`, a null pointer, and
dereferences it; the branch `self` has the type `SELF_TYPE`, so the check of
the class ends in that fault. In the second argument the marker stands for the
current class: `cls_join(Int, SELF_TYPE)` is `cls_join(Int, Main)`. -/
theorem cls_join_self_type_first_faults :
    Validated 0 [self_cond_class] (single_map self_cond_class) ∧
      (single_map self_cond_class).registered "Main" ∧
      (single_map self_cond_class).registered Sym.Int ∧
      cls_join (single_map self_cond_class) "Main" Sym.Int (ctx self_cond_class) =
        .ok Sym.Object ∧
      cls_join (single_map self_cond_class) Sym.SELF_TYPE Sym.Int (ctx self_cond_class) =
        .error .null_deref ∧
      Expression.typecheck (single_map self_cond_class)
          { o := add_formals
              (((SymbolTable.enterscope []).enterscope).addid Sym.self Sym.SELF_TYPE) [],
            c := self_cond_class }
          no_errors (.object 2 none Sym.self) =
        .ok (Sym.SELF_TYPE, .object 2 (some Sym.SELF_TYPE) Sym.self, no_errors) ∧
      class__class.check (single_map self_cond_class) no_errors self_cond_class =
        .error .null_deref ∧
      cls_join (single_map self_cond_class) Sym.Int Sym.SELF_TYPE (ctx self_cond_class) =
        .ok Sym.Object ∧
      cls_join (single_map self_cond_class) Sym.Int "Main" (ctx self_cond_class) =
        .ok Sym.Object :=
  ⟨⟨by decide, ⟨_, rfl, rfl⟩⟩, ⟨_, rfl⟩, ⟨_, rfl⟩, by decide, by decide, rfl, rfl,
    by decide, by decide⟩

/-! ## Termination of the hierarchy walks -/

/-- The last member of a chain is `Object`, reached after as many parent links
as the chain has members but one. -/
theorem IsChain.depth {m : ClassMap} (wf : WellFormed m) {k : Symbol} {l : List Symbol}
    (h : IsChain m k l) :
    ∃ o, m.nth_parent (l.length - 1) k = some o ∧ o.name = Sym.Object := by
  induction h with
  | object ho => exact ⟨_, ho, wf.names _ _ ho⟩
  | @step k c l _ hf hl ih =>
    obtain ⟨o, ho, hn⟩ := ih
    refine ⟨o, ?_, hn⟩
    have hpos : 0 < l.length := List.length_pos_of_mem hl.self_mem
    have e : (k :: l).length - 1 = (l.length - 1) + 1 := by
      simp only [List.length_cons]
      omega
    rw [e]
    simp only [ClassMap.nth_parent, hf, ho]

/-- The loop of `cls_join` along the chain `la` of `a`, when `b` resolves to a
registered class: it returns the name of the class that stands `i` parent
links above `a`, for some `i` below the length of the chain, as soon as it is
allowed `i + 1` iterations. -/
theorem cls_join_loop_bound {m : ClassMap} (wf : WellFormed m) {b : Symbol} {tenv : type_env}
    {lb : List Symbol} (hb : IsChain m (resolve tenv b) lb) {a : Symbol} {la : List Symbol}
    (ha : IsChain m a la) :
    ∃ i c, i < la.length ∧ m.nth_parent i a = some c ∧
      ∀ fuel, i + 1 ≤ fuel → cls_join_loop m b tenv fuel (m.find a) = .ok c.name := by
  induction ha with
  | object ho =>
    refine ⟨0, _, by simp, ho, ?_⟩
    intro fuel hfuel
    cases fuel with
    | zero => simp at hfuel
    | succ n =>
      rw [ho]
      simp only [cls_join_loop, wf.names _ _ ho]
      rw [is_subclass_of_chain wf _ hb, resolve_of_ne (by decide)]
      simp [hb.object_mem]
  | @step k c l _ hf _ ih =>
    by_cases hmem : resolve tenv k ∈ lb
    · refine ⟨0, c, by simp, hf, ?_⟩
      intro fuel hfuel
      cases fuel with
      | zero => simp at hfuel
      | succ n =>
        rw [hf]
        simp only [cls_join_loop, wf.names _ _ hf]
        rw [is_subclass_of_chain wf _ hb]
        simp [hmem]
    · obtain ⟨i, c1, hi, hc1, hloop⟩ := ih
      refine ⟨i + 1, c1, by simpa using hi, by simp only [ClassMap.nth_parent, hf, hc1], ?_⟩
      intro fuel hfuel
      cases fuel with
      | zero => simp at hfuel
      | succ n =>
        rw [hf]
        simp only [cls_join_loop, wf.names _ _ hf]
        rw [is_subclass_of_chain wf _ hb]
        simp [hmem, hloop n (by omega)]

/-- C23: on a validated class table, in the context of a registered current
class: `is_subclass(T, Object, ctx)` is true for every registered class `T`;
for all registered `A` and `B`, with `Object` standing `d` parent links above
`A`, the loop of `cls_join(A, B, ctx)` returns the name of the class that
stands `i` links above `A` for some `i` not above `d`, as soon as it is allowed
`i + 1` candidates, so `cls_join` returns that name and the parent of `Object`
is never stepped to; and `is_subclass` returns on every pair of symbols, in
every context. -/
theorem hierarchy_walks_terminate {ln : Nat} {classes : List Class_} {m : ClassMap}
    (hv : Validated ln classes m) {tenv : type_env} (hctx : m.registered tenv.c.name) :
    (∀ T, m.registered T → is_subclass m T Sym.Object tenv = .ok true) ∧
    (∀ A B, m.registered A → m.registered B →
      ∃ d o i c, m.nth_parent d A = some o ∧ o.name = Sym.Object ∧ i ≤ d ∧
        m.nth_parent i A = some c ∧
        (∀ fuel, i + 1 ≤ fuel → cls_join_loop m B tenv fuel (m.find A) = .ok c.name) ∧
        cls_join m A B tenv = .ok c.name) ∧
    (∀ (x y : Symbol) (tenv1 : type_env), ∃ r, is_subclass m x y tenv1 = .ok r) := by
  have wf := hv.wellFormed
  refine ⟨?_, ?_, fun x y tenv1 => is_subclass_total wf x y tenv1⟩
  · intro T hT
    obtain ⟨l, hl⟩ := wf.chain_of_registered (registered_resolve hT hctx)
    rw [is_subclass_of_chain wf _ hl, resolve_of_ne (by decide)]
    simp [hl.object_mem]
  · intro A B hA hB
    obtain ⟨la, hla⟩ := wf.chain_of_registered hA
    obtain ⟨lb, hlb⟩ := wf.chain_of_registered (registered_resolve hB hctx)
    obtain ⟨o, ho, hon⟩ := hla.depth wf
    obtain ⟨i, c, hi, hc, hloop⟩ := cls_join_loop_bound wf hlb hla
    refine ⟨la.length - 1, o, i, c, ho, hon, by omega, hc, hloop, ?_⟩
    exact hloop _ (by have := hla.length_le; omega)

/-- C23, witness: the sample program in the context of `Main`. The join of
`B` and `Main` is `Object`, found two links above `B`, with three candidates
and not with two. -/
theorem hierarchy_walks_terminate_witness :
    ((∀ T, sample_map.registered T →
        is_subclass sample_map T Sym.Object (ctx (mk_class "Main" "IO")) = .ok true) ∧
      (∀ A B, sample_map.registered A → sample_map.registered B →
        ∃ d o i c, sample_map.nth_parent d A = some o ∧ o.name = Sym.Object ∧ i ≤ d ∧
          sample_map.nth_parent i A = some c ∧
          (∀ fuel, i + 1 ≤ fuel →
            cls_join_loop sample_map B (ctx (mk_class "Main" "IO")) fuel (sample_map.find A) =
              .ok c.name) ∧
          cls_join sample_map A B (ctx (mk_class "Main" "IO")) = .ok c.name) ∧
      (∀ (x y : Symbol) (tenv1 : type_env), ∃ r, is_subclass sample_map x y tenv1 = .ok r)) ∧
      cls_join sample_map "B" "Main" (ctx (mk_class "Main" "IO")) = .ok Sym.Object ∧
      cls_join_loop sample_map "Main" (ctx (mk_class "Main" "IO")) 3 (sample_map.find "B") =
        .ok Sym.Object ∧
      cls_join_loop sample_map "Main" (ctx (mk_class "Main" "IO")) 2 (sample_map.find "B") =
        .error .nontermination :=
  ⟨hierarchy_walks_terminate sample_validated
    (show sample_map.registered (ctx (mk_class "Main" "IO")).c.name from ⟨_, rfl⟩),
    by decide, by decide, by decide⟩

end Semant
